import Mathlib

/-!
Verification of the slot registry (`src/slots.ts`).

The source is a single-threaded, cooperatively scheduled throttling library.
We give it a shallow embedding as a deterministic event-loop interpreter:

* a `State` holds the global registry (`MySlots`), the allocated cancellation
  contexts, the suspended `start` calls ("tasks"), the in-flight asynchronous
  handler executions, the pending timers, and the clock;
* each suspended `start` call is a task whose `Phase` records at which of the
  three `await` points of `start` it is parked (the period wait at line 158,
  the prior-execution wait at line 170, the own-execution wait at line 185);
* handlers are modelled by their observable behaviour (`HandlerSpec`): return
  synchronously, throw synchronously, return a promise resolving after `d`
  milliseconds, or return a promise rejecting after `d` milliseconds;
* external events (`Event`) are the public operations plus a one-millisecond
  clock tick; a tick fires every due timer (earliest due first, registration
  order on ties), exactly like the test-suite's fake-timer clock.

The `invocations` trace and the `overlaps` counter are ghost instrumentation:
`invocations` logs the slot and time of every handler invocation (line 181),
and `overlaps` counts invocations made while another execution on the same
slot was still incomplete.  Neither influences the behaviour of the model.
-/

namespace Slots

/-- Scheduling mode of a `start` call: `"push" | "ignore" | "cooldown"`. -/
inductive Mode where
  | push
  | ignore
  | cooldown
deriving Repr, DecidableEq

/-- Observable behaviour of a `SlotHandler`: synchronous return, synchronous
throw, or a returned promise that resolves (`async d`) or rejects
(`asyncReject d`) after `d` milliseconds. -/
inductive HandlerSpec where
  | sync
  | syncThrow
  | async (d : Nat)
  | asyncReject (d : Nat)
deriving Repr, DecidableEq, Inhabited

/-- Per-slot state (`SlotInfo` in the source).  `context` is the index of the
current cancellation context, `lastTriggered` the last invocation time, and
`executing` the index of the in-flight asynchronous execution, if any. -/
structure SlotInfo where
  context : Nat
  lastTriggered : Option Nat
  executing : Option Nat
deriving Repr, DecidableEq, Inhabited

/-- Where a suspended `start` call is parked.  `waitTimer due` is the period
wait (line 158), `waitExec e` the prior-execution wait (line 170),
`running e` the wait on the call's own handler execution (line 185).
`doneOk` means `start` returned normally, `failed` that it rejected with the
handler's propagated error. -/
inductive Phase where
  | waitTimer (due : Nat)
  | waitExec (e : Nat)
  | running (e : Nat)
  | doneOk
  | failed
deriving Repr, DecidableEq, Inhabited

/-- A `start` call in flight: its slot, its captured context (line 125),
its handler and its current phase. -/
structure STask where
  slot : String
  ctx : Nat
  handler : HandlerSpec
  phase : Phase
deriving Repr, DecidableEq, Inhabited

/-- An asynchronous handler execution (the promise stored in
`slotInfo.executing`): the slot, the invoking call's context and task id,
whether the promise rejects, whether it has settled, and the tasks parked on
it at line 170 in attach order (the invoker itself is parked at line 185 and
always resumes first). -/
structure ExecInfo where
  slot : String
  ctx : Nat
  invoker : Nat
  rejects : Bool
  done : Bool
  waiters : List Nat
deriving Repr, DecidableEq, Inhabited

/-- What a pending timer does when it fires: wake a task parked at the period
wait, or settle an asynchronous handler execution. -/
inductive TAct where
  | wake (tid : Nat)
  | complete (eid : Nat)
deriving Repr, DecidableEq, Inhabited

/-- Global interpreter state.  `slots` is the `MySlots` registry in insertion
order; `ctxs` holds every allocated context's cancel flag (index = id);
`tasks` and `execs` likewise are id-indexed; `timers` is the pending-timer
list in registration order; `invocations` and `overlaps` are ghost trace
fields (see the file header). -/
structure State where
  slots : List (String × SlotInfo)
  ctxs : List Bool
  tasks : List STask
  execs : List ExecInfo
  timers : List (Nat × TAct)
  now : Nat
  invocations : List (String × Nat)
  overlaps : Nat
deriving Repr, DecidableEq, Inhabited

/-- Look up a slot's info in the registry. -/
def lookupSlot (s : State) (sl : String) : Option SlotInfo :=
  (s.slots.find? (fun p => p.1 == sl)).map (fun p => p.2)

/-- Update a slot's info in place. -/
def updSlot (s : State) (sl : String) (f : SlotInfo → SlotInfo) : State :=
  { s with slots := s.slots.map (fun p => if p.1 == sl then (p.1, f p.2) else p) }

/-- Read a context's cancel flag (`context.cancel`); an out-of-range id reads
as canceled. -/
def ctxCanceled (s : State) (c : Nat) : Bool :=
  s.ctxs.getD c true

/-- Set a context's cancel flag (`context.cancel = true`). -/
def setCancel (s : State) (c : Nat) : State :=
  { s with ctxs := s.ctxs.set c true }

/-- Read a task by id. -/
def getTask (s : State) (tid : Nat) : STask :=
  s.tasks.getD tid default

/-- Set a task's phase. -/
def setPhase (s : State) (tid : Nat) (p : Phase) : State :=
  { s with tasks := s.tasks.set tid { s.tasks.getD tid default with phase := p } }

/-- Read an execution by id. -/
def getExec (s : State) (eid : Nat) : ExecInfo :=
  s.execs.getD eid default

/-- The in-flight execution recorded for a slot (`slotInfo.executing`). -/
def execOf (s : State) (sl : String) : Option Nat :=
  (lookupSlot s sl).bind (fun si => si.executing)

/-- Source lines 49–61: get slot info or create it; a fresh slot's context is
pre-canceled (`cancel: true`). -/
def getOrCreateSlotInfo (s : State) (sl : String) : State :=
  match lookupSlot s sl with
  | some _ => s
  | none =>
      { s with
        ctxs := s.ctxs ++ [true],
        slots := s.slots ++ [(sl, ⟨s.ctxs.length, none, none⟩)] }

/-- Source line 74: `(slotInfo.lastTriggered ?? -period) + period - timeNow()`,
computed over the integers. -/
def timeToNextVal (s : State) (sl : String) (period : Nat) : Int :=
  ((((lookupSlot s sl).bind (fun si => si.lastTriggered)).map
      (fun n => (n : Int))).getD (-(period : Int))) + (period : Int) - (s.now : Int)

/-- Source lines 72–76: the value `onCD` returns, `!(timeToNext <= 0)`. -/
def onCD (s : State) (sl : String) (period : Nat) : Bool :=
  !(timeToNextVal s sl period ≤ 0)

/-- Lines 181–189, async case: create the execution record, store it in
`slotInfo.executing`, register its settlement timer, park the invoker at
line 185. -/
def startExec (s : State) (tid : Nat) (t : STask) (rej : Bool) (d : Nat) : State :=
  let eid := s.execs.length
  let s1 : State :=
    { s with
      execs := s.execs ++ [⟨t.slot, t.ctx, tid, rej, false, []⟩],
      timers := s.timers ++ [(s.now + d, TAct.complete eid)] }
  let s2 := updSlot s1 t.slot (fun si => { si with executing := some eid })
  setPhase s2 tid (Phase.running eid)

/-- Lines 179–193: update `lastTriggered` to `max(lastTriggered ?? now, now)`
and invoke the handler.  A synchronous handler completes at once and marks
the context canceled (line 192); a synchronously throwing handler propagates
before line 192; an asynchronous handler is recorded via `startExec`.
Ghost: the invocation is logged, and `overlaps` is bumped if another
execution on this slot is still incomplete. -/
def invokeHandler (s : State) (tid : Nat) : State :=
  let t := getTask s tid
  let busy := s.execs.any (fun e => !e.done && e.slot == t.slot)
  let s1 : State :=
    { s with
      invocations := s.invocations ++ [(t.slot, s.now)],
      overlaps := s.overlaps + (if busy then 1 else 0) }
  let s2 := updSlot s1 t.slot
    (fun si => { si with lastTriggered := some (max (si.lastTriggered.getD s1.now) s1.now) })
  match t.handler with
  | HandlerSpec.sync => setPhase (setCancel s2 t.ctx) tid Phase.doneOk
  | HandlerSpec.syncThrow => setPhase s2 tid Phase.failed
  | HandlerSpec.async d => startExec s2 tid t false d
  | HandlerSpec.asyncReject d => startExec s2 tid t true d

/-- Lines 177–193: the cancellation re-check after the prior-execution wait;
a canceled context returns silently, otherwise the handler is invoked. -/
def resumeTask (s : State) (tid : Nat) : State :=
  let t := getTask s tid
  if ctxCanceled s t.ctx then setPhase s tid Phase.doneOk
  else invokeHandler s tid

/-- Lines 165–176: the continuation after the period wait.  Check the cancel
flag (line 165); if an execution is recorded, await it: park on it if it is
still pending, rethrow if it is already rejected, continue if it is already
settled; otherwise continue directly to the line-177 re-check. -/
def afterWait (s : State) (tid : Nat) : State :=
  let t := getTask s tid
  if ctxCanceled s t.ctx then setPhase s tid Phase.doneOk
  else
    match execOf s t.slot with
    | some eid =>
        let e := getExec s eid
        if e.done then
          if e.rejects then setPhase s tid Phase.failed
          else resumeTask s tid
        else
          let s1 : State :=
            { s with execs := s.execs.set eid { e with waiters := e.waiters ++ [tid] } }
          setPhase s1 tid (Phase.waitExec eid)
    | none => resumeTask s tid

/-- Settlement of an asynchronous handler execution.  On success the invoker
resumes first (attach order): it deletes `slotInfo.executing` (line 188) and
marks its context canceled (line 192).  On rejection the `await` at line 185
rethrows, so lines 188 and 192 never run and the invoking `start` call
rejects.  Then the tasks parked at line 170 resume in attach order; they
rethrow too if the execution rejected. -/
def completeExec (s : State) (eid : Nat) : State :=
  let e := getExec s eid
  let s1 : State := { s with execs := s.execs.set eid { e with done := true } }
  let s2 :=
    if e.rejects then setPhase s1 e.invoker Phase.failed
    else
      setPhase (setCancel (updSlot s1 e.slot (fun si => { si with executing := none }))
        e.ctx) e.invoker Phase.doneOk
  e.waiters.foldl
    (fun acc w => if e.rejects then setPhase acc w Phase.failed else resumeTask acc w) s2

/-- Lines 147–163 after mode resolution: admission succeeded, so install a
fresh (non-canceled) context as the slot's current context (line 155) and
either park until the period elapses (lines 157–163) or continue in the same
synchronous execution path when the period is zero. -/
def startAdmit (s : State) (sl : String) (period : Nat) (h : HandlerSpec) : State :=
  let c := s.ctxs.length
  let s1 : State := { s with ctxs := s.ctxs ++ [false] }
  let s2 := updSlot s1 sl (fun si => { si with context := c })
  let tid := s2.tasks.length
  if period ≠ 0 then
    { s2 with
      tasks := s2.tasks ++ [⟨sl, c, h, Phase.waitTimer (s2.now + period)⟩],
      timers := s2.timers ++ [(s2.now + period, TAct.wake tid)] }
  else
    afterWait { s2 with tasks := s2.tasks ++ [⟨sl, c, h, Phase.waitTimer s2.now⟩] } tid

/-- Source lines 116–163: the `start` entry point.  `cooldown` recomputes the
effective period from `timeToNext` and continues as `ignore` (lines 127–145);
`push` cancels the current context (line 149); `ignore` is dropped unless the
current context is canceled (line 151). -/
def start (s : State) (sl : String) (mode : Mode) (period : Nat) (h : HandlerSpec) :
    State :=
  let s1 := getOrCreateSlotInfo s sl
  let si := (lookupSlot s1 sl).getD default
  let pm : Nat × Mode :=
    match mode with
    | Mode.cooldown =>
        let timeToNext := timeToNextVal s1 sl period
        if timeToNext ≤ 0 then (0, Mode.ignore) else (timeToNext.toNat, Mode.ignore)
    | m => (period, m)
  match pm.2 with
  | Mode.push => startAdmit (setCancel s1 si.context) sl pm.1 h
  | _ => if ctxCanceled s1 si.context then startAdmit s1 sl pm.1 h else s1

/-- Source lines 197–200: `cancel` marks the slot's current context canceled
(creating the slot first if needed, like every entry point). -/
def cancel (s : State) (sl : String) : State :=
  let s1 := getOrCreateSlotInfo s sl
  setCancel s1 ((lookupSlot s1 sl).getD default).context

/-- Pick the pending timer that fires next: the earliest due time not past the
clock; ties go to the earlier-registered timer.  Returns it together with the
remaining list. -/
def pickDue (now : Nat) : List (Nat × TAct) → Option ((Nat × TAct) × List (Nat × TAct))
  | [] => none
  | e :: rest =>
      if e.1 ≤ now then
        match pickDue now rest with
        | some (e', rest') => if e'.1 < e.1 then some (e', e :: rest') else some (e, rest)
        | none => some (e, rest)
      else
        match pickDue now rest with
        | some (e', rest') => some (e', e :: rest')
        | none => none

/-- Fire one timer: wake a task parked at the period wait, or settle an
execution. -/
def fireTimer (s : State) (a : TAct) : State :=
  match a with
  | TAct.wake tid => afterWait s tid
  | TAct.complete eid => completeExec s eid

/-- Fire every due timer, next-due first.  The fuel only bounds the loop; it
is always generous enough (`fireDue_quiescent`). -/
def fireDue : Nat → State → State
  | 0, s => s
  | fuel + 1, s =>
      match pickDue s.now s.timers with
      | none => s
      | some (e, rest) => fireDue fuel (fireTimer { s with timers := rest } e.2)

/-- Advance the clock by one millisecond and fire every timer that has become
due, like the test suite's fake clock. -/
def tick (s : State) : State :=
  let s1 : State := { s with now := s.now + 1 }
  fireDue (s1.timers.length + 2 * s1.tasks.length + 1) s1

/-- External events: the three public operations and a one-millisecond clock
tick. -/
inductive Event where
  | start (sl : String) (mode : Mode) (period : Nat) (h : HandlerSpec)
  | cancel (sl : String)
  | onCD (sl : String) (period : Nat)
  | tick
deriving Repr, DecidableEq

/-- Process one external event.  `onCD`'s only mutation is the lazy slot
creation; its answer is the pure `onCD` value. -/
def step (s : State) : Event → State
  | Event.start sl m p h => Slots.start s sl m p h
  | Event.cancel sl => Slots.cancel s sl
  | Event.onCD sl _ => getOrCreateSlotInfo s sl
  | Event.tick => Slots.tick s

/-- The empty registry at time zero. -/
def init : State := ⟨[], [], [], [], [], 0, [], 0⟩

/-- Run an event list from the empty registry. -/
def run (evs : List Event) : State := evs.foldl step init

/-- Ticks iterated. -/
def ticks (n : Nat) (s : State) : State := (List.replicate n Event.tick).foldl step s

/-! ### Basic lemmas about the registry accessors -/

theorem setTrue_id (l : List Bool) (c : Nat) (h : l.getD c true = true) :
    l.set c true = l := by
  induction l generalizing c with
  | nil => rfl
  | cons a t ih =>
      cases c with
      | zero => simp only [List.getD_cons_zero] at h; rw [List.set_cons_zero, h]
      | succ c => simp only [List.getD_cons_succ] at h; rw [List.set_cons_succ, ih c h]

theorem getOrCreate_of_some {s : State} {sl : String} {si : SlotInfo}
    (h : lookupSlot s sl = some si) : getOrCreateSlotInfo s sl = s := by
  unfold getOrCreateSlotInfo
  rw [h]

theorem lookupSlot_getOrCreate_self (s : State) (sl : String) :
    lookupSlot (getOrCreateSlotInfo s sl) sl
      = some ((lookupSlot s sl).getD ⟨s.ctxs.length, none, none⟩) := by
  cases h : lookupSlot s sl with
  | some si => rw [getOrCreate_of_some h, h]; rfl
  | none =>
      unfold getOrCreateSlotInfo
      rw [h]
      unfold lookupSlot at h ⊢
      have hf : s.slots.find? (fun p => p.1 == sl) = none := by
        cases hx : s.slots.find? (fun p => p.1 == sl) <;> simp [hx] at h ⊢
      simp [List.find?_append, hf]

theorem lookupSlot_getOrCreate_other {s : State} {sl sl' : String} (h : sl' ≠ sl) :
    lookupSlot (getOrCreateSlotInfo s sl) sl' = lookupSlot s sl' := by
  cases hx : lookupSlot s sl with
  | some si => rw [getOrCreate_of_some hx]
  | none =>
      unfold getOrCreateSlotInfo
      rw [hx]
      unfold lookupSlot
      have : (sl == sl') = false := by
        simp only [beq_eq_false_iff_ne, ne_eq]
        exact fun hh => h hh.symm
      simp [List.find?_append, this]

theorem getOrCreate_now (s : State) (sl : String) :
    (getOrCreateSlotInfo s sl).now = s.now := by
  unfold getOrCreateSlotInfo
  cases lookupSlot s sl <;> rfl

theorem bind_lastTriggered_getOrCreate (s : State) (sl sl' : String) :
    (lookupSlot (getOrCreateSlotInfo s sl) sl').bind SlotInfo.lastTriggered
      = (lookupSlot s sl').bind SlotInfo.lastTriggered := by
  by_cases h : sl' = sl
  · subst h
    rw [lookupSlot_getOrCreate_self]
    cases hx : lookupSlot s sl' with
    | some si => simp [hx]
    | none => simp [hx]
  · rw [lookupSlot_getOrCreate_other h]

theorem timeToNextVal_getOrCreate (s : State) (sl sl' : String) (p : Nat) :
    timeToNextVal (getOrCreateSlotInfo s sl) sl' p = timeToNextVal s sl' p := by
  unfold timeToNextVal
  rw [bind_lastTriggered_getOrCreate, getOrCreate_now]

theorem onCD_getOrCreate (s : State) (sl sl' : String) (p : Nat) :
    onCD (getOrCreateSlotInfo s sl) sl' p = onCD s sl' p := by
  unfold onCD
  rw [timeToNextVal_getOrCreate]

theorem find?_mapUpd (l : List (String × SlotInfo)) (sl : String)
    (f : SlotInfo → SlotInfo) :
    (l.map (fun p => if p.1 == sl then (p.1, f p.2) else p)).find?
        (fun p => p.1 == sl)
      = (l.find? (fun p => p.1 == sl)).map (fun p => (p.1, f p.2)) := by
  induction l with
  | nil => rfl
  | cons a t ih =>
      simp only [List.map_cons]
      by_cases h : a.1 = sl
      · have hb : (a.1 == sl) = true := by simp [h]
        rw [if_pos hb]
        rw [@List.find?_cons_of_pos _ (fun p => p.1 == sl) (a.1, f a.2) _ hb]
        rw [@List.find?_cons_of_pos _ (fun p => p.1 == sl) a _ hb]
        rfl
      · have hb : (a.1 == sl) = false := by simp [h]
        rw [if_neg (by simp [hb])]
        rw [@List.find?_cons_of_neg _ (fun p => p.1 == sl) a _ (by simp [hb])]
        rw [@List.find?_cons_of_neg _ (fun p => p.1 == sl) a _ (by simp [hb])]
        exact ih

theorem lookupSlot_updSlot_self (s : State) (sl : String) (f : SlotInfo → SlotInfo) :
    lookupSlot (updSlot s sl f) sl = (lookupSlot s sl).map f := by
  unfold lookupSlot updSlot
  rw [find?_mapUpd]
  cases s.slots.find? (fun p => p.1 == sl) <;> rfl

theorem find?_mapUpd_other (l : List (String × SlotInfo)) {sl sl' : String}
    (h : sl' ≠ sl) (f : SlotInfo → SlotInfo) :
    (l.map (fun p => if p.1 == sl then (p.1, f p.2) else p)).find?
        (fun p => p.1 == sl')
      = l.find? (fun p => p.1 == sl') := by
  induction l with
  | nil => rfl
  | cons a t ih =>
      simp only [List.map_cons]
      by_cases hx : a.1 = sl
      · have hb : (a.1 == sl) = true := by simp [hx]
        have hb' : (a.1 == sl') = false := by
          simp only [beq_eq_false_iff_ne, ne_eq, hx]
          exact fun hh => h hh.symm
        rw [if_pos hb]
        rw [@List.find?_cons_of_neg _ (fun p => p.1 == sl') (a.1, f a.2) _ (by simp [hb'])]
        rw [@List.find?_cons_of_neg _ (fun p => p.1 == sl') a _ (by simp [hb'])]
        exact ih
      · have hb : (a.1 == sl) = false := by simp [hx]
        rw [if_neg (by simp [hb])]
        by_cases hy : a.1 = sl'
        · have hb' : (a.1 == sl') = true := by simp [hy]
          rw [@List.find?_cons_of_pos _ (fun p => p.1 == sl') a _ hb']
          rw [@List.find?_cons_of_pos _ (fun p => p.1 == sl') a _ hb']
        · have hb' : (a.1 == sl') = false := by simp [hy]
          rw [@List.find?_cons_of_neg _ (fun p => p.1 == sl') a _ (by simp [hb'])]
          rw [@List.find?_cons_of_neg _ (fun p => p.1 == sl') a _ (by simp [hb'])]
          exact ih

theorem lookupSlot_updSlot_other (s : State) {sl sl' : String} (h : sl' ≠ sl)
    (f : SlotInfo → SlotInfo) :
    lookupSlot (updSlot s sl f) sl' = lookupSlot s sl' := by
  unfold lookupSlot updSlot
  rw [find?_mapUpd_other _ h]

theorem bind_executing_getOrCreate (s : State) (sl sl' : String) :
    (lookupSlot (getOrCreateSlotInfo s sl) sl').bind SlotInfo.executing
      = (lookupSlot s sl').bind SlotInfo.executing := by
  by_cases h : sl' = sl
  · subst h
    rw [lookupSlot_getOrCreate_self]
    cases hx : lookupSlot s sl' with
    | some si => simp [hx]
    | none => simp [hx]
  · rw [lookupSlot_getOrCreate_other h]

theorem getD_concat_length {α : Type} (l : List α) (x d : α) :
    (l ++ [x]).getD l.length d = x := by
  rw [List.getD_eq_getElem?_getD, List.getElem?_concat_length]
  rfl

/-! ### Frame lemmas: each accessor through each state transformer -/

theorem lookupSlot_mk_slots (s : State) (cx : List Bool) (ts : List STask)
    (ex : List ExecInfo) (tm : List (Nat × TAct)) (n : Nat)
    (inv : List (String × Nat)) (ov : Nat) (x : String) :
    lookupSlot ⟨s.slots, cx, ts, ex, tm, n, inv, ov⟩ x = lookupSlot s x := rfl

theorem lookupSlot_setCancel (s : State) (c : Nat) (x : String) :
    lookupSlot (setCancel s c) x = lookupSlot s x := rfl

theorem lookupSlot_setPhase (s : State) (tid : Nat) (p : Phase) (x : String) :
    lookupSlot (setPhase s tid p) x = lookupSlot s x := rfl

theorem now_setCancel (s : State) (c : Nat) : (setCancel s c).now = s.now := rfl

theorem now_setPhase (s : State) (tid : Nat) (p : Phase) :
    (setPhase s tid p).now = s.now := rfl

theorem now_updSlot (s : State) (sl : String) (f : SlotInfo → SlotInfo) :
    (updSlot s sl f).now = s.now := rfl

theorem invocations_setCancel (s : State) (c : Nat) :
    (setCancel s c).invocations = s.invocations := rfl

theorem invocations_setPhase (s : State) (tid : Nat) (p : Phase) :
    (setPhase s tid p).invocations = s.invocations := rfl

theorem invocations_updSlot (s : State) (sl : String) (f : SlotInfo → SlotInfo) :
    (updSlot s sl f).invocations = s.invocations := rfl

theorem timers_setCancel (s : State) (c : Nat) : (setCancel s c).timers = s.timers := rfl

theorem timers_setPhase (s : State) (tid : Nat) (p : Phase) :
    (setPhase s tid p).timers = s.timers := rfl

theorem timers_updSlot (s : State) (sl : String) (f : SlotInfo → SlotInfo) :
    (updSlot s sl f).timers = s.timers := rfl

theorem ctxCanceled_setPhase (s : State) (tid : Nat) (p : Phase) (c : Nat) :
    ctxCanceled (setPhase s tid p) c = ctxCanceled s c := rfl

theorem ctxCanceled_updSlot (s : State) (sl : String) (f : SlotInfo → SlotInfo)
    (c : Nat) : ctxCanceled (updSlot s sl f) c = ctxCanceled s c := rfl

theorem ctxCanceled_mk_ctxs (s : State) (sls : List (String × SlotInfo))
    (ts : List STask) (ex : List ExecInfo) (tm : List (Nat × TAct)) (n : Nat)
    (inv : List (String × Nat)) (ov : Nat) (c : Nat) :
    ctxCanceled ⟨sls, s.ctxs, ts, ex, tm, n, inv, ov⟩ c = ctxCanceled s c := rfl

theorem getTask_setCancel (s : State) (c : Nat) (tid : Nat) :
    getTask (setCancel s c) tid = getTask s tid := rfl

theorem getTask_updSlot (s : State) (sl : String) (f : SlotInfo → SlotInfo)
    (tid : Nat) : getTask (updSlot s sl f) tid = getTask s tid := rfl

theorem getTask_mk_tasks (s : State) (sls : List (String × SlotInfo))
    (cx : List Bool) (ex : List ExecInfo) (tm : List (Nat × TAct)) (n : Nat)
    (inv : List (String × Nat)) (ov : Nat) (tid : Nat) :
    getTask ⟨sls, cx, s.tasks, ex, tm, n, inv, ov⟩ tid = getTask s tid := rfl

theorem getExec_setCancel (s : State) (c : Nat) (eid : Nat) :
    getExec (setCancel s c) eid = getExec s eid := rfl

theorem getExec_setPhase (s : State) (tid : Nat) (p : Phase) (eid : Nat) :
    getExec (setPhase s tid p) eid = getExec s eid := rfl

theorem getExec_updSlot (s : State) (sl : String) (f : SlotInfo → SlotInfo)
    (eid : Nat) : getExec (updSlot s sl f) eid = getExec s eid := rfl

theorem getTask_setPhase_self {s : State} {tid : Nat} (h : tid < s.tasks.length)
    (p : Phase) :
    getTask (setPhase s tid p) tid = { getTask s tid with phase := p } := by
  unfold getTask setPhase
  simp only [List.getD_eq_getElem?_getD]
  rw [List.getElem?_set_self (by simpa using h)]
  simp [List.getD_eq_getElem?_getD]

theorem getTask_setPhase_other {s : State} {tid tid' : Nat} (h : tid' ≠ tid)
    (p : Phase) :
    getTask (setPhase s tid p) tid' = getTask s tid' := by
  unfold getTask setPhase
  simp only [List.getD_eq_getElem?_getD]
  rw [List.getElem?_set_ne (fun hh => h hh.symm)]

/-! ### C6: the `onCD` query -/

/-- C6: `onCD(slot, period)` returns true iff
`(lastTriggeredAt ?? -period) + period - now > 0`; processing an `onCD` event
mutates nothing beyond the lazy slot creation (and is the identity when the
slot already exists); and a slot that has never fired is not on cooldown for
any period. -/
theorem onCD_correct (s : State) (sl : String) (p : Nat) :
    (onCD s sl p = true ↔ 0 < timeToNextVal s sl p)
    ∧ ((lookupSlot s sl).bind SlotInfo.lastTriggered = none → onCD s sl p = false)
    ∧ step s (Event.onCD sl p) = getOrCreateSlotInfo s sl
    ∧ (∀ si, lookupSlot s sl = some si → step s (Event.onCD sl p) = s) := by
  refine ⟨?_, ?_, rfl, ?_⟩
  · unfold onCD
    simp [not_le]
  · intro h
    unfold onCD timeToNextVal
    rw [h]
    have h1 : (((none : Option Nat).map fun k => (k : Int)).getD (-(p : Int)))
        = -(p : Int) := rfl
    rw [h1]
    have : -(p : Int) + (p : Int) - (s.now : Int) ≤ 0 := by omega
    simp [this]
  · intro si hsi
    exact getOrCreate_of_some hsi

/-- Witness for `onCD_correct`: a never-fired slot in the empty registry is
off cooldown. -/
theorem onCD_correct_witness :
    (lookupSlot Slots.init "a").bind SlotInfo.lastTriggered = none
    ∧ onCD Slots.init "a" 3 = false :=
  ⟨rfl, (onCD_correct Slots.init "a" 3).2.1 rfl⟩

/-! ### C5: cooldown reduces to ignore with the recomputed period -/

/-- C5: a cooldown-mode `start` call behaves exactly like an ignore-mode call
whose period is recomputed to `max 0 ((lastTriggeredAt ?? -P) + P - now)`:
the two calls produce identical states, so an off-cooldown call fires
immediately (period 0) and an on-cooldown call is scheduled at exactly the
cooldown boundary with ignore-mode admission from there on. -/
theorem cooldown_refines_ignore (s : State) (sl : String) (P : Nat)
    (h : HandlerSpec) :
    Slots.start s sl Mode.cooldown P h
      = Slots.start s sl Mode.ignore (max 0 (timeToNextVal s sl P)).toNat h := by
  by_cases hc : timeToNextVal s sl P ≤ 0
  · have h0 : (max 0 (timeToNextVal s sl P)).toNat = 0 := by
      rw [max_eq_left hc]; rfl
    rw [h0]
    simp only [Slots.start, timeToNextVal_getOrCreate, if_pos hc]
  · have h0 : (max 0 (timeToNextVal s sl P)).toNat = (timeToNextVal s sl P).toNat := by
      rw [max_eq_right (le_of_lt (lt_of_not_le hc))]
    rw [h0]
    simp only [Slots.start, timeToNextVal_getOrCreate, if_neg hc]

/-! ### C9: `cancel` -/

/-- C9: `cancel` only sets the current context's cancel flag.  It is
idempotent, it is the identity when the slot's current context is already
canceled (idle), it changes no field of the state other than the context
flags (beyond the lazy slot creation shared by every entry point), and every
subsequent `onCD` answer is unaffected. -/
theorem cancel_correct (s : State) (sl : String) :
    Slots.cancel (Slots.cancel s sl) sl = Slots.cancel s sl
    ∧ (∀ si, lookupSlot s sl = some si → ctxCanceled s si.context = true →
        Slots.cancel s sl = s)
    ∧ (Slots.cancel s sl).slots = (getOrCreateSlotInfo s sl).slots
    ∧ (Slots.cancel s sl).tasks = s.tasks
    ∧ (Slots.cancel s sl).execs = s.execs
    ∧ (Slots.cancel s sl).timers = s.timers
    ∧ (Slots.cancel s sl).now = s.now
    ∧ (Slots.cancel s sl).invocations = s.invocations
    ∧ (∀ sl' p, onCD (Slots.cancel s sl) sl' p = onCD s sl' p) := by
  have hframe : (getOrCreateSlotInfo s sl).tasks = s.tasks
      ∧ (getOrCreateSlotInfo s sl).execs = s.execs
      ∧ (getOrCreateSlotInfo s sl).timers = s.timers
      ∧ (getOrCreateSlotInfo s sl).now = s.now
      ∧ (getOrCreateSlotInfo s sl).invocations = s.invocations := by
    unfold getOrCreateSlotInfo
    cases lookupSlot s sl <;> exact ⟨rfl, rfl, rfl, rfl, rfl⟩
  refine ⟨?_, ?_, rfl, hframe.1, hframe.2.1, hframe.2.2.1, hframe.2.2.2.1,
    hframe.2.2.2.2, ?_⟩
  · -- idempotence
    simp only [Slots.cancel]
    have h2 := lookupSlot_getOrCreate_self s sl
    have h1 : lookupSlot
        (setCancel (getOrCreateSlotInfo s sl)
          ((lookupSlot (getOrCreateSlotInfo s sl) sl).getD default).context) sl
        = lookupSlot (getOrCreateSlotInfo s sl) sl := rfl
    rw [getOrCreate_of_some (h1.trans h2), h1, h2]
    simp only [Option.getD_some]
    simp [setCancel, List.set_set]
  · -- identity on an idle slot
    intro si hsi hcanc
    simp only [Slots.cancel]
    rw [getOrCreate_of_some hsi, hsi]
    simp only [Option.getD_some]
    unfold setCancel
    rw [setTrue_id s.ctxs si.context hcanc]
  · -- onCD unaffected
    intro sl' p
    have : onCD (Slots.cancel s sl) sl' p = onCD (getOrCreateSlotInfo s sl) sl' p := rfl
    rw [this, onCD_getOrCreate]

/-- Witness for `cancel_correct`: canceling an idle slot that has already
fired is the identity. -/
theorem cancel_correct_witness :
    Slots.cancel (run [Event.start "a" Mode.ignore 0 HandlerSpec.sync]) "a"
      = run [Event.start "a" Mode.ignore 0 HandlerSpec.sync] :=
  (cancel_correct (run [Event.start "a" Mode.ignore 0 HandlerSpec.sync]) "a").2.1
    ⟨1, some 0, none⟩ (by decide) (by decide)

/-! ### C4: a busy slot drops ignore-mode calls with no observable effect -/

/-- C4: an ignore-mode `start` call (or a cooldown-derived one) on a slot
whose current context is not canceled — a pending or executing invocation
exists — returns the state exactly unchanged: no handler invocation, no
change to the current context, `lastTriggered`, `executing`, and every
`onCD` answer is as if the call had not happened. -/
theorem ignore_busy_noop (s : State) (sl : String) (p : Nat) (hd : HandlerSpec)
    (si : SlotInfo) (hsi : lookupSlot s sl = some si)
    (hbusy : ctxCanceled s si.context = false) :
    Slots.start s sl Mode.ignore p hd = s
    ∧ Slots.start s sl Mode.cooldown p hd = s
    ∧ (∀ sl' p', onCD (Slots.start s sl Mode.ignore p hd) sl' p' = onCD s sl' p') := by
  have hIg : ∀ q, Slots.start s sl Mode.ignore q hd = s := by
    intro q
    simp only [Slots.start, getOrCreate_of_some hsi, hsi, Option.getD_some, hbusy]
    simp
  refine ⟨hIg p, ?_, fun sl' p' => by rw [hIg p]⟩
  rw [cooldown_refines_ignore]
  exact hIg _

/-- Witness for `ignore_busy_noop`: a slot with a pending ignore-mode
invocation drops a second ignore-mode call with no effect. -/
theorem ignore_busy_noop_witness :
    Slots.start (run [Event.start "a" Mode.ignore 2 HandlerSpec.sync]) "a"
        Mode.ignore 2 HandlerSpec.sync
      = run [Event.start "a" Mode.ignore 2 HandlerSpec.sync] :=
  (ignore_busy_noop (run [Event.start "a" Mode.ignore 2 HandlerSpec.sync]) "a" 2
    HandlerSpec.sync ⟨1, none, none⟩ (by decide) (by decide)).1

/-! ### C7: zero-period calls -/

/-- Resuming a task whose context is not canceled invokes its handler. -/
theorem resumeTask_invoke {s : State} {tid : Nat}
    (hc : ctxCanceled s (getTask s tid).ctx = false) :
    resumeTask s tid = invokeHandler s tid := by
  unfold resumeTask
  simp only [hc]
  simp

/-- A task resuming from the period wait with a non-canceled context and no
recorded execution proceeds straight to the handler invocation. -/
theorem afterWait_invoke {s : State} {tid : Nat}
    (hc : ctxCanceled s (getTask s tid).ctx = false)
    (hex : execOf s (getTask s tid).slot = none) :
    afterWait s tid = invokeHandler s tid := by
  unfold afterWait
  simp only [hc, hex]
  simp [resumeTask, hc]

/-- Invoking a handler appends exactly one entry, stamped with the current
time, to the invocation log — whatever the handler then does. -/
theorem invokeHandler_invocations (s : State) (tid : Nat) :
    (invokeHandler s tid).invocations
      = s.invocations ++ [((getTask s tid).slot, s.now)] := by
  unfold invokeHandler
  generalize getTask s tid = t
  obtain ⟨ts, tc, th, tp⟩ := t
  cases th <;> rfl

/-- A task resuming from the period wait with a non-canceled context and no
recorded execution proceeds straight through lines 165–177 to the handler
invocation. -/
theorem afterWait_eq_invoke (S : State) (tid : Nat) (t : STask)
    (ht : getTask S tid = t)
    (hc : ctxCanceled S t.ctx = false)
    (hex : execOf S t.slot = none) :
    afterWait S tid = invokeHandler S tid := by
  unfold afterWait resumeTask
  rw [ht]
  simp only [hc, hex]
  simp

/-- A task at the period-wait continuation with a non-canceled context and no
recorded execution invokes its handler at once: the invocation log gains one
entry at the current time. -/
theorem afterWait_invocations_of (S : State) (tid : Nat) (t : STask)
    (ht : getTask S tid = t)
    (hc : ctxCanceled S t.ctx = false)
    (hex : execOf S t.slot = none) :
    (afterWait S tid).invocations = S.invocations ++ [(t.slot, S.now)] := by
  rw [afterWait_eq_invoke S tid t ht hc hex, invokeHandler_invocations, ht]

/-- Zero-period admission continues synchronously into `afterWait` on the
state with the fresh context installed and the call's task recorded. -/
theorem startAdmit_zero_eq (u : State) (sl : String) (hd : HandlerSpec) :
    startAdmit u sl 0 hd
      = afterWait { updSlot { u with ctxs := u.ctxs ++ [false] } sl
          (fun si => { si with context := u.ctxs.length }) with
          tasks := u.tasks ++ [⟨sl, u.ctxs.length, hd, Phase.waitTimer u.now⟩] }
        u.tasks.length := by
  unfold startAdmit
  rw [if_neg (fun h => h rfl)]
  rfl

/-- The state just after zero-period admission has no recorded execution on
the slot when the pre-admission state had none. -/
theorem startAdmit_zero_execOf (u : State) (sl : String) (hd : HandlerSpec)
    (siu : SlotInfo) (ha : lookupSlot u sl = some siu) (hb : siu.executing = none) :
    execOf { updSlot { u with ctxs := u.ctxs ++ [false] } sl
        (fun si => { si with context := u.ctxs.length }) with
        tasks := u.tasks ++ [⟨sl, u.ctxs.length, hd, Phase.waitTimer u.now⟩] } sl
      = none := by
  unfold execOf
  have h1 : lookupSlot (updSlot { u with ctxs := u.ctxs ++ [false] } sl
      (fun si => { si with context := u.ctxs.length })) sl
      = (lookupSlot u sl).map (fun si => { si with context := u.ctxs.length }) := by
    rw [lookupSlot_updSlot_self]
    rfl
  have h2 : lookupSlot ({ updSlot { u with ctxs := u.ctxs ++ [false] } sl
      (fun si => { si with context := u.ctxs.length }) with
      tasks := u.tasks ++ [⟨sl, u.ctxs.length, hd, Phase.waitTimer u.now⟩] } : State) sl
      = (lookupSlot u sl).map (fun si => { si with context := u.ctxs.length }) := h1
  rw [h2, ha]
  exact hb

/-- Admission with period zero on a slot with no in-flight execution invokes
the handler synchronously, within the same call, at the current time. -/
theorem startAdmit_zero (u : State) (sl : String) (hd : HandlerSpec)
    (siu : SlotInfo) (ha : lookupSlot u sl = some siu) (hb : siu.executing = none) :
    (startAdmit u sl 0 hd).invocations = u.invocations ++ [(sl, u.now)] := by
  rw [startAdmit_zero_eq]
  exact afterWait_invocations_of _ _ ⟨sl, u.ctxs.length, hd, Phase.waitTimer u.now⟩
    (getD_concat_length u.tasks _ default) (getD_concat_length u.ctxs false true)
    (startAdmit_zero_execOf u sl hd siu ha hb)

theorem getOrCreate_invocations (s : State) (sl : String) :
    (getOrCreateSlotInfo s sl).invocations = s.invocations := by
  unfold getOrCreateSlotInfo
  cases lookupSlot s sl <;> rfl

theorem getOrCreate_timers (s : State) (sl : String) :
    (getOrCreateSlotInfo s sl).timers = s.timers := by
  unfold getOrCreateSlotInfo
  cases lookupSlot s sl <;> rfl

theorem getOrCreate_tasks (s : State) (sl : String) :
    (getOrCreateSlotInfo s sl).tasks = s.tasks := by
  unfold getOrCreateSlotInfo
  cases lookupSlot s sl <;> rfl

theorem getOrCreate_execs (s : State) (sl : String) :
    (getOrCreateSlotInfo s sl).execs = s.execs := by
  unfold getOrCreateSlotInfo
  cases lookupSlot s sl <;> rfl

/-- C7 (amended): a `start` call with period 0 that is admitted, on a slot
with no in-flight execution, invokes its handler synchronously within the
same call — the invocation log gains exactly one entry stamped with the
current time before `start` returns.  (Push-mode calls are always admitted;
ignore-mode ones require the current context to be canceled.) -/
theorem zero_period_invokes_sync (s : State) (sl : String) (hd : HandlerSpec)
    (hexec : (lookupSlot s sl).bind SlotInfo.executing = none) :
    (Slots.start s sl Mode.push 0 hd).invocations = s.invocations ++ [(sl, s.now)]
    ∧ (∀ si, lookupSlot s sl = some si → ctxCanceled s si.context = true →
        (Slots.start s sl Mode.ignore 0 hd).invocations
          = s.invocations ++ [(sl, s.now)]) := by
  constructor
  · have h0 : Slots.start s sl Mode.push 0 hd
        = startAdmit (setCancel (getOrCreateSlotInfo s sl)
            ((lookupSlot (getOrCreateSlotInfo s sl) sl).getD default).context) sl 0 hd :=
      rfl
    have ha : lookupSlot (setCancel (getOrCreateSlotInfo s sl)
          ((lookupSlot (getOrCreateSlotInfo s sl) sl).getD default).context) sl
        = some ((lookupSlot s sl).getD ⟨s.ctxs.length, none, none⟩) :=
      lookupSlot_getOrCreate_self s sl
    have hb : ((lookupSlot s sl).getD
        (⟨s.ctxs.length, none, none⟩ : SlotInfo)).executing = none := by
      cases hx : lookupSlot s sl with
      | some si => rw [hx] at hexec; simpa using hexec
      | none => rfl
    rw [h0, startAdmit_zero _ sl hd _ ha hb]
    simp [setCancel, getOrCreate_invocations, getOrCreate_now]
  · intro si hsi hcanc
    have h0 : Slots.start s sl Mode.ignore 0 hd = startAdmit s sl 0 hd := by
      simp only [Slots.start, getOrCreate_of_some hsi, hsi, Option.getD_some, hcanc]
      simp
    have hb : si.executing = none := by rw [hsi] at hexec; exact hexec
    rw [h0, startAdmit_zero s sl hd si hsi hb]

/-- Witness for `zero_period_invokes_sync`: a zero-period push on a fresh
registry fires synchronously at time 0. -/
theorem zero_period_invokes_sync_witness :
    (Slots.start Slots.init "b" Mode.push 0 HandlerSpec.sync).invocations
      = Slots.init.invocations ++ [("b", Slots.init.now)] :=
  (zero_period_invokes_sync Slots.init "b" HandlerSpec.sync rfl).1

/-- C7 counterexample: with an asynchronous handler execution still in flight
on the slot, a push-mode `start` with period 0 returns control without having
invoked its handler — the invocation log is unchanged — so the claim that a
zero-period call always invokes synchronously within the same call is false. -/
theorem zero_period_not_sync_cex :
    (Slots.start (run [Event.start "a" Mode.ignore 0 (HandlerSpec.async 5)])
        "a" Mode.push 0 HandlerSpec.sync).invocations
      = (run [Event.start "a" Mode.ignore 0 (HandlerSpec.async 5)]).invocations
    ∧ (run [Event.start "a" Mode.ignore 0 (HandlerSpec.async 5)]).invocations
      = [("a", 0)] := by decide

/-! ### C2: handler failures -/

theorem getTask_phase_failed_setPhaseF (s : State) (w tid : Nat)
    (h : (getTask s tid).phase = Phase.failed) :
    (getTask (setPhase s w Phase.failed) tid).phase = Phase.failed := by
  by_cases hw : tid = w
  · subst hw
    by_cases hlen : tid < s.tasks.length
    · rw [getTask_setPhase_self hlen]
    · exfalso
      unfold getTask at h
      rw [List.getD_eq_getElem?_getD, List.getElem?_eq_none (le_of_not_lt hlen)] at h
      simp [default] at h
  · rw [getTask_setPhase_other hw]
    exact h

theorem foldFailed_phase (L : List Nat) (s : State) (tid : Nat)
    (h : (getTask s tid).phase = Phase.failed) :
    (getTask (L.foldl (fun acc w => setPhase acc w Phase.failed) s) tid).phase
      = Phase.failed := by
  induction L generalizing s with
  | nil => exact h
  | cons w L ih => exact ih _ (getTask_phase_failed_setPhaseF s w tid h)

theorem foldFailed_frame (L : List Nat) (s : State) :
    (L.foldl (fun acc w => setPhase acc w Phase.failed) s).slots = s.slots
    ∧ (L.foldl (fun acc w => setPhase acc w Phase.failed) s).ctxs = s.ctxs := by
  induction L generalizing s with
  | nil => exact ⟨rfl, rfl⟩
  | cons w L ih => exact ⟨(ih _).1, (ih _).2⟩

/-- C2 (amended): when an asynchronous handler execution rejects, the error
propagates to the awaiter of the invoking `start` call (its task fails), but
the registry performs no cleanup: the `slots` registry is untouched — so
`executing` is NOT cleared — and no context flag is set — so the call's
context is NOT marked canceled, and subsequent ignore-mode calls on the slot
remain inadmissible (`ignore_busy_noop`). -/
theorem handler_error_propagates (s : State) (eid : Nat)
    (hrej : (getExec s eid).rejects = true)
    (hinv : (getExec s eid).invoker < s.tasks.length) :
    (getTask (completeExec s eid) (getExec s eid).invoker).phase = Phase.failed
    ∧ (completeExec s eid).slots = s.slots
    ∧ (completeExec s eid).ctxs = s.ctxs := by
  have h0 : completeExec s eid
      = (getExec s eid).waiters.foldl
          (fun acc w => setPhase acc w Phase.failed)
          (setPhase { s with execs := s.execs.set eid { getExec s eid with done := true } }
            (getExec s eid).invoker Phase.failed) := by
    unfold completeExec
    simp only [hrej]
    simp [hrej]
  rw [h0]
  refine ⟨foldFailed_phase _ _ _ ?_, (foldFailed_frame _ _).1, (foldFailed_frame _ _).2⟩
  have hinv' : (getExec s eid).invoker <
      ({ s with execs := s.execs.set eid { getExec s eid with done := true } }
        : State).tasks.length := hinv
  rw [getTask_setPhase_self hinv']

/-- Witness for `handler_error_propagates`: completing the rejecting
execution of a concrete run fails its invoker. -/
theorem handler_error_propagates_witness :
    (getTask (completeExec (run [Event.start "a" Mode.ignore 0
          (HandlerSpec.asyncReject 2)]) 0)
        (getExec (run [Event.start "a" Mode.ignore 0
          (HandlerSpec.asyncReject 2)]) 0).invoker).phase
      = Phase.failed :=
  (handler_error_propagates (run [Event.start "a" Mode.ignore 0
    (HandlerSpec.asyncReject 2)]) 0 (by decide) (by decide)).1

/-- C2 counterexample: after a rejecting handler, the error did propagate to
the awaiter of `start` (the task failed), but `executing` is still recorded,
the call's context is still not canceled, and a subsequent ignore-mode call
on the slot is dropped with no invocation — there is no guaranteed-cleanup
path, contrary to the claim. -/
theorem handler_error_no_cleanup_cex :
    getTask (ticks 3 (run [Event.start "a" Mode.ignore 0
        (HandlerSpec.asyncReject 2)])) 0
      = ⟨"a", 1, HandlerSpec.asyncReject 2, Phase.failed⟩
    ∧ execOf (ticks 3 (run [Event.start "a" Mode.ignore 0
        (HandlerSpec.asyncReject 2)])) "a" = some 0
    ∧ ctxCanceled (ticks 3 (run [Event.start "a" Mode.ignore 0
        (HandlerSpec.asyncReject 2)])) 1 = false
    ∧ Slots.start (ticks 3 (run [Event.start "a" Mode.ignore 0
          (HandlerSpec.asyncReject 2)])) "a" Mode.ignore 5 HandlerSpec.sync
      = ticks 3 (run [Event.start "a" Mode.ignore 0 (HandlerSpec.asyncReject 2)]) := by
  decide

/-! ### C10: zero-period pushes do not coalesce -/

/-- Invoking a synchronous handler reduces to: log the invocation, update
`lastTriggered`, mark the context canceled (line 192), finish the task. -/
theorem invokeHandler_sync_eq (S : State) (tid : Nat)
    (hsync : (getTask S tid).handler = HandlerSpec.sync) :
    invokeHandler S tid
      = setPhase (setCancel (updSlot
          { S with
              invocations := S.invocations ++ [((getTask S tid).slot, S.now)],
              overlaps := S.overlaps +
                (if S.execs.any (fun e => !e.done && e.slot == (getTask S tid).slot)
                  then 1 else 0) }
          (getTask S tid).slot
          (fun si => { si with
            lastTriggered := some (max (si.lastTriggered.getD S.now) S.now) }))
          (getTask S tid).ctx) tid Phase.doneOk := by
  simp only [invokeHandler, hsync]

/-- One zero-period synchronous push: it fires at once (one new invocation
entry at the current time), leaves the clock and the timer list unchanged,
and leaves the slot with no in-flight execution. -/
theorem push_zero_sync_step (s : State) (sl : String)
    (hexec : (lookupSlot s sl).bind SlotInfo.executing = none) :
    (Slots.start s sl Mode.push 0 HandlerSpec.sync).invocations
        = s.invocations ++ [(sl, s.now)]
    ∧ (Slots.start s sl Mode.push 0 HandlerSpec.sync).now = s.now
    ∧ (Slots.start s sl Mode.push 0 HandlerSpec.sync).timers = s.timers
    ∧ (lookupSlot (Slots.start s sl Mode.push 0 HandlerSpec.sync) sl).bind
        SlotInfo.executing = none := by
  set u : State := setCancel (getOrCreateSlotInfo s sl)
    ((lookupSlot (getOrCreateSlotInfo s sl) sl).getD default).context with hu
  have ha : lookupSlot u sl
      = some ((lookupSlot s sl).getD ⟨s.ctxs.length, none, none⟩) :=
    lookupSlot_getOrCreate_self s sl
  have hb : ((lookupSlot s sl).getD
      (⟨s.ctxs.length, none, none⟩ : SlotInfo)).executing = none := by
    cases hx : lookupSlot s sl with
    | some si => rw [hx] at hexec; simpa using hexec
    | none => rfl
  have h0 : Slots.start s sl Mode.push 0 HandlerSpec.sync
      = startAdmit u sl 0 HandlerSpec.sync := rfl
  have ht : getTask ({ updSlot { u with ctxs := u.ctxs ++ [false] } sl
        (fun si => { si with context := u.ctxs.length }) with
        tasks := u.tasks ++ [⟨sl, u.ctxs.length, HandlerSpec.sync,
          Phase.waitTimer u.now⟩] } : State) u.tasks.length
      = ⟨sl, u.ctxs.length, HandlerSpec.sync, Phase.waitTimer u.now⟩ :=
    getD_concat_length u.tasks _ default
  have hfull : Slots.start s sl Mode.push 0 HandlerSpec.sync
      = setPhase (setCancel (updSlot
          { ({ updSlot { u with ctxs := u.ctxs ++ [false] } sl
                (fun si => { si with context := u.ctxs.length }) with
                tasks := u.tasks ++ [⟨sl, u.ctxs.length, HandlerSpec.sync,
                  Phase.waitTimer u.now⟩] } : State) with
              invocations := u.invocations ++ [(sl, u.now)],
              overlaps := u.overlaps +
                (if u.execs.any (fun e => !e.done && e.slot == sl) then 1 else 0) }
          sl
          (fun si => { si with
            lastTriggered := some (max (si.lastTriggered.getD u.now) u.now) }))
          u.ctxs.length) u.tasks.length Phase.doneOk := by
    rw [h0, startAdmit_zero_eq]
    rw [afterWait_eq_invoke _ _ ⟨sl, u.ctxs.length, HandlerSpec.sync,
        Phase.waitTimer u.now⟩ ht (getD_concat_length u.ctxs false true)
      (startAdmit_zero_execOf u sl HandlerSpec.sync _ ha hb)]
    rw [invokeHandler_sync_eq _ _ (by rw [ht])]
    rw [ht]
    rfl
  have huInv : u.invocations = s.invocations := by
    rw [hu]
    exact getOrCreate_invocations s sl
  have huNow : u.now = s.now := by
    rw [hu]
    exact getOrCreate_now s sl
  have huTimers : u.timers = s.timers := by
    rw [hu]
    exact getOrCreate_timers s sl
  rw [hfull]
  refine ⟨?_, ?_, ?_, ?_⟩
  · show u.invocations ++ [(sl, u.now)] = s.invocations ++ [(sl, s.now)]
    rw [huInv, huNow]
  · show u.now = s.now
    exact huNow
  · show u.timers = s.timers
    exact huTimers
  · simp only [lookupSlot_setPhase, lookupSlot_setCancel, lookupSlot_updSlot_self,
      lookupSlot_mk_slots, ha]
    simp [hb]

theorem step_start_eq (s : State) (sl : String) (m : Mode) (p : Nat)
    (hd : HandlerSpec) :
    step s (Event.start sl m p hd) = Slots.start s sl m p hd := rfl

/-- C10: starting from any state whose slot has no in-flight execution, N
consecutive push-mode calls with period 0 and a synchronous handler each
invoke the handler synchronously at the (unchanged) current time: the
invocation log gains exactly N entries — zero-period pushes are not
coalesced. -/
theorem push_zero_no_coalesce (sl : String) (N : Nat) (s : State)
    (hexec : (lookupSlot s sl).bind SlotInfo.executing = none) :
    ((List.replicate N (Event.start sl Mode.push 0 HandlerSpec.sync)).foldl step s).invocations
      = s.invocations ++ List.replicate N (sl, s.now) := by
  induction N generalizing s with
  | zero => simp
  | succ N ih =>
      rw [List.replicate_succ, List.foldl_cons, step_start_eq]
      have hstep := push_zero_sync_step s sl hexec
      rw [ih _ hstep.2.2.2, hstep.1, hstep.2.1]
      rw [List.append_assoc, List.replicate_succ]
      rfl

/-- Witness for `push_zero_no_coalesce`: three zero-period pushes on the
empty registry fire three times, all at time 0. -/
theorem push_zero_no_coalesce_witness :
    ((List.replicate 3 (Event.start "a" Mode.push 0 HandlerSpec.sync)).foldl step
        Slots.init).invocations
      = Slots.init.invocations ++ List.replicate 3 ("a", Slots.init.now) :=
  push_zero_no_coalesce "a" 3 Slots.init rfl

/-! ### C8: `lastTriggered` is monotone and is written at invocation time -/

/-- The slot's `lastTriggered` value (`none` when the slot does not exist or
has never fired). -/
def bindLT (s : State) (sl : String) : Option Nat :=
  (lookupSlot s sl).bind SlotInfo.lastTriggered

/-- Order on optional timestamps: a present value can only grow (and never
disappear). -/
def optLE (x y : Option Nat) : Prop :=
  ∀ a, x = some a → ∃ b, y = some b ∧ a ≤ b

theorem optLE_refl (x : Option Nat) : optLE x x :=
  fun a h => ⟨a, h, Nat.le_refl a⟩

theorem optLE_trans {x y z : Option Nat} (h1 : optLE x y) (h2 : optLE y z) :
    optLE x z := by
  intro a ha
  obtain ⟨b, hb, hab⟩ := h1 a ha
  obtain ⟨c, hc, hbc⟩ := h2 b hb
  exact ⟨c, hc, le_trans hab hbc⟩

theorem optLE_of_eq {x y : Option Nat} (h : x = y) : optLE x y := by
  subst h
  exact optLE_refl x

theorem bindLT_eq_of_slots {s s' : State} (h : s.slots = s'.slots) (sl : String) :
    bindLT s sl = bindLT s' sl := by
  unfold bindLT lookupSlot
  rw [h]

theorem bindLT_updSlot_lt (s : State) (sl sl' : String) (v : Nat) :
    optLE (bindLT s sl')
      (bindLT (updSlot s sl
        (fun si => { si with
          lastTriggered := some (max (si.lastTriggered.getD v) v) })) sl') := by
  by_cases h : sl' = sl
  · subst h
    unfold bindLT
    rw [lookupSlot_updSlot_self]
    cases hx : lookupSlot s sl' with
    | none => intro a ha; simp at ha
    | some si =>
        intro a ha
        have ha' : si.lastTriggered = some a := ha
        refine ⟨max (si.lastTriggered.getD v) v, rfl, ?_⟩
        rw [ha']
        simp
  · unfold bindLT
    rw [lookupSlot_updSlot_other _ h]
    exact optLE_refl _

theorem bindLT_updSlot_frame (s : State) (sl sl' : String) (f : SlotInfo → SlotInfo)
    (hf : ∀ si, (f si).lastTriggered = si.lastTriggered) :
    bindLT (updSlot s sl f) sl' = bindLT s sl' := by
  unfold bindLT
  by_cases h : sl' = sl
  · subst h
    rw [lookupSlot_updSlot_self]
    cases lookupSlot s sl' <;> simp [hf]
  · rw [lookupSlot_updSlot_other _ h]

theorem bindLT_getOrCreate (s : State) (sl sl' : String) :
    bindLT (getOrCreateSlotInfo s sl) sl' = bindLT s sl' :=
  bind_lastTriggered_getOrCreate s sl sl'

theorem bindLT_of_slots_frame (S T : State) (sl sl' : String)
    (f : SlotInfo → SlotInfo) (hf : ∀ si, (f si).lastTriggered = si.lastTriggered)
    (h : T.slots = (updSlot S sl f).slots) :
    bindLT T sl' = bindLT S sl' :=
  Eq.trans (bindLT_eq_of_slots h sl') (bindLT_updSlot_frame S sl sl' f hf)

theorem optLE_bindLT_of_slots_lt (S T : State) (sl sl' : String) (v : Nat)
    (h : T.slots = (updSlot S sl (fun si => { si with
        lastTriggered := some (max (si.lastTriggered.getD v) v) })).slots) :
    optLE (bindLT S sl') (bindLT T sl') :=
  optLE_trans (bindLT_updSlot_lt S sl sl' v)
    (optLE_of_eq (bindLT_eq_of_slots h sl').symm)

theorem optLE_bindLT_of_slots_lt2 (S T : State) (sl sl' : String) (v : Nat)
    (w : Option Nat)
    (h : T.slots = (updSlot (updSlot S sl (fun si => { si with
        lastTriggered := some (max (si.lastTriggered.getD v) v) })) sl
        (fun si => { si with executing := w })).slots) :
    optLE (bindLT S sl') (bindLT T sl') := by
  refine optLE_trans (bindLT_updSlot_lt S sl sl' v) (optLE_of_eq ?_)
  refine Eq.trans (bindLT_updSlot_frame _ sl sl'
    (fun si => { si with executing := w }) (fun si => rfl)).symm ?_
  exact (bindLT_eq_of_slots h sl').symm

theorem bindLT_invokeHandler (S : State) (tid : Nat) (sl' : String) :
    optLE (bindLT S sl') (bindLT (invokeHandler S tid) sl') := by
  simp only [invokeHandler]
  cases (getTask S tid).handler with
  | sync => exact optLE_bindLT_of_slots_lt S _ (getTask S tid).slot sl' S.now rfl
  | syncThrow => exact optLE_bindLT_of_slots_lt S _ (getTask S tid).slot sl' S.now rfl
  | async d =>
      simp only [startExec]
      exact optLE_bindLT_of_slots_lt2 S _ (getTask S tid).slot sl' S.now
        (some S.execs.length) rfl
  | asyncReject d =>
      simp only [startExec]
      exact optLE_bindLT_of_slots_lt2 S _ (getTask S tid).slot sl' S.now
        (some S.execs.length) rfl

theorem bindLT_resumeTask (s : State) (tid : Nat) (sl' : String) :
    optLE (bindLT s sl') (bindLT (resumeTask s tid) sl') := by
  simp only [resumeTask]
  split
  · exact optLE_of_eq (bindLT_eq_of_slots rfl sl')
  · exact bindLT_invokeHandler s tid sl'

theorem bindLT_afterWait (s : State) (tid : Nat) (sl' : String) :
    optLE (bindLT s sl') (bindLT (afterWait s tid) sl') := by
  simp only [afterWait]
  split
  · exact optLE_of_eq (bindLT_eq_of_slots rfl sl')
  · split
    · split
      · split
        · exact optLE_of_eq (bindLT_eq_of_slots rfl sl')
        · exact bindLT_resumeTask s tid sl'
      · exact optLE_of_eq (bindLT_eq_of_slots rfl sl')
    · exact bindLT_resumeTask s tid sl'

theorem bindLT_completeExec (s : State) (eid : Nat) (sl' : String) :
    optLE (bindLT s sl') (bindLT (completeExec s eid) sl') := by
  simp only [completeExec]
  have hfold : ∀ (L : List Nat) (x : State),
      optLE (bindLT x sl')
        (bindLT (L.foldl (fun acc w =>
          if (getExec s eid).rejects = true then setPhase acc w Phase.failed
          else resumeTask acc w) x) sl') := by
    intro L
    induction L with
    | nil => intro x; exact optLE_refl _
    | cons w L ih =>
        intro x
        rw [List.foldl_cons]
        refine optLE_trans ?_ (ih _)
        split
        · exact optLE_of_eq (bindLT_eq_of_slots rfl sl')
        · exact bindLT_resumeTask x w sl'
  refine optLE_trans ?_ (hfold _ _)
  split
  · exact optLE_of_eq (bindLT_eq_of_slots rfl sl')
  · exact optLE_of_eq (bindLT_of_slots_frame s _ (getExec s eid).slot sl'
      (fun si => { si with executing := none }) (fun si => rfl) rfl).symm

theorem bindLT_fireTimer (s : State) (a : TAct) (sl' : String) :
    optLE (bindLT s sl') (bindLT (fireTimer s a) sl') := by
  cases a with
  | wake tid => exact bindLT_afterWait s tid sl'
  | complete eid => exact bindLT_completeExec s eid sl'

theorem bindLT_fireDue (fuel : Nat) (s : State) (sl' : String) :
    optLE (bindLT s sl') (bindLT (fireDue fuel s) sl') := by
  induction fuel generalizing s with
  | zero => exact optLE_refl _
  | succ fuel ih =>
      unfold fireDue
      cases hp : pickDue s.now s.timers with
      | none => exact optLE_refl _
      | some er =>
          obtain ⟨e, rest⟩ := er
          have h1 : bindLT s sl' = bindLT ({ s with timers := rest } : State) sl' :=
            bindLT_eq_of_slots rfl sl'
          rw [h1]
          exact optLE_trans (bindLT_fireTimer _ e.2 sl') (ih _)

theorem bindLT_tick (s : State) (sl' : String) :
    optLE (bindLT s sl') (bindLT (Slots.tick s) sl') := by
  simp only [Slots.tick]
  have h1 : bindLT s sl' = bindLT ({ s with now := s.now + 1 } : State) sl' :=
    bindLT_eq_of_slots rfl sl'
  rw [h1]
  exact bindLT_fireDue _ _ sl'

theorem bindLT_startAdmit (u : State) (sl : String) (p : Nat) (hd : HandlerSpec)
    (sl' : String) :
    optLE (bindLT u sl') (bindLT (startAdmit u sl p hd) sl') := by
  simp only [startAdmit]
  split
  · exact optLE_of_eq (bindLT_of_slots_frame u _ sl sl'
      (fun si => { si with context := u.ctxs.length }) (fun si => rfl) rfl).symm
  · refine optLE_trans (optLE_of_eq ?_) (bindLT_afterWait _ _ sl')
    exact (bindLT_of_slots_frame u _ sl sl'
      (fun si => { si with context := u.ctxs.length }) (fun si => rfl) rfl).symm

theorem start_push_eq (s : State) (sl : String) (p : Nat) (hd : HandlerSpec) :
    Slots.start s sl Mode.push p hd
      = startAdmit (setCancel (getOrCreateSlotInfo s sl)
          ((lookupSlot (getOrCreateSlotInfo s sl) sl).getD default).context) sl p hd :=
  rfl

theorem start_ignore_eq (s : State) (sl : String) (p : Nat) (hd : HandlerSpec) :
    Slots.start s sl Mode.ignore p hd
      = if ctxCanceled (getOrCreateSlotInfo s sl)
            ((lookupSlot (getOrCreateSlotInfo s sl) sl).getD default).context then
          startAdmit (getOrCreateSlotInfo s sl) sl p hd
        else getOrCreateSlotInfo s sl :=
  rfl

theorem bindLT_start (s : State) (sl : String) (m : Mode) (p : Nat)
    (hd : HandlerSpec) (sl' : String) :
    optLE (bindLT s sl') (bindLT (Slots.start s sl m p hd) sl') := by
  have hig : ∀ q, optLE (bindLT s sl') (bindLT (Slots.start s sl Mode.ignore q hd) sl') := by
    intro q
    rw [start_ignore_eq]
    split
    · refine optLE_trans (optLE_of_eq (bindLT_getOrCreate s sl sl').symm) ?_
      exact bindLT_startAdmit _ sl q hd sl'
    · exact optLE_of_eq (bindLT_getOrCreate s sl sl').symm
  cases m with
  | push =>
      rw [start_push_eq]
      refine optLE_trans (optLE_of_eq ?_) (bindLT_startAdmit _ sl p hd sl')
      refine Eq.trans (bindLT_getOrCreate s sl sl').symm ?_
      exact bindLT_eq_of_slots rfl sl'
  | ignore => exact hig p
  | cooldown =>
      rw [cooldown_refines_ignore]
      exact hig _

theorem bindLT_cancel (s : State) (sl sl' : String) :
    bindLT (Slots.cancel s sl) sl' = bindLT s sl' := by
  refine Eq.trans ?_ (bindLT_getOrCreate s sl sl')
  exact (bindLT_eq_of_slots rfl sl').symm

theorem bindLT_step (s : State) (ev : Event) (sl' : String) :
    optLE (bindLT s sl') (bindLT (step s ev) sl') := by
  cases ev with
  | start sl m p hd => exact bindLT_start s sl m p hd sl'
  | cancel sl => exact optLE_of_eq (bindLT_cancel s sl sl').symm
  | onCD sl p => exact optLE_of_eq (bindLT_getOrCreate s sl sl').symm
  | tick => exact bindLT_tick s sl'

theorem bindLT_foldl (l : List Event) (s : State) (sl' : String) :
    optLE (bindLT s sl') (bindLT (l.foldl step s) sl') := by
  induction l generalizing s with
  | nil => exact optLE_refl _
  | cons ev l ih =>
      rw [List.foldl_cons]
      exact optLE_trans (bindLT_step s ev sl') (ih _)

theorem lastTriggered_set_at_invoke (S : State) (tid : Nat) (si : SlotInfo)
    (hsi : lookupSlot S (getTask S tid).slot = some si) :
    bindLT (invokeHandler S tid) (getTask S tid).slot
      = some (max (si.lastTriggered.getD S.now) S.now)
    ∧ (invokeHandler S tid).invocations
      = S.invocations ++ [((getTask S tid).slot, S.now)] := by
  refine ⟨?_, invokeHandler_invocations S tid⟩
  simp only [invokeHandler]
  cases (getTask S tid).handler with
  | sync =>
      unfold bindLT
      simp only [lookupSlot_setPhase, lookupSlot_setCancel, lookupSlot_updSlot_self,
        lookupSlot_mk_slots, hsi]
      simp
  | syncThrow =>
      unfold bindLT
      simp only [lookupSlot_setPhase, lookupSlot_updSlot_self, lookupSlot_mk_slots, hsi]
      simp
  | async d =>
      simp only [startExec]
      unfold bindLT
      simp only [lookupSlot_setPhase, lookupSlot_updSlot_self, lookupSlot_mk_slots, hsi]
      simp
  | asyncReject d =>
      simp only [startExec]
      unfold bindLT
      simp only [lookupSlot_setPhase, lookupSlot_updSlot_self, lookupSlot_mk_slots, hsi]
      simp

theorem lastTriggered_unchanged_at_completion (s : State) (eid : Nat)
    (hw : (getExec s eid).waiters = []) (sl : String) :
    bindLT (completeExec s eid) sl = bindLT s sl := by
  simp only [completeExec, hw, List.foldl_nil]
  split
  · exact bindLT_eq_of_slots rfl sl
  · exact bindLT_of_slots_frame s _ (getExec s eid).slot sl
      (fun si => { si with executing := none }) (fun si => rfl) rfl

/-- C8: for every slot, `lastTriggered` is monotonically non-decreasing
across every single event and every event sequence; it is written — to
`max(lastTriggered ?? now, now)` — in the same atomic action that logs the
handler invocation (so an invocation still running, or one that fails,
already counts); and the completion bookkeeping of an execution never
changes it. -/
theorem lastTriggered_monotone :
    (∀ (s : State) (ev : Event) (sl : String),
        optLE (bindLT s sl) (bindLT (step s ev) sl))
    ∧ (∀ (l : List Event) (s : State) (sl : String),
        optLE (bindLT s sl) (bindLT (l.foldl step s) sl))
    ∧ (∀ (S : State) (tid : Nat) (si : SlotInfo),
        lookupSlot S (getTask S tid).slot = some si →
        bindLT (invokeHandler S tid) (getTask S tid).slot
          = some (max (si.lastTriggered.getD S.now) S.now)
        ∧ (invokeHandler S tid).invocations
          = S.invocations ++ [((getTask S tid).slot, S.now)])
    ∧ (∀ (s : State) (eid : Nat), (getExec s eid).waiters = [] →
        ∀ sl, bindLT (completeExec s eid) sl = bindLT s sl) :=
  ⟨bindLT_step, bindLT_foldl,
    fun S tid si hsi => lastTriggered_set_at_invoke S tid si hsi,
    fun s eid hw sl => lastTriggered_unchanged_at_completion s eid hw sl⟩

/-- Witness for `lastTriggered_monotone`: invoking the parked task of a
concrete run stamps `lastTriggered` with the invocation time. -/
theorem lastTriggered_monotone_witness :
    bindLT (invokeHandler (run [Event.start "a" Mode.push 2 HandlerSpec.sync]) 0) "a"
      = some 0 := by
  have h := (lastTriggered_monotone.2.2.1
    (run [Event.start "a" Mode.push 2 HandlerSpec.sync]) 0 ⟨1, none, none⟩
    (by decide)).1
  exact Eq.trans h (by decide)

/-! ### Timer selection: characterizing `pickDue` -/

theorem pickDue_eq_none_of (now : Nat) (l : List (Nat × TAct))
    (h : ∀ e ∈ l, now < e.1) : pickDue now l = none := by
  induction l with
  | nil => rfl
  | cons e rest ih =>
      unfold pickDue
      rw [if_neg (not_le.mpr (h e (List.mem_cons_self e rest)))]
      rw [ih (fun e' he' => h e' (List.mem_cons_of_mem e he'))]

theorem pickDue_none_mem (now : Nat) (l : List (Nat × TAct))
    (h : pickDue now l = none) : ∀ e ∈ l, now < e.1 := by
  induction l with
  | nil => intro e he; exact absurd he (List.not_mem_nil e)
  | cons e rest ih =>
      unfold pickDue at h
      by_cases hle : e.1 ≤ now
      · rw [if_pos hle] at h
        split at h
        · split at h <;> exact absurd h (by simp)
        · exact absurd h (by simp)
      · rw [if_neg hle] at h
        split at h
        · exact absurd h (by simp)
        · rename_i heq
          intro x hx
          rcases List.mem_cons.mp hx with hx | hx
          · subst hx; exact not_le.mp hle
          · exact ih heq x hx

theorem pickDue_some_spec (now : Nat) (l : List (Nat × TAct))
    (ch : Nat × TAct) (rest : List (Nat × TAct))
    (h : pickDue now l = some (ch, rest)) :
    ch.1 ≤ now ∧ ∃ l1 l2, l = l1 ++ ch :: l2 ∧ rest = l1 ++ l2
      ∧ (∀ e' ∈ l1, e'.1 ≤ now → ch.1 < e'.1) := by
  induction l generalizing ch rest with
  | nil => exact absurd h (by simp [pickDue])
  | cons e r ih =>
      unfold pickDue at h
      by_cases hle : e.1 ≤ now
      · rw [if_pos hle] at h
        split at h
        · rename_i e' rest' heq
          by_cases hlt : e'.1 < e.1
          · rw [if_pos hlt] at h
            injection h with hpair
            injection hpair with h1 h2
            subst h1
            subst h2
            obtain ⟨hch, l1, l2, hl, hr, hmin⟩ := ih e' rest' heq
            refine ⟨hch, e :: l1, l2, by rw [hl]; rfl, by rw [hr]; rfl, ?_⟩
            intro x hx hxle
            rcases List.mem_cons.mp hx with hx | hx
            · subst hx; exact hlt
            · exact hmin x hx hxle
          · rw [if_neg hlt] at h
            injection h with hpair
            injection hpair with h1 h2
            subst h1
            subst h2
            exact ⟨hle, [], r, rfl, rfl, by simp⟩
        · injection h with hpair
          injection hpair with h1 h2
          subst h1
          subst h2
          exact ⟨hle, [], r, rfl, rfl, by simp⟩
      · rw [if_neg hle] at h
        split at h
        · rename_i e' rest' heq
          injection h with hpair
          injection hpair with h1 h2
          subst h1
          subst h2
          obtain ⟨hch, l1, l2, hl, hr, hmin⟩ := ih e' rest' heq
          refine ⟨hch, e :: l1, l2, by rw [hl]; rfl, by rw [hr]; rfl, ?_⟩
          intro x hx hxle
          rcases List.mem_cons.mp hx with hx | hx
          · subst hx; exact absurd hxle hle
          · exact hmin x hx hxle
        · exact absurd h (by simp)

/-! ### More accessor facts -/

theorem afterWait_canceled {s : State} {tid : Nat}
    (hc : ctxCanceled s (getTask s tid).ctx = true) :
    afterWait s tid = setPhase s tid Phase.doneOk := by
  unfold afterWait
  simp only [hc]
  simp

theorem getD_append_lt {α : Type} (l l' : List α) (c : Nat) (d : α)
    (h : c < l.length) : (l ++ l').getD c d = l.getD c d := by
  rw [List.getD_eq_getElem?_getD, List.getD_eq_getElem?_getD]
  rw [List.getElem?_append, if_pos h]

theorem getD_append_ge {α : Type} (l l' : List α) (c : Nat) (d : α)
    (h : l.length ≤ c) : (l ++ l').getD c d = l'.getD (c - l.length) d := by
  rw [List.getD_eq_getElem?_getD, List.getD_eq_getElem?_getD]
  rw [List.getElem?_append_right h]

theorem getD_set_self {α : Type} (l : List α) (c : Nat) (a d : α)
    (h : c < l.length) : (l.set c a).getD c d = a := by
  rw [List.getD_eq_getElem?_getD, List.getElem?_set_self (by simpa using h)]
  rfl

theorem getD_set_other {α : Type} (l : List α) (c c' : Nat) (a d : α)
    (h : c' ≠ c) : (l.set c a).getD c' d = l.getD c' d := by
  rw [List.getD_eq_getElem?_getD, List.getD_eq_getElem?_getD]
  rw [List.getElem?_set_ne (fun hh => h hh.symm)]

theorem ctxCanceled_setCancel_self {s : State} {c : Nat} (h : c < s.ctxs.length) :
    ctxCanceled (setCancel s c) c = true :=
  getD_set_self s.ctxs c true true h

theorem ctxCanceled_setCancel_other {s : State} {c c' : Nat} (h : c' ≠ c) :
    ctxCanceled (setCancel s c) c' = ctxCanceled s c' :=
  getD_set_other s.ctxs c c' true true h

theorem ctxCanceled_setCancel_mono {s : State} {c c' : Nat}
    (h : ctxCanceled s c' = true) : ctxCanceled (setCancel s c) c' = true := by
  by_cases hc : c' = c
  · subst hc
    by_cases hlen : c' < s.ctxs.length
    · exact ctxCanceled_setCancel_self hlen
    · have hset : (setCancel s c').ctxs = s.ctxs :=
        List.set_eq_of_length_le (le_of_not_lt hlen)
      unfold ctxCanceled
      rw [hset]
      exact h
  · rw [ctxCanceled_setCancel_other hc]
    exact h

theorem getTask_append_lt {s : State} {tid : Nat} (l : List STask)
    (h : tid < s.tasks.length) :
    (s.tasks ++ l).getD tid default = getTask s tid :=
  getD_append_lt s.tasks l tid default h

theorem tasks_setPhase_length (s : State) (tid : Nat) (p : Phase) :
    (setPhase s tid p).tasks.length = s.tasks.length := by
  unfold setPhase
  exact List.length_set s.tasks tid _

theorem step_tick_eq (s : State) : step s Event.tick = Slots.tick s := rfl

theorem tick_eq (s : State) :
    Slots.tick s = fireDue (s.timers.length + 2 * s.tasks.length + 1)
      { s with now := s.now + 1 } := rfl

theorem fireDue_succ (fuel : Nat) (s : State) :
    fireDue (fuel + 1) s
      = match pickDue s.now s.timers with
        | none => s
        | some (e, rest) => fireDue fuel (fireTimer { s with timers := rest } e.2) := by
  rfl

theorem tick_no_timers (s : State) (h : s.timers = []) :
    Slots.tick s = { s with now := s.now + 1 } := by
  rw [tick_eq, h]
  simp [fireDue_succ, pickDue]

theorem startAdmit_pos_eq (u : State) (sl : String) (P : Nat) (hd : HandlerSpec)
    (hP : P ≠ 0) :
    startAdmit u sl P hd
      = { updSlot { u with ctxs := u.ctxs ++ [false] } sl
            (fun si => { si with context := u.ctxs.length }) with
          tasks := u.tasks ++ [⟨sl, u.ctxs.length, hd, Phase.waitTimer (u.now + P)⟩],
          timers := u.timers ++ [(u.now + P, TAct.wake u.tasks.length)] } := by
  unfold startAdmit
  rw [if_pos hP]
  rfl

/-! ### C3: push coalescing.  Shape of a slot with one live pending push -/

/-- State shape during a push-coalescing episode on slot `sl`: the slot's
current context is `c` (the only non-canceled context), task `tl` is the one
live parked call with wake time `D`, every pending timer is a period wait
with due time at most `D` whose task is dead (canceled) unless it is `tl`,
no execution exists and nothing has fired yet. -/
structure MidShape (sl : String) (c tl D : Nat) (s : State) : Prop where
  hslot : lookupSlot s sl = some ⟨c, none, none⟩
  hcLen : c < s.ctxs.length
  hcLive : ctxCanceled s c = false
  hOnly : ∀ c', c' ≠ c → ctxCanceled s c' = true
  htlLen : tl < s.tasks.length
  htask : getTask s tl = ⟨sl, c, HandlerSpec.sync, Phase.waitTimer D⟩
  hmem : (D, TAct.wake tl) ∈ s.timers
  htimers : ∀ e ∈ s.timers, e.1 ≤ D ∧ ∃ tid, e.2 = TAct.wake tid
      ∧ tid < s.tasks.length ∧ (getTask s tid).phase = Phase.waitTimer e.1
      ∧ (getTask s tid).ctx < s.ctxs.length
      ∧ (tid ≠ tl → (getTask s tid).ctx ≠ c)
  hpw : s.timers.Pairwise (fun a b => a.2 ≠ b.2)
  hexecs : s.execs = []
  hinv : s.invocations = []

/-- The between-events strengthening of `MidShape`: every pending due time is
still in the future, and the live wake time is within one period of now. -/
structure PShape (sl : String) (P c tl D : Nat) (s : State)
    extends MidShape sl c tl D s : Prop where
  hP : 0 < P
  hdueGT : ∀ e ∈ s.timers, s.now < e.1
  hDle : D ≤ s.now + P

theorem PShape.hDgt {sl : String} {P c tl D : Nat} {s : State}
    (sh : PShape sl P c tl D s) : s.now < D :=
  sh.hdueGT (D, TAct.wake tl) sh.hmem

/-- A push-mode `start` with a synchronous handler on a `PShape` state
supersedes the live call: the new context and task become the live ones, the
wake time moves to `now + P`, and nothing fires. -/
theorem PShape_push (sl : String) (P c tl D : Nat) (s : State)
    (sh : PShape sl P c tl D s) :
    PShape sl P s.ctxs.length s.tasks.length (s.now + P)
      (Slots.start s sl Mode.push P HandlerSpec.sync)
    ∧ (Slots.start s sl Mode.push P HandlerSpec.sync).now = s.now := by
  have h1 : Slots.start s sl Mode.push P HandlerSpec.sync
      = startAdmit (setCancel s c) sl P HandlerSpec.sync := by
    rw [start_push_eq, getOrCreate_of_some sh.hslot, sh.hslot]
    rfl
  have h2 := startAdmit_pos_eq (setCancel s c) sl P HandlerSpec.sync
    (Nat.pos_iff_ne_zero.mp sh.hP)
  rw [h1, h2]
  have hlen : (setCancel s c).ctxs.length = s.ctxs.length := by
    unfold setCancel
    exact List.length_set s.ctxs c true
  have htasksEq : (setCancel s c).tasks = s.tasks := rfl
  have hnowEq : (setCancel s c).now = s.now := rfl
  have htimersEq : (setCancel s c).timers = s.timers := rfl
  constructor
  · refine ⟨⟨?_, ?_, ?_, ?_, ?_, ?_, ?_, ?_, ?_, ?_, ?_⟩, sh.hP, ?_, ?_⟩
    · -- hslot
      show lookupSlot (updSlot { setCancel s c with
          ctxs := (setCancel s c).ctxs ++ [false] } sl
          (fun si => { si with context := (setCancel s c).ctxs.length })) sl
        = some ⟨s.ctxs.length, none, none⟩
      rw [lookupSlot_updSlot_self]
      have : lookupSlot ({ setCancel s c with
          ctxs := (setCancel s c).ctxs ++ [false] } : State) sl
          = lookupSlot s sl := rfl
      rw [this, sh.hslot, hlen]
      rfl
    · -- hcLen
      show s.ctxs.length < ((setCancel s c).ctxs ++ [false]).length
      simp [hlen]
    · -- hcLive
      show ((setCancel s c).ctxs ++ [false]).getD s.ctxs.length true = false
      rw [← hlen]
      exact getD_concat_length _ _ _
    · -- hOnly
      intro c' hc'
      show ((setCancel s c).ctxs ++ [false]).getD c' true = true
      by_cases hlt : c' < (setCancel s c).ctxs.length
      · rw [getD_append_lt _ _ _ _ hlt]
        by_cases hcc : c' = c
        · subst hcc
          exact ctxCanceled_setCancel_self (hlen ▸ hlt)
        · rw [show ((setCancel s c).ctxs.getD c' true)
              = ctxCanceled (setCancel s c) c' from rfl]
          rw [ctxCanceled_setCancel_other hcc]
          exact sh.hOnly c' hcc
      · rw [getD_append_ge _ _ _ _ (le_of_not_lt hlt)]
        have : c' - (setCancel s c).ctxs.length ≠ 0 := by
          rw [hlen]
          rw [hlen] at hlt
          omega
        cases hk : c' - (setCancel s c).ctxs.length with
        | zero => exact absurd hk this
        | succ k => simp [List.getD]
    · -- htlLen
      show s.tasks.length < ((setCancel s c).tasks
        ++ [({ slot := sl, ctx := (setCancel s c).ctxs.length,
               handler := HandlerSpec.sync,
               phase := Phase.waitTimer ((setCancel s c).now + P) } : STask)]).length
      rw [htasksEq]
      simp
    · -- htask
      show ((setCancel s c).tasks
          ++ [({ slot := sl, ctx := (setCancel s c).ctxs.length,
                 handler := HandlerSpec.sync,
                 phase := Phase.waitTimer ((setCancel s c).now + P) } : STask)]).getD
          s.tasks.length default
        = ({ slot := sl, ctx := s.ctxs.length, handler := HandlerSpec.sync,
             phase := Phase.waitTimer (s.now + P) } : STask)
      rw [htasksEq] at *
      rw [getD_concat_length]
      rw [hlen]
      rfl
    · -- hmem
      show (s.now + P, TAct.wake s.tasks.length)
        ∈ (setCancel s c).timers ++ [((setCancel s c).now + P,
            TAct.wake (setCancel s c).tasks.length)]
      rw [htimersEq, hnowEq, htasksEq]
      exact List.mem_append_right _ (List.mem_singleton.mpr rfl)
    · -- htimers
      intro e he
      rw [htimersEq, hnowEq, htasksEq] at he
      rcases List.mem_append.mp he with he | he
      · obtain ⟨hle, tid, hact, htid, hphase, hctxB, hctxNe⟩ := sh.htimers e he
        refine ⟨le_trans hle (le_trans sh.hDle (Nat.le_refl _)), tid, hact, ?_, ?_, ?_, ?_⟩
        · show tid < ((setCancel s c).tasks
            ++ [({ slot := sl, ctx := (setCancel s c).ctxs.length,
                   handler := HandlerSpec.sync,
                   phase := Phase.waitTimer ((setCancel s c).now + P) } : STask)]).length
          rw [htasksEq]
          simp
          omega
        · show (((setCancel s c).tasks
            ++ [({ slot := sl, ctx := (setCancel s c).ctxs.length,
                   handler := HandlerSpec.sync,
                   phase := Phase.waitTimer ((setCancel s c).now + P) } : STask)]).getD
              tid default).phase = Phase.waitTimer e.1
          rw [htasksEq, getTask_append_lt _ htid]
          exact hphase
        · show (((setCancel s c).tasks
            ++ [({ slot := sl, ctx := (setCancel s c).ctxs.length,
                   handler := HandlerSpec.sync,
                   phase := Phase.waitTimer ((setCancel s c).now + P) } : STask)]).getD
              tid default).ctx < ((setCancel s c).ctxs ++ [false]).length
          rw [htasksEq, getTask_append_lt _ htid]
          simp [hlen]
          omega
        · intro htne
          show (((setCancel s c).tasks
            ++ [({ slot := sl, ctx := (setCancel s c).ctxs.length,
                   handler := HandlerSpec.sync,
                   phase := Phase.waitTimer ((setCancel s c).now + P) } : STask)]).getD
              tid default).ctx ≠ s.ctxs.length
          rw [htasksEq, getTask_append_lt _ htid]
          omega
      · rw [List.mem_singleton.mp he]
        refine ⟨Nat.le_refl _, s.tasks.length, rfl, ?_, ?_, ?_, ?_⟩
        · show s.tasks.length < ((setCancel s c).tasks
            ++ [({ slot := sl, ctx := (setCancel s c).ctxs.length,
                   handler := HandlerSpec.sync,
                   phase := Phase.waitTimer ((setCancel s c).now + P) } : STask)]).length
          rw [htasksEq]
          simp
        · show (((setCancel s c).tasks
            ++ [({ slot := sl, ctx := (setCancel s c).ctxs.length,
                   handler := HandlerSpec.sync,
                   phase := Phase.waitTimer ((setCancel s c).now + P) } : STask)]).getD
              s.tasks.length default).phase = Phase.waitTimer (s.now + P)
          rw [htasksEq, getD_concat_length]
          rfl
        · show (((setCancel s c).tasks
            ++ [({ slot := sl, ctx := (setCancel s c).ctxs.length,
                   handler := HandlerSpec.sync,
                   phase := Phase.waitTimer ((setCancel s c).now + P) } : STask)]).getD
              s.tasks.length default).ctx < ((setCancel s c).ctxs ++ [false]).length
          rw [htasksEq, getD_concat_length]
          simp [hlen]
        · intro h
          exact absurd rfl h
    · -- hpw
      show ((setCancel s c).timers
        ++ [(((setCancel s c).now + P,
              TAct.wake (setCancel s c).tasks.length) : Nat × TAct)]).Pairwise
          (fun a b => a.2 ≠ b.2)
      rw [htimersEq]
      rw [List.pairwise_append]
      refine ⟨sh.hpw, List.pairwise_singleton _ _, ?_⟩
      intro e he e' he'
      rw [List.mem_singleton.mp he']
      obtain ⟨hle, tid, hact, htid, _, _, _⟩ := sh.htimers e he
      rw [hact, hnowEq, htasksEq]
      intro hcon
      have := TAct.wake.inj hcon
      omega
    · -- hexecs
      show (setCancel s c).execs = []
      exact sh.hexecs
    · -- hinv
      show (setCancel s c).invocations = []
      exact sh.hinv
    · -- hdueGT
      intro e he
      rcases List.mem_append.mp he with he | he
      · rw [htimersEq] at he
        show s.now < e.1
        exact lt_of_le_of_lt (Nat.le_refl s.now)
          (lt_of_lt_of_le (sh.hdueGT e he) (Nat.le_refl _))
      · rw [List.mem_singleton.mp he]
        show s.now < (setCancel s c).now + P
        rw [hnowEq]
        have hp := sh.hP
        omega
    · -- hDle
      show s.now + P ≤ (setCancel s c).now + P
      rw [hnowEq]
  · rfl

theorem ctxs_setPhase (s : State) (tid : Nat) (p : Phase) :
    (setPhase s tid p).ctxs = s.ctxs := rfl

theorem execs_setPhase (s : State) (tid : Nat) (p : Phase) :
    (setPhase s tid p).execs = s.execs := rfl

theorem mem_removed {α : Type} {x e : α} {l1 l2 : List α}
    (hx : x ∈ l1 ++ e :: l2) (hne : x ≠ e) : x ∈ l1 ++ l2 := by
  rcases List.mem_append.mp hx with h | h
  · exact List.mem_append_left _ h
  · rcases List.mem_cons.mp h with h | h
    · exact absurd h hne
    · exact List.mem_append_right _ h

theorem mem_of_removed {α : Type} {x e : α} {l1 l2 : List α}
    (hx : x ∈ l1 ++ l2) : x ∈ l1 ++ e :: l2 := by
  rcases List.mem_append.mp hx with h | h
  · exact List.mem_append_left _ h
  · exact List.mem_append_right _ (List.mem_cons_of_mem e h)

theorem pairwise_ne_removed {l1 l2 : List (Nat × TAct)} {e : Nat × TAct}
    (hpw : (l1 ++ e :: l2).Pairwise (fun a b => a.2 ≠ b.2)) :
    ∀ x ∈ l1 ++ l2, x.2 ≠ e.2 := by
  intro x hx
  rw [List.pairwise_append] at hpw
  obtain ⟨h1, h2, h12⟩ := hpw
  rcases List.mem_append.mp hx with h | h
  · exact h12 x h e (List.mem_cons_self e l2)
  · rw [List.pairwise_cons] at h2
    exact (h2.1 x h).symm

/-- Firing one due timer that wakes a superseded (canceled) task: the task
aborts at the line-165 check, so the shape survives with that timer
consumed. -/
theorem MidShape_fire_dead (sl : String) (c tl D : Nat) (s : State)
    (sh : MidShape sl c tl D s)
    (e : Nat × TAct) (rest : List (Nat × TAct))
    (hp : pickDue s.now s.timers = some (e, rest))
    (hdead : ∀ tid, e.2 = TAct.wake tid → tid ≠ tl) :
    MidShape sl c tl D (fireTimer { s with timers := rest } e.2)
      ∧ (fireTimer { s with timers := rest } e.2).now = s.now
      ∧ (fireTimer { s with timers := rest } e.2).timers = rest := by
  obtain ⟨hle, l1, l2, hl, hrest, _⟩ := pickDue_some_spec s.now s.timers e rest hp
  have he_mem : e ∈ s.timers := by
    rw [hl]
    exact List.mem_append_right _ (List.mem_cons_self e l2)
  obtain ⟨hleD, tid, hact, htid, hphase, hctxB, hctxNe⟩ := sh.htimers e he_mem
  have htidne : tid ≠ tl := hdead tid hact
  have hcanc : ctxCanceled s (getTask s tid).ctx = true :=
    sh.hOnly _ (hctxNe htidne)
  have hcanc' : ctxCanceled ({ s with timers := rest } : State)
      (getTask ({ s with timers := rest } : State) tid).ctx = true := hcanc
  have hfire : fireTimer ({ s with timers := rest } : State) e.2
      = setPhase ({ s with timers := rest } : State) tid Phase.doneOk := by
    rw [hact]
    exact afterWait_canceled hcanc'
  rw [hfire]
  have hpw0 : (l1 ++ e :: l2).Pairwise (fun a b => a.2 ≠ b.2) := by
    rw [← hl]
    exact sh.hpw
  refine ⟨⟨?_, ?_, ?_, ?_, ?_, ?_, ?_, ?_, ?_, ?_, ?_⟩, rfl, rfl⟩
  · rw [lookupSlot_setPhase]
    exact sh.hslot
  · exact sh.hcLen
  · exact sh.hcLive
  · exact fun c' h => sh.hOnly c' h
  · rw [tasks_setPhase_length]
    exact sh.htlLen
  · rw [getTask_setPhase_other (Ne.symm htidne)]
    exact sh.htask
  · show ((D, TAct.wake tl) : Nat × TAct) ∈ rest
    have hne : ((D, TAct.wake tl) : Nat × TAct) ≠ e := by
      intro h
      have h1 : e.2 = TAct.wake tl := by rw [← h]
      exact hdead tl h1 rfl
    have hmem0 : ((D, TAct.wake tl) : Nat × TAct) ∈ l1 ++ e :: l2 := by
      rw [← hl]
      exact sh.hmem
    rw [hrest]
    exact mem_removed hmem0 hne
  · intro e' he'
    have he'' : e' ∈ rest := he'
    have he_s : e' ∈ s.timers := by
      rw [hl]
      rw [hrest] at he''
      exact mem_of_removed he''
    obtain ⟨hle', tid', hact', htid', hphase', hctxB', hctxNe'⟩ := sh.htimers e' he_s
    have htidne' : tid' ≠ tid := by
      intro h
      subst h
      have hx : e'.2 ≠ e.2 := by
        rw [hrest] at he''
        exact pairwise_ne_removed hpw0 e' he''
      rw [hact, hact'] at hx
      exact hx rfl
    refine ⟨hle', tid', hact', ?_, ?_, ?_, ?_⟩
    · rw [tasks_setPhase_length]
      exact htid'
    · rw [getTask_setPhase_other htidne']
      exact hphase'
    · rw [getTask_setPhase_other htidne']
      exact hctxB'
    · intro h
      rw [getTask_setPhase_other htidne']
      exact hctxNe' h
  · show rest.Pairwise (fun a b => a.2 ≠ b.2)
    rw [hrest]
    exact List.Pairwise.sublist ((List.sublist_cons_self e l2).append_left l1) hpw0
  · exact sh.hexecs
  · exact sh.hinv

/-- While the live wake time `D` is still in the future, every due timer wakes
a superseded task, so firing one preserves the shape. -/
theorem MidShape_fire (sl : String) (c tl D : Nat) (s : State)
    (sh : MidShape sl c tl D s) (hnow : s.now < D)
    (e : Nat × TAct) (rest : List (Nat × TAct))
    (hp : pickDue s.now s.timers = some (e, rest)) :
    MidShape sl c tl D (fireTimer { s with timers := rest } e.2)
      ∧ (fireTimer { s with timers := rest } e.2).now = s.now
      ∧ (fireTimer { s with timers := rest } e.2).timers = rest := by
  obtain ⟨hle, l1, l2, hl, hrest, _⟩ := pickDue_some_spec s.now s.timers e rest hp
  have he_mem : e ∈ s.timers := by
    rw [hl]
    exact List.mem_append_right _ (List.mem_cons_self e l2)
  obtain ⟨hleD, tid, hact, htid, hphase, hctxB, hctxNe⟩ := sh.htimers e he_mem
  have hdead : ∀ tid', e.2 = TAct.wake tid' → tid' ≠ tl := by
    intro tid' h' heq
    rw [hact] at h'
    have h3 := TAct.wake.inj h'
    rw [h3, heq] at hphase
    rw [sh.htask] at hphase
    have h4 : D = e.1 := Phase.waitTimer.inj hphase
    omega
  exact MidShape_fire_dead sl c tl D s sh e rest hp hdead

/-- Draining loop with the live wake still in the future: all due timers wake
superseded tasks, the loop fires each once, and afterwards every remaining due
time is still in the future. -/
theorem fireDue_B1 (sl : String) (c tl D : Nat) (fuel : Nat) :
    ∀ s : State, MidShape sl c tl D s → s.now < D → s.timers.length ≤ fuel →
    MidShape sl c tl D (fireDue fuel s) ∧ (fireDue fuel s).now = s.now
      ∧ ∀ e ∈ (fireDue fuel s).timers, s.now < e.1 := by
  induction fuel with
  | zero =>
      intro s sh _ hfuel
      have h0 : s.timers = [] := List.length_eq_zero.mp (Nat.le_zero.mp hfuel)
      have hmem := sh.hmem
      rw [h0] at hmem
      exact absurd hmem (List.not_mem_nil _)
  | succ fuel ih =>
      intro s sh hnow hfuel
      rw [fireDue_succ]
      cases hp : pickDue s.now s.timers with
      | none => exact ⟨sh, rfl, pickDue_none_mem s.now s.timers hp⟩
      | some pr =>
          obtain ⟨e, rest⟩ := pr
          obtain ⟨shf, hnf, htf⟩ := MidShape_fire sl c tl D s sh hnow e rest hp
          obtain ⟨hle, l1, l2, hl, hrest, _⟩ := pickDue_some_spec s.now s.timers e rest hp
          have hlen' : (fireTimer ({ s with timers := rest } : State) e.2).timers.length
              ≤ fuel := by
            rw [htf, hrest]
            have h1 : s.timers.length = l1.length + (l2.length + 1) := by
              rw [hl, List.length_append, List.length_cons]
            rw [List.length_append]
            omega
          have hnow' : (fireTimer ({ s with timers := rest } : State) e.2).now < D := by
            rw [hnf]
            exact hnow
          obtain ⟨shd, hnd, htd⟩ :=
            ih (fireTimer ({ s with timers := rest } : State) e.2) shf hnow' hlen'
          refine ⟨shd, ?_, ?_⟩
          · rw [hnd, hnf]
          · intro e' he'
            have := htd e' he'
            rw [hnf] at this
            exact this

/-- State shape after the surviving push has fired: every context is canceled,
every remaining timer is a wake of a (necessarily canceled) task, and exactly
one invocation was logged, at time `D`. -/
structure PostShape (sl : String) (D : Nat) (s : State) : Prop where
  hAll : ∀ c', ctxCanceled s c' = true
  htimers : ∀ e ∈ s.timers, ∃ tid, e.2 = TAct.wake tid
  hinv : s.invocations = [(sl, D)]

/-- Once everything is canceled, the remaining timer fires are all silent: the
invocation log never grows again within the tick. -/
theorem fireDue_post (sl : String) (D : Nat) (fuel : Nat) :
    ∀ s : State, PostShape sl D s → PostShape sl D (fireDue fuel s) := by
  induction fuel with
  | zero => exact fun s h => h
  | succ fuel ih =>
      intro s post
      rw [fireDue_succ]
      cases hp : pickDue s.now s.timers with
      | none => exact post
      | some pr =>
          obtain ⟨e, rest⟩ := pr
          obtain ⟨hle, l1, l2, hl, hrest, _⟩ := pickDue_some_spec s.now s.timers e rest hp
          have he_mem : e ∈ s.timers := by
            rw [hl]
            exact List.mem_append_right _ (List.mem_cons_self e l2)
          obtain ⟨tid, hact⟩ := post.htimers e he_mem
          have hcanc' : ctxCanceled ({ s with timers := rest } : State)
              (getTask ({ s with timers := rest } : State) tid).ctx = true :=
            post.hAll _
          have hfire : fireTimer ({ s with timers := rest } : State) e.2
              = setPhase ({ s with timers := rest } : State) tid Phase.doneOk := by
            rw [hact]
            exact afterWait_canceled hcanc'
          show PostShape sl D
            (fireDue fuel (fireTimer ({ s with timers := rest } : State) e.2))
          rw [hfire]
          apply ih
          refine ⟨fun c' => post.hAll c', ?_, post.hinv⟩
          intro e' he'
          have he'' : e' ∈ rest := he'
          have hes : e' ∈ s.timers := by
            rw [hl]
            rw [hrest] at he''
            exact mem_of_removed he''
          exact post.htimers e' hes

theorem invokeHandler_sync_timers (S : State) (tid : Nat)
    (hsync : (getTask S tid).handler = HandlerSpec.sync) :
    (invokeHandler S tid).timers = S.timers := by
  rw [invokeHandler_sync_eq S tid hsync]
  rfl

theorem invokeHandler_sync_ctxs (S : State) (tid : Nat)
    (hsync : (getTask S tid).handler = HandlerSpec.sync) :
    (invokeHandler S tid).ctxs = S.ctxs.set (getTask S tid).ctx true := by
  rw [invokeHandler_sync_eq S tid hsync]
  rfl

/-- The firing tick's drain: when the clock has reached the live wake time,
the loop fires the dead wakes silently, fires the surviving task — which
passes both cancellation checks and invokes its handler, logging `(sl, D)` —
and then drains or abandons the rest silently. -/
theorem fireDue_fire (sl : String) (c tl D : Nat) (fuel : Nat) :
    ∀ s : State, MidShape sl c tl D s → s.now = D → s.timers.length < fuel →
    PostShape sl D (fireDue fuel s) := by
  induction fuel with
  | zero => exact fun s _ _ hf => absurd hf (Nat.not_lt_zero _)
  | succ fuel ih =>
      intro s sh hnow hf
      rw [fireDue_succ]
      cases hp : pickDue s.now s.timers with
      | none =>
          exfalso
          have h1 := pickDue_none_mem s.now s.timers hp (D, TAct.wake tl) sh.hmem
          have h2 : s.now < D := h1
          omega
      | some pr =>
          obtain ⟨e, rest⟩ := pr
          obtain ⟨hle, l1, l2, hl, hrest, _⟩ := pickDue_some_spec s.now s.timers e rest hp
          have he_mem : e ∈ s.timers := by
            rw [hl]
            exact List.mem_append_right _ (List.mem_cons_self e l2)
          obtain ⟨hleD, tid, hact, htid, hphase, hctxB, hctxNe⟩ := sh.htimers e he_mem
          show PostShape sl D
            (fireDue fuel (fireTimer ({ s with timers := rest } : State) e.2))
          by_cases htl : tid = tl
          · -- the surviving wake fires now
            rw [htl] at hact
            rw [hact]
            have htask' : getTask ({ s with timers := rest } : State) tl
                = ⟨sl, c, HandlerSpec.sync, Phase.waitTimer D⟩ := sh.htask
            have hcLive' : ctxCanceled ({ s with timers := rest } : State) c = false :=
              sh.hcLive
            have hexec' : execOf ({ s with timers := rest } : State) sl = none := by
              unfold execOf
              have h5 : lookupSlot ({ s with timers := rest } : State) sl
                  = some ⟨c, none, none⟩ := sh.hslot
              rw [h5]
              rfl
            have hwa : fireTimer ({ s with timers := rest } : State) (TAct.wake tl)
                = invokeHandler ({ s with timers := rest } : State) tl :=
              afterWait_eq_invoke _ tl ⟨sl, c, HandlerSpec.sync, Phase.waitTimer D⟩
                htask' hcLive' hexec'
            rw [hwa]
            have hsync' : (getTask ({ s with timers := rest } : State) tl).handler
                = HandlerSpec.sync := by
              rw [htask']
            apply fireDue_post
            refine ⟨?_, ?_, ?_⟩
            · intro c'
              have h6 : ctxCanceled (invokeHandler ({ s with timers := rest } : State) tl) c'
                  = (s.ctxs.set c true).getD c' true := by
                unfold ctxCanceled
                rw [invokeHandler_sync_ctxs _ tl hsync', htask']
              rw [h6]
              by_cases hc : c' = c
              · rw [hc]
                exact getD_set_self s.ctxs c true true sh.hcLen
              · rw [getD_set_other s.ctxs c c' true true hc]
                exact sh.hOnly c' hc
            · have h7 : (invokeHandler ({ s with timers := rest } : State) tl).timers
                  = rest := by
                rw [invokeHandler_sync_timers _ tl hsync']
              rw [h7]
              intro e' he'
              have hes : e' ∈ s.timers := by
                rw [hl]
                rw [hrest] at he'
                exact mem_of_removed he'
              obtain ⟨_, tid', hact', _, _, _, _⟩ := sh.htimers e' hes
              exact ⟨tid', hact'⟩
            · rw [invokeHandler_invocations, htask']
              have h9 : ({ s with timers := rest } : State).invocations = [] := sh.hinv
              have h10 : ({ s with timers := rest } : State).now = D := hnow
              rw [h9, h10]
              rfl
          · -- a dead wake fires silently; recurse
            have hdead : ∀ tid', e.2 = TAct.wake tid' → tid' ≠ tl := by
              intro tid' h' heq
              rw [hact] at h'
              exact htl ((TAct.wake.inj h').trans heq)
            obtain ⟨shf, hnf, htf⟩ := MidShape_fire_dead sl c tl D s sh e rest hp hdead
            apply ih _ shf
            · rw [hnf]
              exact hnow
            · rw [htf, hrest]
              have h1 : s.timers.length = l1.length + (l2.length + 1) := by
                rw [hl, List.length_append, List.length_cons]
              rw [List.length_append]
              omega

theorem ticks_succ (k : Nat) (s : State) :
    ticks (k + 1) s = ticks k (Slots.tick s) := rfl

/-- A clock tick strictly before the live wake time preserves the
push-coalescing shape: all timers that fire wake superseded calls. -/
theorem PShape_tick_lt (sl : String) (P c tl D : Nat) (s : State)
    (sh : PShape sl P c tl D s) (h : s.now + 1 < D) :
    PShape sl P c tl D (Slots.tick s) ∧ (Slots.tick s).now = s.now + 1 := by
  rw [tick_eq]
  have msh1 : MidShape sl c tl D ({ s with now := s.now + 1 } : State) :=
    ⟨sh.hslot, sh.hcLen, sh.hcLive, sh.hOnly, sh.htlLen, sh.htask, sh.hmem,
     sh.htimers, sh.hpw, sh.hexecs, sh.hinv⟩
  have hfuel : ({ s with now := s.now + 1 } : State).timers.length
      ≤ s.timers.length + 2 * s.tasks.length + 1 := by
    show s.timers.length ≤ s.timers.length + 2 * s.tasks.length + 1
    omega
  obtain ⟨msh2, hn2, hd2⟩ := fireDue_B1 sl c tl D
    (s.timers.length + 2 * s.tasks.length + 1)
    ({ s with now := s.now + 1 } : State) msh1 h hfuel
  refine ⟨⟨msh2, sh.hP, ?_, ?_⟩, hn2⟩
  · intro e he
    have h3 := hd2 e he
    rw [hn2]
    exact h3
  · rw [hn2]
    have h4 := sh.hDle
    show D ≤ s.now + 1 + P
    omega

/-- The tick that reaches the live wake time fires the surviving push exactly
once: afterwards all contexts are canceled and the log reads `[(sl, D)]`. -/
theorem PShape_tick_final (sl : String) (P c tl D : Nat) (s : State)
    (sh : PShape sl P c tl D s) (h : s.now + 1 = D) :
    PostShape sl D (Slots.tick s) := by
  rw [tick_eq]
  have msh1 : MidShape sl c tl D ({ s with now := s.now + 1 } : State) :=
    ⟨sh.hslot, sh.hcLen, sh.hcLive, sh.hOnly, sh.htlLen, sh.htask, sh.hmem,
     sh.htimers, sh.hpw, sh.hexecs, sh.hinv⟩
  have hfuel : ({ s with now := s.now + 1 } : State).timers.length
      < s.timers.length + 2 * s.tasks.length + 1 := by
    show s.timers.length < s.timers.length + 2 * s.tasks.length + 1
    omega
  exact fireDue_fire sl c tl D (s.timers.length + 2 * s.tasks.length + 1)
    ({ s with now := s.now + 1 } : State) msh1 h hfuel

/-- Ticking `g` milliseconds while the wake stays in the future preserves the
shape and advances the clock by `g`. -/
theorem PShape_ticks_lt (sl : String) (P c tl D : Nat) (g : Nat) :
    ∀ s : State, PShape sl P c tl D s → s.now + g < D →
    PShape sl P c tl D (ticks g s) ∧ (ticks g s).now = s.now + g := by
  induction g with
  | zero => exact fun s sh _ => ⟨sh, rfl⟩
  | succ g ih =>
      intro s sh hlt
      rw [ticks_succ]
      have h1 : s.now + 1 < D := by omega
      obtain ⟨sh2, hn2⟩ := PShape_tick_lt sl P c tl D s sh h1
      have h2 : (Slots.tick s).now + g < D := by
        rw [hn2]
        omega
      obtain ⟨sh3, hn3⟩ := ih (Slots.tick s) sh2 h2
      refine ⟨sh3, ?_⟩
      rw [hn3, hn2]
      omega

/-- Ticking exactly up to the wake time fires the surviving push once. -/
theorem PShape_ticks_fire (sl : String) (P c tl : Nat) (k : Nat) :
    ∀ s : State, PShape sl P c tl (s.now + k) s → 0 < k →
    PostShape sl (s.now + k) (ticks k s) := by
  induction k with
  | zero => exact fun s _ h0 => absurd h0 (lt_irrefl 0)
  | succ k ih =>
      intro s sh _
      rw [ticks_succ]
      cases Nat.eq_zero_or_pos k with
      | inl hk =>
          subst hk
          exact PShape_tick_final sl P c tl (s.now + 1) s sh rfl
      | inr hk =>
          have h1 : s.now + 1 < s.now + (k + 1) := by omega
          obtain ⟨sh2, hn2⟩ := PShape_tick_lt sl P c tl (s.now + (k + 1)) s sh h1
          have h2 : s.now + (k + 1) = (Slots.tick s).now + k := by
            rw [hn2]
            omega
          have sh3 : PShape sl P c tl ((Slots.tick s).now + k) (Slots.tick s) := h2 ▸ sh2
          have h3 := ih (Slots.tick s) sh3 hk
          rw [← h2] at h3
          exact h3

/-- A quiescent slot: it exists, has never fired, has no recorded execution,
every context is canceled, and nothing is pending anywhere. -/
structure QShape (sl : String) (c : Nat) (s : State) : Prop where
  hslot : lookupSlot s sl = some ⟨c, none, none⟩
  hAll : ∀ c', ctxCanceled s c' = true
  htimersE : s.timers = []
  hexecs : s.execs = []
  hinv : s.invocations = []

/-- The first push on a quiescent slot establishes the coalescing shape: a
fresh live context, one parked task, and a wake one period from now. -/
theorem QShape_push (sl : String) (P c : Nat) (s : State)
    (sh : QShape sl c s) (hP : 0 < P) :
    PShape sl P s.ctxs.length s.tasks.length (s.now + P)
      (Slots.start s sl Mode.push P HandlerSpec.sync)
    ∧ (Slots.start s sl Mode.push P HandlerSpec.sync).now = s.now := by
  have h1 : Slots.start s sl Mode.push P HandlerSpec.sync
      = startAdmit (setCancel s c) sl P HandlerSpec.sync := by
    rw [start_push_eq, getOrCreate_of_some sh.hslot, sh.hslot]
    rfl
  have h2 := startAdmit_pos_eq (setCancel s c) sl P HandlerSpec.sync
    (Nat.pos_iff_ne_zero.mp hP)
  rw [h1, h2]
  have hlen : (setCancel s c).ctxs.length = s.ctxs.length := by
    unfold setCancel
    exact List.length_set s.ctxs c true
  have htasksEq : (setCancel s c).tasks = s.tasks := rfl
  have hnowEq : (setCancel s c).now = s.now := rfl
  have htimersEq : (setCancel s c).timers = s.timers := rfl
  constructor
  · refine ⟨⟨?_, ?_, ?_, ?_, ?_, ?_, ?_, ?_, ?_, ?_, ?_⟩, hP, ?_, ?_⟩
    · -- hslot
      show lookupSlot (updSlot { setCancel s c with
          ctxs := (setCancel s c).ctxs ++ [false] } sl
          (fun si => { si with context := (setCancel s c).ctxs.length })) sl
        = some ⟨s.ctxs.length, none, none⟩
      rw [lookupSlot_updSlot_self]
      have h3 : lookupSlot ({ setCancel s c with
          ctxs := (setCancel s c).ctxs ++ [false] } : State) sl
          = lookupSlot s sl := rfl
      rw [h3, sh.hslot, hlen]
      rfl
    · -- hcLen
      show s.ctxs.length < ((setCancel s c).ctxs ++ [false]).length
      simp [hlen]
    · -- hcLive
      show ((setCancel s c).ctxs ++ [false]).getD s.ctxs.length true = false
      rw [← hlen]
      exact getD_concat_length _ _ _
    · -- hOnly: every old context was already canceled and stays so
      intro c' hc'
      show ((setCancel s c).ctxs ++ [false]).getD c' true = true
      by_cases hlt : c' < (setCancel s c).ctxs.length
      · rw [getD_append_lt _ _ _ _ hlt]
        show ctxCanceled (setCancel s c) c' = true
        exact ctxCanceled_setCancel_mono (sh.hAll c')
      · rw [getD_append_ge _ _ _ _ (le_of_not_lt hlt)]
        have h4 : c' - (setCancel s c).ctxs.length ≠ 0 := by
          rw [hlen]
          rw [hlen] at hlt
          omega
        cases hk : c' - (setCancel s c).ctxs.length with
        | zero => exact absurd hk h4
        | succ k => simp [List.getD]
    · -- htlLen
      show s.tasks.length < ((setCancel s c).tasks
        ++ [({ slot := sl, ctx := (setCancel s c).ctxs.length,
               handler := HandlerSpec.sync,
               phase := Phase.waitTimer ((setCancel s c).now + P) } : STask)]).length
      rw [htasksEq]
      simp
    · -- htask
      show ((setCancel s c).tasks
          ++ [({ slot := sl, ctx := (setCancel s c).ctxs.length,
                 handler := HandlerSpec.sync,
                 phase := Phase.waitTimer ((setCancel s c).now + P) } : STask)]).getD
          s.tasks.length default
        = ({ slot := sl, ctx := s.ctxs.length, handler := HandlerSpec.sync,
             phase := Phase.waitTimer (s.now + P) } : STask)
      rw [htasksEq] at *
      rw [getD_concat_length]
      rw [hlen]
      rfl
    · -- hmem
      show (s.now + P, TAct.wake s.tasks.length)
        ∈ (setCancel s c).timers ++ [((setCancel s c).now + P,
            TAct.wake (setCancel s c).tasks.length)]
      rw [htimersEq, hnowEq, htasksEq]
      exact List.mem_append_right _ (List.mem_singleton.mpr rfl)
    · -- htimers: the new wake is the only timer
      intro e he
      rcases List.mem_append.mp he with he | he
      · have he2 : e ∈ s.timers := he
        rw [sh.htimersE] at he2
        exact absurd he2 (List.not_mem_nil e)
      · rw [List.mem_singleton.mp he]
        refine ⟨Nat.le_refl _, s.tasks.length, rfl, ?_, ?_, ?_, ?_⟩
        · show s.tasks.length < ((setCancel s c).tasks
            ++ [({ slot := sl, ctx := (setCancel s c).ctxs.length,
                   handler := HandlerSpec.sync,
                   phase := Phase.waitTimer ((setCancel s c).now + P) } : STask)]).length
          rw [htasksEq]
          simp
        · show (((setCancel s c).tasks
            ++ [({ slot := sl, ctx := (setCancel s c).ctxs.length,
                   handler := HandlerSpec.sync,
                   phase := Phase.waitTimer ((setCancel s c).now + P) } : STask)]).getD
              s.tasks.length default).phase = Phase.waitTimer (s.now + P)
          rw [htasksEq, getD_concat_length]
          rfl
        · show (((setCancel s c).tasks
            ++ [({ slot := sl, ctx := (setCancel s c).ctxs.length,
                   handler := HandlerSpec.sync,
                   phase := Phase.waitTimer ((setCancel s c).now + P) } : STask)]).getD
              s.tasks.length default).ctx < ((setCancel s c).ctxs ++ [false]).length
          rw [htasksEq, getD_concat_length]
          simp [hlen]
        · intro h
          exact absurd rfl h
    · -- hpw
      show ((setCancel s c).timers
        ++ [(((setCancel s c).now + P,
              TAct.wake (setCancel s c).tasks.length) : Nat × TAct)]).Pairwise
          (fun a b => a.2 ≠ b.2)
      have h5 : (setCancel s c).timers = [] := sh.htimersE
      rw [h5]
      exact List.pairwise_singleton _ _
    · -- hexecs
      show (setCancel s c).execs = []
      exact sh.hexecs
    · -- hinv
      show (setCancel s c).invocations = []
      exact sh.hinv
    · -- hdueGT
      intro e he
      rcases List.mem_append.mp he with he | he
      · have he2 : e ∈ s.timers := he
        rw [sh.htimersE] at he2
        exact absurd he2 (List.not_mem_nil e)
      · rw [List.mem_singleton.mp he]
        show s.now < (setCancel s c).now + P
        rw [hnowEq]
        omega
    · -- hDle
      show s.now + P ≤ (setCancel s c).now + P
      rw [hnowEq]
  · rfl

/-- Touching a fresh slot in the empty registry yields a quiescent slot whose
pre-canceled context is id 0. -/
theorem QShape_init (sl : String) : QShape sl 0 (getOrCreateSlotInfo init sl) := by
  have h0 : lookupSlot init sl = none := rfl
  have h2 : getOrCreateSlotInfo init sl
      = { init with
          ctxs := init.ctxs ++ [true],
          slots := init.slots ++ [(sl, ⟨init.ctxs.length, none, none⟩)] } := by
    unfold getOrCreateSlotInfo
    rw [h0]
  refine ⟨?_, ?_, ?_, ?_, ?_⟩
  · rw [h2]
    show Option.map (fun p => p.2)
        (List.find? (fun p => p.1 == sl)
          [((sl, (⟨0, none, none⟩ : SlotInfo)) : String × SlotInfo)])
      = some ⟨0, none, none⟩
    rw [@List.find?_cons_of_pos _ (fun p => p.1 == sl)
      ((sl, (⟨0, none, none⟩ : SlotInfo)) : String × SlotInfo) [] (by simp)]
    rfl
  · intro c'
    rw [h2]
    show List.getD [true] c' true = true
    cases c' with
    | zero => rfl
    | succ n => simp [List.getD]
  · rw [h2]
    rfl
  · rw [h2]
    rfl
  · rw [h2]
    rfl

/-- Every entry point starts with the same lazy slot creation, so creating the
slot first changes nothing. -/
theorem start_getOrCreate (s : State) (sl : String) (m : Mode) (p : Nat)
    (hd : HandlerSpec) :
    Slots.start (getOrCreateSlotInfo s sl) sl m p hd = Slots.start s sl m p hd := by
  unfold start
  rw [getOrCreate_of_some (lookupSlot_getOrCreate_self s sl)]

/-- A push-mode `start` request as an external event. -/
def pushEv (sl : String) (P : Nat) : Event :=
  Event.start sl Mode.push P HandlerSpec.sync

/-- The tail of a push burst: for each listed gap, wait that many milliseconds
and push again. -/
def gapScript (sl : String) (P : Nat) : List Nat → List Event
  | [] => []
  | g :: gs => List.replicate g Event.tick ++ (pushEv sl P :: gapScript sl P gs)

/-- Running the burst tail from a freshly pushed shape keeps exactly one live
pending call, lands `period` after the last push, and logs nothing. -/
theorem gapScript_run (sl : String) (P : Nat) (gaps : List Nat) :
    ∀ (c tl : Nat) (s : State), PShape sl P c tl (s.now + P) s →
    (∀ g ∈ gaps, g < P) →
    ∃ c' tl',
      PShape sl P c' tl'
        (((gapScript sl P gaps).foldl step s).now + P)
        ((gapScript sl P gaps).foldl step s)
      ∧ ((gapScript sl P gaps).foldl step s).now = s.now + gaps.sum := by
  induction gaps with
  | nil =>
      intro c tl s sh _
      refine ⟨c, tl, sh, ?_⟩
      show s.now = s.now + List.sum []
      simp
  | cons g gs ih =>
      intro c tl s sh hg
      have hgP : g < P := hg g (List.mem_cons_self g gs)
      have hgs : ∀ g' ∈ gs, g' < P := fun g' h => hg g' (List.mem_cons_of_mem g h)
      have hscript : gapScript sl P (g :: gs)
          = List.replicate g Event.tick ++ (pushEv sl P :: gapScript sl P gs) := rfl
      rw [hscript, List.foldl_append, List.foldl_cons]
      have hticks : List.foldl step s (List.replicate g Event.tick) = ticks g s := rfl
      rw [hticks]
      have hstep : step (ticks g s) (pushEv sl P)
          = Slots.start (ticks g s) sl Mode.push P HandlerSpec.sync := rfl
      rw [hstep]
      obtain ⟨sh1, hn1⟩ := PShape_ticks_lt sl P c tl (s.now + P) g s sh (by omega)
      obtain ⟨sh2, hn2⟩ := PShape_push sl P c tl (s.now + P) (ticks g s) sh1
      have sh2' : PShape sl P (ticks g s).ctxs.length (ticks g s).tasks.length
          ((Slots.start (ticks g s) sl Mode.push P HandlerSpec.sync).now + P)
          (Slots.start (ticks g s) sl Mode.push P HandlerSpec.sync) := by
        rw [hn2]
        exact sh2
      obtain ⟨c', tl', sh3, hn3⟩ := ih (ticks g s).ctxs.length (ticks g s).tasks.length
        (Slots.start (ticks g s) sl Mode.push P HandlerSpec.sync) sh2' hgs
      refine ⟨c', tl', sh3, ?_⟩
      rw [hn3, hn2, hn1]
      rw [List.sum_cons]
      omega

/-- Claim C3 (push coalescing), for a positive period: starting with a push on
a fresh registry and pushing again after each listed gap (every gap shorter
than the period), then letting a full period elapse, the handler is invoked
exactly once, exactly `period` milliseconds after the last push. -/
theorem push_coalescing (sl : String) (P : Nat) (gaps : List Nat)
    (hP : 0 < P) (hg : ∀ g ∈ gaps, g < P) :
    (run (pushEv sl P :: (gapScript sl P gaps ++ List.replicate P Event.tick))).invocations
      = [(sl, gaps.sum + P)] := by
  obtain ⟨sh1, hn1⟩ := QShape_push sl P 0 (getOrCreateSlotInfo init sl) (QShape_init sl) hP
  rw [start_getOrCreate] at sh1 hn1
  have sh1' : PShape sl P (getOrCreateSlotInfo init sl).ctxs.length
      (getOrCreateSlotInfo init sl).tasks.length
      ((Slots.start init sl Mode.push P HandlerSpec.sync).now + P)
      (Slots.start init sl Mode.push P HandlerSpec.sync) := by
    rw [hn1]
    exact sh1
  obtain ⟨c', tl', sh3, hn3⟩ := gapScript_run sl P gaps
    (getOrCreateSlotInfo init sl).ctxs.length
    (getOrCreateSlotInfo init sl).tasks.length
    (Slots.start init sl Mode.push P HandlerSpec.sync) sh1' hg
  show (List.foldl step init
      (pushEv sl P :: (gapScript sl P gaps ++ List.replicate P Event.tick))).invocations
    = [(sl, gaps.sum + P)]
  rw [List.foldl_cons, List.foldl_append]
  have hstep0 : step init (pushEv sl P)
      = Slots.start init sl Mode.push P HandlerSpec.sync := rfl
  rw [hstep0]
  have hpost := PShape_ticks_fire sl P c' tl' P
    ((gapScript sl P gaps).foldl step (Slots.start init sl Mode.push P HandlerSpec.sync))
    sh3 hP
  have hres := hpost.hinv
  show (ticks P ((gapScript sl P gaps).foldl step
      (Slots.start init sl Mode.push P HandlerSpec.sync))).invocations
    = [(sl, gaps.sum + P)]
  rw [hres, hn3, hn1]
  have h0 : (getOrCreateSlotInfo init sl).now = 0 := rfl
  rw [h0]
  rw [Nat.zero_add]

/-- At period 0 the coalescing promise fails: three immediate pushes on one
slot each invoke the handler, logging three invocations rather than one. -/
theorem push_coalescing_zero_cex :
    (run [pushEv "a" 0, pushEv "a" 0, pushEv "a" 0]).invocations
      = [("a", 0), ("a", 0), ("a", 0)] := by
  decide

theorem push_coalescing_witness :
    (0 < 2 ∧ ∀ g ∈ [1, 1], g < 2)
    ∧ (run (pushEv "a" 2 :: (gapScript "a" 2 [1, 1]
        ++ List.replicate 2 Event.tick))).invocations
      = [("a", List.sum [1, 1] + 2)] :=
  ⟨⟨by decide, by decide⟩, push_coalescing "a" 2 [1, 1] (by decide) (by decide)⟩

/-! ### C1: mutual exclusion.  A well-formedness invariant of reachable
states, strong enough to show that the `overlaps` ghost counter never moves
and that every in-flight execution is the one recorded in its slot's
`executing` field. -/

theorem ctxs_setCancel (s : State) (c : Nat) :
    (setCancel s c).ctxs = s.ctxs.set c true := rfl

theorem ctxs_updSlot (s : State) (sl : String) (f : SlotInfo → SlotInfo) :
    (updSlot s sl f).ctxs = s.ctxs := rfl

theorem tasks_setCancel (s : State) (c : Nat) :
    (setCancel s c).tasks = s.tasks := rfl

theorem tasks_updSlot (s : State) (sl : String) (f : SlotInfo → SlotInfo) :
    (updSlot s sl f).tasks = s.tasks := rfl

theorem execs_setCancel (s : State) (c : Nat) :
    (setCancel s c).execs = s.execs := rfl

theorem execs_updSlot (s : State) (sl : String) (f : SlotInfo → SlotInfo) :
    (updSlot s sl f).execs = s.execs := rfl

theorem execOf_setCancel (s : State) (c : Nat) (sl : String) :
    execOf (setCancel s c) sl = execOf s sl := rfl

theorem execOf_setPhase (s : State) (tid : Nat) (p : Phase) (sl : String) :
    execOf (setPhase s tid p) sl = execOf s sl := rfl

/-- The reachable-state invariant: ghost overlap counter at zero, fresh-id
discipline for contexts, ownership of a non-canceled context by exactly its
task's slot, the in-flight execution recorded in `executing`, well-formed
execution records and waiter lists, and well-formed timers. -/
structure Inv (s : State) : Prop where
  hover : s.overlaps = 0
  hslotB : ∀ sl si, lookupSlot s sl = some si → si.context < s.ctxs.length
  htaskB : ∀ tid, tid < s.tasks.length → (getTask s tid).ctx < s.ctxs.length
  htaskInj : ∀ tid tid', tid < s.tasks.length → tid' < s.tasks.length → tid ≠ tid' →
      (getTask s tid).ctx ≠ (getTask s tid').ctx
  htaskOwn : ∀ tid, tid < s.tasks.length → ∀ sl si, lookupSlot s sl = some si →
      si.context = (getTask s tid).ctx → sl = (getTask s tid).slot
  htaskCur : ∀ tid, tid < s.tasks.length →
      ctxCanceled s (getTask s tid).ctx = false →
      ∃ si, lookupSlot s (getTask s tid).slot = some si
        ∧ si.context = (getTask s tid).ctx
  hexecRec : ∀ eid, eid < s.execs.length → (getExec s eid).done = false →
      execOf s (getExec s eid).slot = some eid
  hrecWF : ∀ sl si eid, lookupSlot s sl = some si → si.executing = some eid →
      eid < s.execs.length ∧ (getExec s eid).slot = sl
  hexecWF : ∀ eid, eid < s.execs.length →
      (getExec s eid).invoker < s.tasks.length
      ∧ (getTask s (getExec s eid).invoker).slot = (getExec s eid).slot
      ∧ ((getExec s eid).done = false →
          (getTask s (getExec s eid).invoker).phase = Phase.running eid)
  hwaitWF : ∀ eid, eid < s.execs.length → (getExec s eid).done = false →
      ∀ w ∈ (getExec s eid).waiters, w < s.tasks.length
        ∧ (getTask s w).slot = (getExec s eid).slot
        ∧ (getTask s w).phase = Phase.waitExec eid
  hwaitNd : ∀ eid, eid < s.execs.length → (getExec s eid).waiters.Nodup
  htimerW : ∀ d tid, (d, TAct.wake tid) ∈ s.timers →
      tid < s.tasks.length ∧ (getTask s tid).phase = Phase.waitTimer d
  htimerC : ∀ d eid, (d, TAct.complete eid) ∈ s.timers →
      eid < s.execs.length ∧ (getExec s eid).done = false
  htpw : s.timers.Pairwise (fun a b => a.2 ≠ b.2)

/-- The empty registry satisfies the invariant. -/
theorem Inv_init : Inv init := by
  refine ⟨rfl, ?_, ?_, ?_, ?_, ?_, ?_, ?_, ?_, ?_, ?_, ?_, ?_, ?_⟩
  · intro sl si h
    exact Option.noConfusion (show (none : Option SlotInfo) = some si from h)
  · intro tid h
    exact absurd (show tid < 0 from h) (Nat.not_lt_zero tid)
  · intro tid tid' h _ _ _
    exact absurd (show tid < 0 from h) (Nat.not_lt_zero tid)
  · intro tid h
    exact absurd (show tid < 0 from h) (Nat.not_lt_zero tid)
  · intro tid h
    exact absurd (show tid < 0 from h) (Nat.not_lt_zero tid)
  · intro eid h
    exact absurd (show eid < 0 from h) (Nat.not_lt_zero eid)
  · intro sl si eid h
    exact absurd (Option.noConfusion
      (show (none : Option SlotInfo) = some si from h)) id
  · intro eid h
    exact absurd (show eid < 0 from h) (Nat.not_lt_zero eid)
  · intro eid h
    exact absurd (show eid < 0 from h) (Nat.not_lt_zero eid)
  · intro eid h
    exact absurd (show eid < 0 from h) (Nat.not_lt_zero eid)
  · intro d tid h
    exact absurd (show (d, TAct.wake tid) ∈ ([] : List (Nat × TAct)) from h)
      (List.not_mem_nil _)
  · intro d eid h
    exact absurd (show (d, TAct.complete eid) ∈ ([] : List (Nat × TAct)) from h)
      (List.not_mem_nil _)
  · exact List.Pairwise.nil

/-- Canceling any context preserves the invariant. -/
theorem Inv_setCancel (s : State) (c : Nat) (inv : Inv s) : Inv (setCancel s c) := by
  have hlen : (setCancel s c).ctxs.length = s.ctxs.length := by
    rw [ctxs_setCancel]
    exact List.length_set s.ctxs c true
  refine ⟨inv.hover, ?_, ?_, inv.htaskInj, inv.htaskOwn, ?_, inv.hexecRec,
    inv.hrecWF, inv.hexecWF, inv.hwaitWF, inv.hwaitNd, inv.htimerW, inv.htimerC,
    inv.htpw⟩
  · intro sl si h
    rw [hlen]
    exact inv.hslotB sl si h
  · intro tid h
    rw [hlen]
    exact inv.htaskB tid h
  · intro tid h hc
    have hc' : ctxCanceled (setCancel s c) (getTask s tid).ctx = false := hc
    cases hb : ctxCanceled s (getTask s tid).ctx with
    | false => exact inv.htaskCur tid h hb
    | true =>
        rw [ctxCanceled_setCancel_mono hb] at hc'
        exact Bool.noConfusion hc'

/-- Extending the registry with a brand-new slot (fresh pre-canceled context)
preserves the invariant.  Stated over an abstract state `u` given by its
projections so the call sites stay syntactic. -/
theorem Inv_extend (s : State) (sl0 : String) (inv : Inv s)
    (u : State)
    (hslots : u.slots = s.slots ++ [(sl0, ⟨s.ctxs.length, none, none⟩)])
    (hctxs : u.ctxs = s.ctxs ++ [true])
    (htasks : u.tasks = s.tasks)
    (hexecs : u.execs = s.execs)
    (htimers : u.timers = s.timers)
    (hoverlaps : u.overlaps = s.overlaps) :
    Inv u := by
  have hgt : ∀ t, getTask u t = getTask s t := by
    intro t
    unfold getTask
    rw [htasks]
  have hge : ∀ e, getExec u e = getExec s e := by
    intro e
    unfold getExec
    rw [hexecs]
  have hlk : ∀ sl', lookupSlot u sl'
      = (lookupSlot s sl').or
          (if sl' = sl0 then some ⟨s.ctxs.length, none, none⟩ else none) := by
    intro sl'
    unfold lookupSlot
    rw [hslots, List.find?_append]
    cases hf : s.slots.find? (fun p => p.1 == sl') with
    | some pr => rfl
    | none =>
        show (List.find? (fun p => p.1 == sl')
            [((sl0, (⟨s.ctxs.length, none, none⟩ : SlotInfo)) : String × SlotInfo)]).map
            (fun p => p.2)
          = (Option.or none _)
        by_cases hse : sl' = sl0
        · subst hse
          rw [@List.find?_cons_of_pos _ (fun p => p.1 == sl')
            ((sl', (⟨s.ctxs.length, none, none⟩ : SlotInfo)) : String × SlotInfo)
            [] (by simp)]
          rw [if_pos rfl]
          rfl
        · rw [@List.find?_cons_of_neg _ (fun p => p.1 == sl')
            ((sl0, (⟨s.ctxs.length, none, none⟩ : SlotInfo)) : String × SlotInfo)
            [] (by simp; exact fun hh => hse hh.symm)]
          rw [if_neg hse]
          rfl
  have hcc : ∀ c', c' < s.ctxs.length → ctxCanceled u c' = ctxCanceled s c' := by
    intro c' hc'
    unfold ctxCanceled
    rw [hctxs]
    exact getD_append_lt _ _ _ _ hc'
  have hlen : u.ctxs.length = s.ctxs.length + 1 := by
    rw [hctxs, List.length_append]
    rfl
  refine ⟨?_, ?_, ?_, ?_, ?_, ?_, ?_, ?_, ?_, ?_, ?_, ?_, ?_, ?_⟩
  · rw [hoverlaps]
    exact inv.hover
  · intro sl' si' h'
    rw [hlk sl'] at h'
    rw [hlen]
    cases hf : lookupSlot s sl' with
    | some si'' =>
        rw [hf] at h'
        have he : si'' = si' := Option.some.inj h'
        subst he
        have := inv.hslotB sl' si'' hf
        omega
    | none =>
        rw [hf] at h'
        by_cases hse : sl' = sl0
        · rw [if_pos hse] at h'
          have he : (⟨s.ctxs.length, none, none⟩ : SlotInfo) = si' :=
            Option.some.inj h'
          subst he
          show s.ctxs.length < s.ctxs.length + 1
          omega
        · rw [if_neg hse] at h'
          exact Option.noConfusion h'
  · intro tid h'
    rw [htasks] at h'
    rw [hgt, hlen]
    have := inv.htaskB tid h'
    omega
  · intro tid tid' h1 h2 hne
    rw [htasks] at h1 h2
    rw [hgt, hgt]
    exact inv.htaskInj tid tid' h1 h2 hne
  · intro tid h' sl' si' hlkp hctx
    rw [htasks] at h'
    rw [hgt] at hctx ⊢
    rw [hlk sl'] at hlkp
    cases hf : lookupSlot s sl' with
    | some si'' =>
        rw [hf] at hlkp
        have he : si'' = si' := Option.some.inj hlkp
        subst he
        exact inv.htaskOwn tid h' sl' si'' hf hctx
    | none =>
        rw [hf] at hlkp
        by_cases hse : sl' = sl0
        · rw [if_pos hse] at hlkp
          have he : (⟨s.ctxs.length, none, none⟩ : SlotInfo) = si' :=
            Option.some.inj hlkp
          subst he
          exfalso
          have := inv.htaskB tid h'
          rw [← hctx] at this
          exact absurd this (lt_irrefl _)
        · rw [if_neg hse] at hlkp
          exact Option.noConfusion hlkp
  · intro tid h' hc
    rw [htasks] at h'
    rw [hgt] at hc ⊢
    rw [hcc _ (inv.htaskB tid h')] at hc
    obtain ⟨si', hsi, hctx⟩ := inv.htaskCur tid h' hc
    refine ⟨si', ?_, hctx⟩
    rw [hlk _, hsi]
    rfl
  · intro eid h' hd
    rw [hexecs] at h'
    rw [hge] at hd ⊢
    have h2 := inv.hexecRec eid h' hd
    unfold execOf at h2 ⊢
    obtain ⟨si', hsi, hex⟩ := Option.bind_eq_some.mp h2
    rw [hlk _, hsi]
    show (some si').bind (fun si => si.executing) = some eid
    rw [Option.some_bind]
    exact hex
  · intro sl' si' eid hlkp hex
    rw [hlk sl'] at hlkp
    rw [hexecs, hge]
    cases hf : lookupSlot s sl' with
    | some si'' =>
        rw [hf] at hlkp
        have he : si'' = si' := Option.some.inj hlkp
        subst he
        exact inv.hrecWF sl' si'' eid hf hex
    | none =>
        rw [hf] at hlkp
        by_cases hse : sl' = sl0
        · rw [if_pos hse] at hlkp
          have he : (⟨s.ctxs.length, none, none⟩ : SlotInfo) = si' :=
            Option.some.inj hlkp
          subst he
          exact Option.noConfusion hex
        · rw [if_neg hse] at hlkp
          exact Option.noConfusion hlkp
  · intro eid h'
    rw [hexecs] at h'
    rw [hge, hgt, htasks]
    exact inv.hexecWF eid h'
  · intro eid h' hd w hw
    rw [hexecs] at h'
    rw [hge] at hd hw ⊢
    rw [htasks, hgt]
    exact inv.hwaitWF eid h' hd w hw
  · intro eid h'
    rw [hexecs] at h'
    rw [hge]
    exact inv.hwaitNd eid h'
  · intro d tid hmem
    rw [htimers] at hmem
    rw [htasks, hgt]
    exact inv.htimerW d tid hmem
  · intro d eid hmem
    rw [htimers] at hmem
    rw [hexecs, hge]
    exact inv.htimerC d eid hmem
  · rw [htimers]
    exact inv.htpw

/-- Lazy slot creation preserves the invariant. -/
theorem Inv_getOrCreate (s : State) (sl0 : String) (inv : Inv s) :
    Inv (getOrCreateSlotInfo s sl0) := by
  cases h : lookupSlot s sl0 with
  | some si =>
      rw [getOrCreate_of_some h]
      exact inv
  | none =>
      have heq : getOrCreateSlotInfo s sl0
          = { s with
              ctxs := s.ctxs ++ [true],
              slots := s.slots ++ [(sl0, ⟨s.ctxs.length, none, none⟩)] } := by
        unfold getOrCreateSlotInfo
        rw [h]
      exact Inv_extend s sl0 inv (getOrCreateSlotInfo s sl0)
        (by rw [heq]) (by rw [heq]) (by rw [heq]) (by rw [heq]) (by rw [heq])
        (by rw [heq])

theorem setPhase_oob {s : State} {tid : Nat} (h : s.tasks.length ≤ tid) (p : Phase) :
    setPhase s tid p = s := by
  unfold setPhase
  rw [List.set_eq_of_length_le h]

theorem getTask_setPhase_ctx (s : State) (tid t : Nat) (p : Phase) :
    (getTask (setPhase s tid p) t).ctx = (getTask s t).ctx := by
  by_cases h : t = tid
  · subst h
    by_cases hb : t < s.tasks.length
    · rw [getTask_setPhase_self hb]
    · rw [setPhase_oob (le_of_not_lt hb)]
  · rw [getTask_setPhase_other h]

theorem getTask_setPhase_slot (s : State) (tid t : Nat) (p : Phase) :
    (getTask (setPhase s tid p) t).slot = (getTask s t).slot := by
  by_cases h : t = tid
  · subst h
    by_cases hb : t < s.tasks.length
    · rw [getTask_setPhase_self hb]
    · rw [setPhase_oob (le_of_not_lt hb)]
  · rw [getTask_setPhase_other h]

/-- Changing the phase of a task that is not engaged with any incomplete
execution (not its invoker, not parked on it, no pending wake) preserves the
invariant whatever the new phase is. -/
theorem Inv_setPhase (s : State) (tid : Nat) (p : Phase) (inv : Inv s)
    (hnotrun : ∀ eid, eid < s.execs.length → (getExec s eid).done = false →
        (getExec s eid).invoker ≠ tid)
    (hnotwait : ∀ eid, eid < s.execs.length → (getExec s eid).done = false →
        tid ∉ (getExec s eid).waiters)
    (hnotimer : ∀ d, (d, TAct.wake tid) ∉ s.timers) :
    Inv (setPhase s tid p) := by
  have hlen : (setPhase s tid p).tasks.length = s.tasks.length :=
    tasks_setPhase_length s tid p
  refine ⟨inv.hover, inv.hslotB, ?_, ?_, ?_, ?_, inv.hexecRec, inv.hrecWF, ?_, ?_,
    inv.hwaitNd, ?_, inv.htimerC, inv.htpw⟩
  · intro t h
    rw [hlen] at h
    show (getTask (setPhase s tid p) t).ctx < s.ctxs.length
    rw [getTask_setPhase_ctx]
    exact inv.htaskB t h
  · intro t t' h1 h2 hne
    rw [hlen] at h1 h2
    rw [getTask_setPhase_ctx, getTask_setPhase_ctx]
    exact inv.htaskInj t t' h1 h2 hne
  · intro t h sl' si' hlkp hctx
    rw [hlen] at h
    have hlkp' : lookupSlot s sl' = some si' := hlkp
    rw [getTask_setPhase_ctx] at hctx
    rw [getTask_setPhase_slot]
    exact inv.htaskOwn t h sl' si' hlkp' hctx
  · intro t h hc
    rw [hlen] at h
    have hc' : ctxCanceled s (getTask (setPhase s tid p) t).ctx = false := hc
    rw [getTask_setPhase_ctx] at hc'
    obtain ⟨si', hsi, hctx⟩ := inv.htaskCur t h hc'
    refine ⟨si', ?_, ?_⟩
    · show lookupSlot s (getTask (setPhase s tid p) t).slot = some si'
      rw [getTask_setPhase_slot]
      exact hsi
    · rw [getTask_setPhase_ctx]
      exact hctx
  · intro eid he
    have he' : eid < s.execs.length := he
    obtain ⟨hb, hsl, hph⟩ := inv.hexecWF eid he'
    refine ⟨?_, ?_, ?_⟩
    · show (getExec s eid).invoker < (setPhase s tid p).tasks.length
      rw [hlen]
      exact hb
    · show (getTask (setPhase s tid p) (getExec s eid).invoker).slot
        = (getExec s eid).slot
      rw [getTask_setPhase_slot]
      exact hsl
    · intro hd
      have hd' : (getExec s eid).done = false := hd
      show (getTask (setPhase s tid p) (getExec s eid).invoker).phase
        = Phase.running eid
      rw [getTask_setPhase_other (hnotrun eid he' hd')]
      exact hph hd'
  · intro eid he hd w hw
    have he' : eid < s.execs.length := he
    have hd' : (getExec s eid).done = false := hd
    have hw' : w ∈ (getExec s eid).waiters := hw
    obtain ⟨hb, hsl, hph⟩ := inv.hwaitWF eid he' hd' w hw'
    have hwne : w ≠ tid := by
      intro hh
      subst hh
      exact hnotwait eid he' hd' hw'
    refine ⟨?_, ?_, ?_⟩
    · show w < (setPhase s tid p).tasks.length
      rw [hlen]
      exact hb
    · show (getTask (setPhase s tid p) w).slot = (getExec s eid).slot
      rw [getTask_setPhase_slot]
      exact hsl
    · show (getTask (setPhase s tid p) w).phase = Phase.waitExec eid
      rw [getTask_setPhase_other hwne]
      exact hph
  · intro d t hmem
    have hm : (d, TAct.wake t) ∈ s.timers := hmem
    have htne : t ≠ tid := by
      intro hh
      subst hh
      exact hnotimer d hm
    obtain ⟨hb, hph⟩ := inv.htimerW d t hm
    refine ⟨?_, ?_⟩
    · show t < (setPhase s tid p).tasks.length
      rw [hlen]
      exact hb
    · show (getTask (setPhase s tid p) t).phase = Phase.waitTimer d
      rw [getTask_setPhase_other htne]
      exact hph

/-- Updating a slot record in a way that keeps its current context and its
recorded execution (e.g. the `lastTriggered` update before an invocation)
preserves the invariant. -/
theorem Inv_updSlot_keep (s : State) (sl : String) (f : SlotInfo → SlotInfo)
    (inv : Inv s)
    (hf : ∀ si, (f si).context = si.context ∧ (f si).executing = si.executing) :
    Inv (updSlot s sl f) := by
  have hlkGen : ∀ sl' si', lookupSlot (updSlot s sl f) sl' = some si' →
      ∃ si0, lookupSlot s sl' = some si0 ∧ si'.context = si0.context
        ∧ si'.executing = si0.executing := by
    intro sl' si' h'
    by_cases hse : sl' = sl
    · subst hse
      rw [lookupSlot_updSlot_self] at h'
      cases hf2 : lookupSlot s sl' with
      | none =>
          rw [hf2] at h'
          exact Option.noConfusion h'
      | some si0 =>
          rw [hf2] at h'
          have he : f si0 = si' := Option.some.inj h'
          subst he
          exact ⟨si0, rfl, (hf si0).1, (hf si0).2⟩
    · rw [lookupSlot_updSlot_other s hse f] at h'
      exact ⟨si', h', rfl, rfl⟩
  have hlkGen2 : ∀ sl' si0, lookupSlot s sl' = some si0 →
      ∃ si', lookupSlot (updSlot s sl f) sl' = some si'
        ∧ si'.context = si0.context ∧ si'.executing = si0.executing := by
    intro sl' si0 h'
    by_cases hse : sl' = sl
    · subst hse
      refine ⟨f si0, ?_, (hf si0).1, (hf si0).2⟩
      rw [lookupSlot_updSlot_self, h']
      rfl
    · refine ⟨si0, ?_, rfl, rfl⟩
      rw [lookupSlot_updSlot_other s hse f]
      exact h'
  have hexecOf : ∀ sl', execOf (updSlot s sl f) sl' = execOf s sl' := by
    intro sl'
    unfold execOf
    by_cases hse : sl' = sl
    · subst hse
      rw [lookupSlot_updSlot_self]
      cases hf2 : lookupSlot s sl' with
      | none => rfl
      | some si0 =>
          show ((some (f si0)).bind fun si => si.executing)
            = ((some si0).bind fun si => si.executing)
          rw [Option.some_bind, Option.some_bind]
          exact (hf si0).2
    · rw [lookupSlot_updSlot_other s hse f]
  refine ⟨inv.hover, ?_, inv.htaskB, inv.htaskInj, ?_, ?_, ?_, ?_, inv.hexecWF,
    inv.hwaitWF, inv.hwaitNd, inv.htimerW, inv.htimerC, inv.htpw⟩
  · intro sl' si' h'
    obtain ⟨si0, h0, hc0, _⟩ := hlkGen sl' si' h'
    show si'.context < s.ctxs.length
    rw [hc0]
    exact inv.hslotB sl' si0 h0
  · intro tid h sl' si' hlkp hctx
    obtain ⟨si0, h0, hc0, _⟩ := hlkGen sl' si' hlkp
    have hctx0 : si0.context = (getTask s tid).ctx := by
      rw [← hc0]
      exact hctx
    exact inv.htaskOwn tid h sl' si0 h0 hctx0
  · intro tid h hc
    obtain ⟨si0, hsi, hctx⟩ := inv.htaskCur tid h hc
    obtain ⟨si', hsi', hc', _⟩ := hlkGen2 _ si0 hsi
    refine ⟨si', hsi', ?_⟩
    rw [hc']
    exact hctx
  · intro eid he hd
    have he' : eid < s.execs.length := he
    have hd' : (getExec s eid).done = false := hd
    show execOf (updSlot s sl f) (getExec s eid).slot = some eid
    rw [hexecOf]
    exact inv.hexecRec eid he' hd'
  · intro sl' si' eid hlkp hex
    obtain ⟨si0, h0, _, he0⟩ := hlkGen sl' si' hlkp
    have hex0 : si0.executing = some eid := by
      rw [← he0]
      exact hex
    exact inv.hrecWF sl' si0 eid h0 hex0

theorem startExec_eq (S : State) (tid : Nat) (t : STask) (rej : Bool) (d : Nat) :
    startExec S tid t rej d
      = setPhase (updSlot ({ S with
            execs := S.execs ++ [⟨t.slot, t.ctx, tid, rej, false, []⟩],
            timers := S.timers ++ [(S.now + d, TAct.complete S.execs.length)] } : State)
          t.slot (fun si => { si with executing := some S.execs.length }))
        tid (Phase.running S.execs.length) := rfl

/-- Recording a fresh asynchronous execution for the invoking task preserves
the invariant, provided no incomplete execution already exists on the task's
slot, the slot exists, and the task has no pending wake. -/
theorem Inv_startExec (S : State) (tid : Nat) (rej : Bool) (d : Nat) (inv : Inv S)
    (htid : tid < S.tasks.length)
    (si0 : SlotInfo)
    (hsi0 : lookupSlot S (getTask S tid).slot = some si0)
    (hnoinc : ∀ eid, eid < S.execs.length →
        (getExec S eid).slot = (getTask S tid).slot → (getExec S eid).done = true)
    (hnotimer : ∀ dd, (dd, TAct.wake tid) ∉ S.timers) :
    Inv (startExec S tid (getTask S tid) rej d) := by
  rw [startExec_eq]
  have hlkF : ∀ sl', lookupSlot
      (setPhase (updSlot ({ S with
          execs := S.execs ++ [⟨(getTask S tid).slot, (getTask S tid).ctx, tid, rej,
            false, []⟩],
          timers := S.timers
            ++ [(S.now + d, TAct.complete S.execs.length)] } : State)
        (getTask S tid).slot (fun si => { si with executing := some S.execs.length }))
        tid (Phase.running S.execs.length)) sl'
      = if sl' = (getTask S tid).slot
        then (lookupSlot S sl').map (fun si => { si with
          executing := some S.execs.length })
        else lookupSlot S sl' := by
    intro sl'
    rw [lookupSlot_setPhase]
    by_cases hse : sl' = (getTask S tid).slot
    · subst hse
      rw [lookupSlot_updSlot_self, if_pos rfl]
      rfl
    · rw [lookupSlot_updSlot_other _ hse, if_neg hse]
      rfl
  set F := setPhase (updSlot ({ S with
      execs := S.execs ++ [⟨(getTask S tid).slot, (getTask S tid).ctx, tid, rej,
        false, []⟩],
      timers := S.timers ++ [(S.now + d, TAct.complete S.execs.length)] } : State)
    (getTask S tid).slot (fun si => { si with executing := some S.execs.length }))
    tid (Phase.running S.execs.length) with hF
  have htasksF : F.tasks.length = S.tasks.length := by
    rw [hF]
    rw [tasks_setPhase_length]
    rfl
  have hgtF : ∀ x, x ≠ tid → getTask F x = getTask S x := by
    intro x hx
    rw [hF, getTask_setPhase_other hx]
    rfl
  have hgtFt : getTask F tid
      = { getTask S tid with phase := Phase.running S.execs.length } := by
    rw [hF]
    exact getTask_setPhase_self htid _
  have hgtFc : ∀ x, (getTask F x).ctx = (getTask S x).ctx := by
    intro x
    rw [hF, getTask_setPhase_ctx]
    rfl
  have hgtFs : ∀ x, (getTask F x).slot = (getTask S x).slot := by
    intro x
    rw [hF, getTask_setPhase_slot]
    rfl
  have hexF : F.execs = S.execs ++ [⟨(getTask S tid).slot, (getTask S tid).ctx, tid,
      rej, false, []⟩] := by
    rw [hF]
    rfl
  have hgeF : ∀ e, e < S.execs.length → getExec F e = getExec S e := by
    intro e he
    unfold getExec
    rw [hexF]
    exact getD_append_lt _ _ _ _ he
  have hgeFn : getExec F S.execs.length
      = ⟨(getTask S tid).slot, (getTask S tid).ctx, tid, rej, false, []⟩ := by
    unfold getExec
    rw [hexF]
    exact getD_concat_length _ _ _
  have hexlF : F.execs.length = S.execs.length + 1 := by
    rw [hexF, List.length_append]
    rfl
  have htmF : F.timers = S.timers ++ [(S.now + d, TAct.complete S.execs.length)] := by
    rw [hF]
    rfl
  have hctxF : F.ctxs = S.ctxs := by
    rw [hF]
    rfl
  have hccF : ∀ c', ctxCanceled F c' = ctxCanceled S c' := by
    intro c'
    unfold ctxCanceled
    rw [hctxF]
  have hslne : ∀ eid, eid < S.execs.length → (getExec S eid).done = false →
      (getExec S eid).slot ≠ (getTask S tid).slot := by
    intro eid he hd heq
    rw [hnoinc eid he heq] at hd
    exact Bool.noConfusion hd
  have hovF : F.overlaps = S.overlaps := by
    rw [hF]
    rfl
  refine ⟨?_, ?_, ?_, ?_, ?_, ?_, ?_, ?_, ?_, ?_, ?_, ?_, ?_, ?_⟩
  · rw [hovF]
    exact inv.hover
  · intro sl' si' h'
    rw [hlkF sl'] at h'
    rw [hctxF]
    by_cases hse : sl' = (getTask S tid).slot
    · rw [if_pos hse] at h'
      cases hf2 : lookupSlot S sl' with
      | none =>
          rw [hf2] at h'
          exact Option.noConfusion h'
      | some si1 =>
          rw [hf2] at h'
          have he : ({ si1 with executing := some S.execs.length } : SlotInfo) = si' :=
            Option.some.inj h'
          rw [← he]
          show si1.context < S.ctxs.length
          exact inv.hslotB sl' si1 hf2
    · rw [if_neg hse] at h'
      exact inv.hslotB sl' si' h'
  · intro x h
    rw [htasksF] at h
    rw [hgtFc, hctxF]
    exact inv.htaskB x h
  · intro x x' h1 h2 hne
    rw [htasksF] at h1 h2
    rw [hgtFc, hgtFc]
    exact inv.htaskInj x x' h1 h2 hne
  · intro x h sl' si' hlkp hctx
    rw [htasksF] at h
    rw [hgtFc] at hctx
    rw [hgtFs]
    rw [hlkF sl'] at hlkp
    by_cases hse : sl' = (getTask S tid).slot
    · rw [if_pos hse] at hlkp
      cases hf2 : lookupSlot S sl' with
      | none =>
          rw [hf2] at hlkp
          exact Option.noConfusion hlkp
      | some si1 =>
          rw [hf2] at hlkp
          have he : ({ si1 with executing := some S.execs.length } : SlotInfo) = si' :=
            Option.some.inj hlkp
          have hctx1 : si1.context = (getTask S x).ctx := by
            rw [← he] at hctx
            exact hctx
          exact inv.htaskOwn x h sl' si1 hf2 hctx1
    · rw [if_neg hse] at hlkp
      exact inv.htaskOwn x h sl' si' hlkp hctx
  · intro x h hc
    rw [htasksF] at h
    rw [hccF, hgtFc] at hc
    obtain ⟨si1, hsi, hctx⟩ := inv.htaskCur x h hc
    rw [hgtFs, hgtFc]
    rw [hlkF _]
    by_cases hse : (getTask S x).slot = (getTask S tid).slot
    · rw [if_pos hse, hsi]
      exact ⟨{ si1 with executing := some S.execs.length }, rfl, hctx⟩
    · rw [if_neg hse]
      exact ⟨si1, hsi, hctx⟩
  · intro eid he hd
    rw [hexlF] at he
    unfold execOf
    by_cases hen : eid = S.execs.length
    · subst hen
      rw [hgeFn]
      show (lookupSlot F (getTask S tid).slot).bind (fun si => si.executing)
        = some S.execs.length
      rw [hlkF _, if_pos rfl, hsi0]
      rfl
    · have he' : eid < S.execs.length := by omega
      rw [hgeF eid he'] at hd ⊢
      have hds : (getExec S eid).slot ≠ (getTask S tid).slot := hslne eid he' hd
      rw [hlkF _, if_neg hds]
      have h2 := inv.hexecRec eid he' hd
      unfold execOf at h2
      exact h2
  · intro sl' si' eid hlkp hex
    rw [hlkF sl'] at hlkp
    by_cases hse : sl' = (getTask S tid).slot
    · rw [if_pos hse] at hlkp
      cases hf2 : lookupSlot S sl' with
      | none =>
          rw [hf2] at hlkp
          exact Option.noConfusion hlkp
      | some si1 =>
          rw [hf2] at hlkp
          have he : ({ si1 with executing := some S.execs.length } : SlotInfo) = si' :=
            Option.some.inj hlkp
          have hexeq : some S.execs.length = some eid := by
            rw [← he] at hex
            exact hex
          have heid : eid = S.execs.length := (Option.some.inj hexeq).symm
          subst heid
          constructor
          · rw [hexlF]
            omega
          · rw [hgeFn]
            exact hse.symm
    · rw [if_neg hse] at hlkp
      obtain ⟨hb, hsl⟩ := inv.hrecWF sl' si' eid hlkp hex
      constructor
      · rw [hexlF]
        omega
      · rw [hgeF eid hb]
        exact hsl
  · intro eid he
    rw [hexlF] at he
    by_cases hen : eid = S.execs.length
    · subst hen
      rw [hgeFn]
      refine ⟨?_, ?_, ?_⟩
      · show tid < F.tasks.length
        rw [htasksF]
        exact htid
      · show (getTask F tid).slot = (getTask S tid).slot
        exact hgtFs tid
      · intro _
        show (getTask F tid).phase = Phase.running S.execs.length
        rw [hgtFt]
    · have he' : eid < S.execs.length := by omega
      rw [hgeF eid he']
      obtain ⟨hb, hsl, hph⟩ := inv.hexecWF eid he'
      refine ⟨?_, ?_, ?_⟩
      · rw [htasksF]
        exact hb
      · rw [hgtFs]
        exact hsl
      · intro hd
        have hinvne : (getExec S eid).invoker ≠ tid := by
          intro hh
          have h3 := hslne eid he' hd
          rw [hh] at hsl
          exact h3 hsl.symm
        rw [hgtF _ hinvne]
        exact hph hd
  · intro eid he hd w hw
    rw [hexlF] at he
    by_cases hen : eid = S.execs.length
    · subst hen
      rw [hgeFn] at hw
      exact absurd hw (List.not_mem_nil w)
    · have he' : eid < S.execs.length := by omega
      rw [hgeF eid he'] at hd hw ⊢
      obtain ⟨hb, hsl, hph⟩ := inv.hwaitWF eid he' hd w hw
      have hwne : w ≠ tid := by
        intro hh
        subst hh
        have h3 := hslne eid he' hd
        rw [← hsl] at h3
        exact h3 rfl
      refine ⟨?_, ?_, ?_⟩
      · rw [htasksF]
        exact hb
      · rw [hgtFs]
        exact hsl
      · rw [hgtF w hwne]
        exact hph
  · intro eid he
    rw [hexlF] at he
    by_cases hen : eid = S.execs.length
    · subst hen
      rw [hgeFn]
      exact List.Pairwise.nil
    · have he' : eid < S.execs.length := by omega
      rw [hgeF eid he']
      exact inv.hwaitNd eid he'
  · intro dd x hmem
    rw [htmF] at hmem
    rcases List.mem_append.mp hmem with hm | hm
    · obtain ⟨hb, hph⟩ := inv.htimerW dd x hm
      have hxne : x ≠ tid := by
        intro hh
        subst hh
        exact hnotimer dd hm
      refine ⟨?_, ?_⟩
      · rw [htasksF]
        exact hb
      · rw [hgtF x hxne]
        exact hph
    · exfalso
      have := List.mem_singleton.mp hm
      exact TAct.noConfusion (congrArg Prod.snd this)
  · intro dd eid hmem
    rw [htmF] at hmem
    rcases List.mem_append.mp hmem with hm | hm
    · obtain ⟨hb, hd⟩ := inv.htimerC dd eid hm
      refine ⟨?_, ?_⟩
      · rw [hexlF]
        omega
      · rw [hgeF eid hb]
        exact hd
    · have heq := List.mem_singleton.mp hm
      have h1 : eid = S.execs.length := by
        have := congrArg Prod.snd heq
        exact TAct.complete.inj this
      subst h1
      refine ⟨?_, ?_⟩
      · rw [hexlF]
        omega
      · rw [hgeFn]
  · rw [htmF, List.pairwise_append]
    refine ⟨inv.htpw, List.pairwise_singleton _ _, ?_⟩
    intro a ha b hb
    have hbe := List.mem_singleton.mp hb
    rw [hbe]
    show a.2 ≠ TAct.complete S.execs.length
    intro hc
    cases hac : a.2 with
    | wake x =>
        rw [hac] at hc
        exact TAct.noConfusion hc
    | complete e' =>
        rw [hac] at hc
        have he' := TAct.complete.inj hc
        obtain ⟨hb2, _⟩ := inv.htimerC a.1 e' (by rw [← hac]; exact ha)
        omega

theorem invokeHandler_syncThrow_eq (S : State) (tid : Nat)
    (hh : (getTask S tid).handler = HandlerSpec.syncThrow) :
    invokeHandler S tid
      = setPhase (updSlot
          { S with
              invocations := S.invocations ++ [((getTask S tid).slot, S.now)],
              overlaps := S.overlaps +
                (if S.execs.any (fun e => !e.done && e.slot == (getTask S tid).slot)
                  then 1 else 0) }
          (getTask S tid).slot
          (fun si => { si with
            lastTriggered := some (max (si.lastTriggered.getD S.now) S.now) }))
          tid Phase.failed := by
  simp only [invokeHandler, hh]

theorem invokeHandler_async_eq (S : State) (tid : Nat) (d : Nat)
    (hh : (getTask S tid).handler = HandlerSpec.async d) :
    invokeHandler S tid
      = startExec (updSlot
          { S with
              invocations := S.invocations ++ [((getTask S tid).slot, S.now)],
              overlaps := S.overlaps +
                (if S.execs.any (fun e => !e.done && e.slot == (getTask S tid).slot)
                  then 1 else 0) }
          (getTask S tid).slot
          (fun si => { si with
            lastTriggered := some (max (si.lastTriggered.getD S.now) S.now) }))
          tid (getTask S tid) false d := by
  simp only [invokeHandler, hh]

theorem invokeHandler_asyncReject_eq (S : State) (tid : Nat) (d : Nat)
    (hh : (getTask S tid).handler = HandlerSpec.asyncReject d) :
    invokeHandler S tid
      = startExec (updSlot
          { S with
              invocations := S.invocations ++ [((getTask S tid).slot, S.now)],
              overlaps := S.overlaps +
                (if S.execs.any (fun e => !e.done && e.slot == (getTask S tid).slot)
                  then 1 else 0) }
          (getTask S tid).slot
          (fun si => { si with
            lastTriggered := some (max (si.lastTriggered.getD S.now) S.now) }))
          tid (getTask S tid) true d := by
  simp only [invokeHandler, hh]

/-- Invoking a handler preserves the invariant when the slot has no
incomplete execution (so the invocation cannot overlap) and the invoking
task's context is live. -/
theorem Inv_invokeHandler (s : State) (tid : Nat) (inv : Inv s)
    (htid : tid < s.tasks.length)
    (hcanc : ctxCanceled s (getTask s tid).ctx = false)
    (hnoinc : ∀ eid, eid < s.execs.length →
        (getExec s eid).slot = (getTask s tid).slot → (getExec s eid).done = true)
    (hnotimer : ∀ d, (d, TAct.wake tid) ∉ s.timers) :
    Inv (invokeHandler s tid) := by
  have hbusy : s.execs.any (fun e => !e.done && e.slot == (getTask s tid).slot)
      = false := by
    rw [List.any_eq_false]
    intro e he
    obtain ⟨i, hi, hei⟩ := List.mem_iff_getElem.mp he
    have hgi : getExec s i = e := by
      unfold getExec
      rw [List.getD_eq_getElem?_getD, List.getElem?_eq_getElem hi, hei]
      rfl
    intro hp
    rw [Bool.and_eq_true] at hp
    obtain ⟨hd1, hsl1⟩ := hp
    have hslot : e.slot = (getTask s tid).slot := by
      simpa using hsl1
    have hdone := hnoinc i hi (by rw [hgi]; exact hslot)
    rw [hgi] at hdone
    rw [hdone] at hd1
    exact absurd hd1 (by decide)
  have hslne : ∀ eid, eid < s.execs.length → (getExec s eid).done = false →
      (getExec s eid).slot ≠ (getTask s tid).slot := by
    intro eid he hd heq
    rw [hnoinc eid he heq] at hd
    exact Bool.noConfusion hd
  have hnotrun : ∀ eid, eid < s.execs.length → (getExec s eid).done = false →
      (getExec s eid).invoker ≠ tid := by
    intro eid he hd hh
    obtain ⟨_, hsl, _⟩ := inv.hexecWF eid he
    rw [hh] at hsl
    exact hslne eid he hd hsl.symm
  have hnotwait : ∀ eid, eid < s.execs.length → (getExec s eid).done = false →
      tid ∉ (getExec s eid).waiters := by
    intro eid he hd hw
    obtain ⟨_, hsl, _⟩ := inv.hwaitWF eid he hd tid hw
    exact hslne eid he hd hsl.symm
  have hinv1 : Inv ({ s with
      invocations := s.invocations ++ [((getTask s tid).slot, s.now)],
      overlaps := s.overlaps +
        (if s.execs.any (fun e => !e.done && e.slot == (getTask s tid).slot)
          then 1 else 0) } : State) := by
    refine ⟨?_, inv.hslotB, inv.htaskB, inv.htaskInj, inv.htaskOwn, inv.htaskCur,
      inv.hexecRec, inv.hrecWF, inv.hexecWF, inv.hwaitWF, inv.hwaitNd,
      inv.htimerW, inv.htimerC, inv.htpw⟩
    have hov : s.overlaps +
        (if s.execs.any (fun e => !e.done && e.slot == (getTask s tid).slot)
          then 1 else 0) = 0 := by
      rw [hbusy, inv.hover]
      rfl
    exact hov
  have hinv2 : Inv (updSlot ({ s with
      invocations := s.invocations ++ [((getTask s tid).slot, s.now)],
      overlaps := s.overlaps +
        (if s.execs.any (fun e => !e.done && e.slot == (getTask s tid).slot)
          then 1 else 0) } : State)
      (getTask s tid).slot
      (fun si => { si with
        lastTriggered := some (max (si.lastTriggered.getD s.now) s.now) })) :=
    Inv_updSlot_keep _ _ _ hinv1 (fun si => ⟨rfl, rfl⟩)
  obtain ⟨si0, hsi0, _⟩ := inv.htaskCur tid htid hcanc
  cases hh : (getTask s tid).handler with
  | sync =>
      rw [invokeHandler_sync_eq s tid hh]
      refine Inv_setPhase _ tid Phase.doneOk (Inv_setCancel _ _ hinv2) ?_ ?_ ?_
      · exact fun eid he hd => hnotrun eid he hd
      · exact fun eid he hd => hnotwait eid he hd
      · exact fun d => hnotimer d
  | syncThrow =>
      rw [invokeHandler_syncThrow_eq s tid hh]
      refine Inv_setPhase _ tid Phase.failed hinv2 ?_ ?_ ?_
      · exact fun eid he hd => hnotrun eid he hd
      · exact fun eid he hd => hnotwait eid he hd
      · exact fun d => hnotimer d
  | async d =>
      rw [invokeHandler_async_eq s tid d hh]
      have hsi2 : lookupSlot (updSlot ({ s with
          invocations := s.invocations ++ [((getTask s tid).slot, s.now)],
          overlaps := s.overlaps +
            (if s.execs.any (fun e => !e.done && e.slot == (getTask s tid).slot)
              then 1 else 0) } : State)
          (getTask s tid).slot
          (fun si => { si with
            lastTriggered := some (max (si.lastTriggered.getD s.now) s.now) }))
          (getTask s tid).slot
          = some { si0 with
              lastTriggered := some (max (si0.lastTriggered.getD s.now) s.now) } := by
        rw [lookupSlot_updSlot_self]
        have h5 : lookupSlot ({ s with
            invocations := s.invocations ++ [((getTask s tid).slot, s.now)],
            overlaps := s.overlaps +
              (if s.execs.any (fun e => !e.done && e.slot == (getTask s tid).slot)
                then 1 else 0) } : State) (getTask s tid).slot = some si0 := hsi0
        rw [h5]
        rfl
      exact Inv_startExec _ tid false d hinv2 htid _ hsi2
        (fun eid he hds => hnoinc eid he hds) (fun dd hm => hnotimer dd hm)
  | asyncReject d =>
      rw [invokeHandler_asyncReject_eq s tid d hh]
      have hsi2 : lookupSlot (updSlot ({ s with
          invocations := s.invocations ++ [((getTask s tid).slot, s.now)],
          overlaps := s.overlaps +
            (if s.execs.any (fun e => !e.done && e.slot == (getTask s tid).slot)
              then 1 else 0) } : State)
          (getTask s tid).slot
          (fun si => { si with
            lastTriggered := some (max (si.lastTriggered.getD s.now) s.now) }))
          (getTask s tid).slot
          = some { si0 with
              lastTriggered := some (max (si0.lastTriggered.getD s.now) s.now) } := by
        rw [lookupSlot_updSlot_self]
        have h5 : lookupSlot ({ s with
            invocations := s.invocations ++ [((getTask s tid).slot, s.now)],
            overlaps := s.overlaps +
              (if s.execs.any (fun e => !e.done && e.slot == (getTask s tid).slot)
                then 1 else 0) } : State) (getTask s tid).slot = some si0 := hsi0
        rw [h5]
        rfl
      exact Inv_startExec _ tid true d hinv2 htid _ hsi2
        (fun eid he hds => hnoinc eid he hds) (fun dd hm => hnotimer dd hm)

theorem resumeTask_canceled {s : State} {tid : Nat}
    (hc : ctxCanceled s (getTask s tid).ctx = true) :
    resumeTask s tid = setPhase s tid Phase.doneOk := by
  unfold resumeTask
  simp only [hc]
  simp

/-- The line-177 re-check preserves the invariant: a canceled context aborts
silently, a live one invokes — and then its slot has no incomplete execution
(a live context would have been superseded otherwise). -/
theorem Inv_resumeTask (s : State) (tid : Nat) (inv : Inv s)
    (htid : tid < s.tasks.length)
    (hnotrun : ∀ eid, eid < s.execs.length → (getExec s eid).done = false →
        (getExec s eid).invoker ≠ tid)
    (hnotwait : ∀ eid, eid < s.execs.length → (getExec s eid).done = false →
        tid ∉ (getExec s eid).waiters)
    (hnotimer : ∀ d, (d, TAct.wake tid) ∉ s.timers)
    (hnoinc : ctxCanceled s (getTask s tid).ctx = false →
        ∀ eid, eid < s.execs.length →
        (getExec s eid).slot = (getTask s tid).slot → (getExec s eid).done = true) :
    Inv (resumeTask s tid) := by
  cases hc : ctxCanceled s (getTask s tid).ctx with
  | true =>
      rw [resumeTask_canceled hc]
      exact Inv_setPhase s tid Phase.doneOk inv hnotrun hnotwait hnotimer
  | false =>
      rw [resumeTask_invoke hc]
      exact Inv_invokeHandler s tid inv htid hc (hnoinc hc) hnotimer

theorem afterWait_rejected {s : State} {tid eid : Nat}
    (hc : ctxCanceled s (getTask s tid).ctx = false)
    (hex : execOf s (getTask s tid).slot = some eid)
    (hd : (getExec s eid).done = true)
    (hr : (getExec s eid).rejects = true) :
    afterWait s tid = setPhase s tid Phase.failed := by
  unfold afterWait
  simp only [hc, hex, hd, hr]
  simp

theorem afterWait_done_ok {s : State} {tid eid : Nat}
    (hc : ctxCanceled s (getTask s tid).ctx = false)
    (hex : execOf s (getTask s tid).slot = some eid)
    (hd : (getExec s eid).done = true)
    (hr : (getExec s eid).rejects = false) :
    afterWait s tid = resumeTask s tid := by
  unfold afterWait
  simp only [hc, hex, hd, hr]
  simp

theorem afterWait_park {s : State} {tid eid : Nat}
    (hc : ctxCanceled s (getTask s tid).ctx = false)
    (hex : execOf s (getTask s tid).slot = some eid)
    (hd : (getExec s eid).done = false) :
    afterWait s tid
      = setPhase ({ s with
          execs := s.execs.set eid
            { getExec s eid with
              waiters := (getExec s eid).waiters ++ [tid] } } : State)
        tid (Phase.waitExec eid) := by
  unfold afterWait
  simp only [hc, hex, hd]
  simp

/-- Parking a freshly woken task on the slot's in-flight execution (line 170)
preserves the invariant. -/
theorem Inv_park (s : State) (tid eid : Nat) (inv : Inv s)
    (htid : tid < s.tasks.length)
    (heid : eid < s.execs.length)
    (hslER : (getExec s eid).slot = (getTask s tid).slot)
    (hd : (getExec s eid).done = false)
    (hnotrun : ∀ e', e' < s.execs.length → (getExec s e').done = false →
        (getExec s e').invoker ≠ tid)
    (hnotwait : ∀ e', e' < s.execs.length → (getExec s e').done = false →
        tid ∉ (getExec s e').waiters)
    (hnotimer : ∀ d, (d, TAct.wake tid) ∉ s.timers) :
    Inv (setPhase ({ s with
        execs := s.execs.set eid
          { getExec s eid with
            waiters := (getExec s eid).waiters ++ [tid] } } : State)
      tid (Phase.waitExec eid)) := by
  set P := setPhase ({ s with
      execs := s.execs.set eid
        { getExec s eid with
          waiters := (getExec s eid).waiters ++ [tid] } } : State)
    tid (Phase.waitExec eid) with hP
  have htasksP : P.tasks.length = s.tasks.length := by
    rw [hP, tasks_setPhase_length]
  have hgtP : ∀ x, x ≠ tid → getTask P x = getTask s x := by
    intro x hx
    rw [hP, getTask_setPhase_other hx]
    rfl
  have hgtPt : getTask P tid
      = { getTask s tid with phase := Phase.waitExec eid } := by
    rw [hP]
    exact getTask_setPhase_self htid _
  have hgtPc : ∀ x, (getTask P x).ctx = (getTask s x).ctx := by
    intro x
    rw [hP, getTask_setPhase_ctx]
    rfl
  have hgtPs : ∀ x, (getTask P x).slot = (getTask s x).slot := by
    intro x
    rw [hP, getTask_setPhase_slot]
    rfl
  have hexlP : P.execs.length = s.execs.length := by
    rw [hP]
    show (s.execs.set eid _).length = s.execs.length
    exact List.length_set _ _ _
  have hgeP : ∀ e, e ≠ eid → getExec P e = getExec s e := by
    intro e he
    rw [hP]
    show (s.execs.set eid _).getD e default = s.execs.getD e default
    exact getD_set_other _ _ _ _ _ he
  have hgePe : getExec P eid
      = { getExec s eid with waiters := (getExec s eid).waiters ++ [tid] } := by
    rw [hP]
    show (s.execs.set eid _).getD eid default = _
    exact getD_set_self _ _ _ _ heid
  refine ⟨?_, ?_, ?_, ?_, ?_, ?_, ?_, ?_, ?_, ?_, ?_, ?_, ?_, ?_⟩
  · show s.overlaps = 0
    exact inv.hover
  · exact fun sl si h => inv.hslotB sl si h
  · intro x h
    rw [htasksP] at h
    show (getTask P x).ctx < s.ctxs.length
    rw [hgtPc]
    exact inv.htaskB x h
  · intro x x' h1 h2 hne
    rw [htasksP] at h1 h2
    rw [hgtPc, hgtPc]
    exact inv.htaskInj x x' h1 h2 hne
  · intro x h sl' si' hlkp hctx
    rw [htasksP] at h
    rw [hgtPc] at hctx
    rw [hgtPs]
    exact inv.htaskOwn x h sl' si' hlkp hctx
  · intro x h hcx
    rw [htasksP] at h
    have hcx' : ctxCanceled s (getTask P x).ctx = false := hcx
    rw [hgtPc] at hcx'
    obtain ⟨si', hsi, hctx⟩ := inv.htaskCur x h hcx'
    refine ⟨si', ?_, ?_⟩
    · show lookupSlot s (getTask P x).slot = some si'
      rw [hgtPs]
      exact hsi
    · rw [hgtPc]
      exact hctx
  · intro e he hde
    rw [hexlP] at he
    by_cases hee : e = eid
    · subst hee
      rw [hgePe]
      show execOf s (getExec s e).slot = some e
      exact inv.hexecRec e heid hd
    · rw [hgeP e hee] at hde ⊢
      show execOf s (getExec s e).slot = some e
      exact inv.hexecRec e he hde
  · intro sl' si' e hlkp hexq
    have hlkp' : lookupSlot s sl' = some si' := hlkp
    obtain ⟨hb, hsl⟩ := inv.hrecWF sl' si' e hlkp' hexq
    constructor
    · rw [hexlP]
      exact hb
    · by_cases hee : e = eid
      · subst hee
        rw [hgePe]
        exact hsl
      · rw [hgeP e hee]
        exact hsl
  · intro e he
    rw [hexlP] at he
    by_cases hee : e = eid
    · subst hee
      rw [hgePe]
      obtain ⟨hb, hsl, hph⟩ := inv.hexecWF e heid
      refine ⟨?_, ?_, ?_⟩
      · show (getExec s e).invoker < P.tasks.length
        rw [htasksP]
        exact hb
      · show (getTask P (getExec s e).invoker).slot = (getExec s e).slot
        rw [hgtPs]
        exact hsl
      · intro _
        show (getTask P (getExec s e).invoker).phase = Phase.running e
        rw [hgtP _ (hnotrun e heid hd)]
        exact hph hd
    · rw [hgeP e hee]
      obtain ⟨hb, hsl, hph⟩ := inv.hexecWF e he
      refine ⟨?_, ?_, ?_⟩
      · rw [htasksP]
        exact hb
      · rw [hgtPs]
        exact hsl
      · intro hde
        rw [hgtP _ (hnotrun e he hde)]
        exact hph hde
  · intro e he hde w hw
    rw [hexlP] at he
    by_cases hee : e = eid
    · subst hee
      rw [hgePe] at hw
      have hw2 : w ∈ (getExec s e).waiters ++ [tid] := hw
      rcases List.mem_append.mp hw2 with hm | hm
      · obtain ⟨hb, hsl, hph⟩ := inv.hwaitWF e heid hd w hm
        have hwne : w ≠ tid := by
          intro hh
          subst hh
          exact hnotwait e heid hd hm
        refine ⟨?_, ?_, ?_⟩
        · rw [htasksP]
          exact hb
        · rw [hgePe, hgtPs]
          exact hsl
        · rw [hgtP w hwne]
          exact hph
      · have hwt : w = tid := List.mem_singleton.mp hm
        subst hwt
        refine ⟨?_, ?_, ?_⟩
        · rw [htasksP]
          exact htid
        · rw [hgePe, hgtPs]
          show (getTask s w).slot = (getExec s e).slot
          exact hslER.symm
        · rw [hgtPt]
    · rw [hgeP e hee] at hde hw ⊢
      obtain ⟨hb, hsl, hph⟩ := inv.hwaitWF e he hde w hw
      have hwne : w ≠ tid := by
        intro hh
        subst hh
        exact hnotwait e he hde hw
      refine ⟨?_, ?_, ?_⟩
      · rw [htasksP]
        exact hb
      · rw [hgtPs]
        exact hsl
      · rw [hgtP w hwne]
        exact hph
  · intro e he
    rw [hexlP] at he
    by_cases hee : e = eid
    · subst hee
      rw [hgePe]
      show ((getExec s e).waiters ++ [tid]).Nodup
      rw [List.nodup_append]
      refine ⟨inv.hwaitNd e heid, List.nodup_singleton tid, ?_⟩
      intro a ha hb
      have hat : a = tid := List.mem_singleton.mp hb
      subst hat
      exact hnotwait e heid hd ha
    · rw [hgeP e hee]
      exact inv.hwaitNd e he
  · intro d x hmem
    have hm : (d, TAct.wake x) ∈ s.timers := hmem
    obtain ⟨hb, hph⟩ := inv.htimerW d x hm
    have hxne : x ≠ tid := by
      intro hh
      subst hh
      exact hnotimer d hm
    refine ⟨?_, ?_⟩
    · rw [htasksP]
      exact hb
    · rw [hgtP x hxne]
      exact hph
  · intro d e hmem
    have hm : (d, TAct.complete e) ∈ s.timers := hmem
    obtain ⟨hb, hde⟩ := inv.htimerC d e hm
    constructor
    · rw [hexlP]
      exact hb
    · by_cases hee : e = eid
      · subst hee
        rw [hgePe]
        exact hd
      · rw [hgeP e hee]
        exact hde
  · show s.timers.Pairwise (fun a b => a.2 ≠ b.2)
    exact inv.htpw

/-- The full line-165–177 continuation after the period wait preserves the
invariant, for a task that is not engaged with any incomplete execution. -/
theorem Inv_afterWait (s : State) (tid : Nat) (inv : Inv s)
    (htid : tid < s.tasks.length)
    (hnotrun : ∀ eid, eid < s.execs.length → (getExec s eid).done = false →
        (getExec s eid).invoker ≠ tid)
    (hnotwait : ∀ eid, eid < s.execs.length → (getExec s eid).done = false →
        tid ∉ (getExec s eid).waiters)
    (hnotimer : ∀ d, (d, TAct.wake tid) ∉ s.timers) :
    Inv (afterWait s tid) := by
  cases hc : ctxCanceled s (getTask s tid).ctx with
  | true =>
      rw [afterWait_canceled hc]
      exact Inv_setPhase s tid Phase.doneOk inv hnotrun hnotwait hnotimer
  | false =>
      cases hex : execOf s (getTask s tid).slot with
      | none =>
          rw [afterWait_invoke hc hex]
          have hnoinc : ∀ eid, eid < s.execs.length →
              (getExec s eid).slot = (getTask s tid).slot →
              (getExec s eid).done = true := by
            intro eid he hsl
            cases hdone : (getExec s eid).done with
            | true => rfl
            | false =>
                exfalso
                have h2 := inv.hexecRec eid he hdone
                rw [hsl, hex] at h2
                exact Option.noConfusion h2
          exact Inv_invokeHandler s tid inv htid hc hnoinc hnotimer
      | some eid =>
          have hex' : (lookupSlot s (getTask s tid).slot).bind
              (fun si => si.executing) = some eid := hex
          obtain ⟨si', hsi, hexe⟩ := Option.bind_eq_some.mp hex'
          obtain ⟨heid, hslE⟩ := inv.hrecWF _ si' eid hsi hexe
          cases hdone : (getExec s eid).done with
          | true =>
              cases hrej : (getExec s eid).rejects with
              | true =>
                  rw [afterWait_rejected hc hex hdone hrej]
                  exact Inv_setPhase s tid Phase.failed inv hnotrun hnotwait hnotimer
              | false =>
                  rw [afterWait_done_ok hc hex hdone hrej]
                  have hnoinc : ctxCanceled s (getTask s tid).ctx = false →
                      ∀ e', e' < s.execs.length →
                      (getExec s e').slot = (getTask s tid).slot →
                      (getExec s e').done = true := by
                    intro _ e' he' hsl'
                    cases hdone' : (getExec s e').done with
                    | true => rfl
                    | false =>
                        exfalso
                        have h2 := inv.hexecRec e' he' hdone'
                        rw [hsl', hex] at h2
                        have he2 : eid = e' := Option.some.inj h2
                        rw [← he2] at hdone'
                        rw [hdone] at hdone'
                        exact Bool.noConfusion hdone'
                  exact Inv_resumeTask s tid inv htid hnotrun hnotwait hnotimer hnoinc
          | false =>
              rw [afterWait_park hc hex hdone]
              exact Inv_park s tid eid inv htid heid hslE hdone
                hnotrun hnotwait hnotimer

theorem getTask_invokeHandler_other (s : State) (tid x : Nat) (hx : x ≠ tid) :
    getTask (invokeHandler s tid) x = getTask s x := by
  cases hh : (getTask s tid).handler with
  | sync =>
      rw [invokeHandler_sync_eq s tid hh, getTask_setPhase_other hx]
      rfl
  | syncThrow =>
      rw [invokeHandler_syncThrow_eq s tid hh, getTask_setPhase_other hx]
      rfl
  | async d =>
      rw [invokeHandler_async_eq s tid d hh, startExec_eq,
        getTask_setPhase_other hx]
      rfl
  | asyncReject d =>
      rw [invokeHandler_asyncReject_eq s tid d hh, startExec_eq,
        getTask_setPhase_other hx]
      rfl

theorem tasks_invokeHandler_length (s : State) (tid : Nat) :
    (invokeHandler s tid).tasks.length = s.tasks.length := by
  cases hh : (getTask s tid).handler with
  | sync =>
      rw [invokeHandler_sync_eq s tid hh, tasks_setPhase_length]
      rfl
  | syncThrow =>
      rw [invokeHandler_syncThrow_eq s tid hh, tasks_setPhase_length]
      rfl
  | async d =>
      rw [invokeHandler_async_eq s tid d hh, startExec_eq, tasks_setPhase_length]
      rfl
  | asyncReject d =>
      rw [invokeHandler_asyncReject_eq s tid d hh, startExec_eq, tasks_setPhase_length]
      rfl

theorem getExec_invokeHandler_lt (s : State) (tid e : Nat)
    (he : e < s.execs.length) :
    getExec (invokeHandler s tid) e = getExec s e := by
  cases hh : (getTask s tid).handler with
  | sync =>
      rw [invokeHandler_sync_eq s tid hh]
      rfl
  | syncThrow =>
      rw [invokeHandler_syncThrow_eq s tid hh]
      rfl
  | async d =>
      rw [invokeHandler_async_eq s tid d hh, startExec_eq]
      show ((s.execs ++ [_]).getD e default) = getExec s e
      exact getD_append_lt _ _ _ _ he
  | asyncReject d =>
      rw [invokeHandler_asyncReject_eq s tid d hh, startExec_eq]
      show ((s.execs ++ [_]).getD e default) = getExec s e
      exact getD_append_lt _ _ _ _ he

theorem execs_len_invokeHandler_ge (s : State) (tid : Nat) :
    s.execs.length ≤ (invokeHandler s tid).execs.length := by
  cases hh : (getTask s tid).handler with
  | sync =>
      rw [invokeHandler_sync_eq s tid hh]
      exact Nat.le_refl _
  | syncThrow =>
      rw [invokeHandler_syncThrow_eq s tid hh]
      exact Nat.le_refl _
  | async d =>
      rw [invokeHandler_async_eq s tid d hh, startExec_eq]
      show s.execs.length ≤ (s.execs ++ [_]).length
      rw [List.length_append]
      omega
  | asyncReject d =>
      rw [invokeHandler_asyncReject_eq s tid d hh, startExec_eq]
      show s.execs.length ≤ (s.execs ++ [_]).length
      rw [List.length_append]
      omega

theorem ctxCanceled_invokeHandler_mono (s : State) (tid : Nat) (c : Nat)
    (hc : ctxCanceled s c = true) :
    ctxCanceled (invokeHandler s tid) c = true := by
  cases hh : (getTask s tid).handler with
  | sync =>
      rw [invokeHandler_sync_eq s tid hh]
      show ctxCanceled (setCancel _ (getTask s tid).ctx) c = true
      exact ctxCanceled_setCancel_mono hc
  | syncThrow =>
      rw [invokeHandler_syncThrow_eq s tid hh]
      exact hc
  | async d =>
      rw [invokeHandler_async_eq s tid d hh, startExec_eq]
      exact hc
  | asyncReject d =>
      rw [invokeHandler_asyncReject_eq s tid d hh, startExec_eq]
      exact hc

theorem getTask_resumeTask_other (s : State) (tid x : Nat) (hx : x ≠ tid) :
    getTask (resumeTask s tid) x = getTask s x := by
  cases hc : ctxCanceled s (getTask s tid).ctx with
  | true =>
      rw [resumeTask_canceled hc]
      exact getTask_setPhase_other hx _
  | false =>
      rw [resumeTask_invoke hc]
      exact getTask_invokeHandler_other s tid x hx

theorem tasks_resumeTask_length (s : State) (tid : Nat) :
    (resumeTask s tid).tasks.length = s.tasks.length := by
  cases hc : ctxCanceled s (getTask s tid).ctx with
  | true =>
      rw [resumeTask_canceled hc]
      exact tasks_setPhase_length s tid _
  | false =>
      rw [resumeTask_invoke hc]
      exact tasks_invokeHandler_length s tid

theorem getExec_resumeTask_lt (s : State) (tid e : Nat)
    (he : e < s.execs.length) :
    getExec (resumeTask s tid) e = getExec s e := by
  cases hc : ctxCanceled s (getTask s tid).ctx with
  | true =>
      rw [resumeTask_canceled hc]
      rfl
  | false =>
      rw [resumeTask_invoke hc]
      exact getExec_invokeHandler_lt s tid e he

theorem execs_len_resumeTask_ge (s : State) (tid : Nat) :
    s.execs.length ≤ (resumeTask s tid).execs.length := by
  cases hc : ctxCanceled s (getTask s tid).ctx with
  | true =>
      rw [resumeTask_canceled hc]
      exact Nat.le_refl _
  | false =>
      rw [resumeTask_invoke hc]
      exact execs_len_invokeHandler_ge s tid

theorem ctxCanceled_resumeTask_mono (s : State) (tid : Nat) (c : Nat)
    (hc : ctxCanceled s c = true) :
    ctxCanceled (resumeTask s tid) c = true := by
  cases hcc : ctxCanceled s (getTask s tid).ctx with
  | true =>
      rw [resumeTask_canceled hcc]
      exact hc
  | false =>
      rw [resumeTask_invoke hcc]
      exact ctxCanceled_invokeHandler_mono s tid c hc

/-- Resuming the waiters parked on a settled execution, in attach order,
preserves the invariant.  At most one waiter still has a live context — the
slot's current one — so at most one of them invokes; once it has started a
new asynchronous execution, every remaining waiter is superseded and aborts
at its re-check. -/
theorem Inv_waitFold (eid : Nat) (rej : Bool) :
    ∀ (ws : List Nat) (acc : State), Inv acc →
    ws.Nodup →
    eid < acc.execs.length →
    (getExec acc eid).done = true →
    (∀ w ∈ ws, w < acc.tasks.length
      ∧ (getTask acc w).slot = (getExec acc eid).slot
      ∧ (getTask acc w).phase = Phase.waitExec eid) →
    (∀ e'', e'' < acc.execs.length → (getExec acc e'').done = false →
        (getExec acc e'').slot = (getExec acc eid).slot →
        ∀ w ∈ ws, ctxCanceled acc (getTask acc w).ctx = true) →
    Inv (ws.foldl (fun a w =>
        if rej then setPhase a w Phase.failed else resumeTask a w) acc) := by
  intro ws
  induction ws with
  | nil =>
      intro acc inv _ _ _ _ _
      exact inv
  | cons w0 ws ih =>
      intro acc inv hnd heid hdone hws hlive
      rw [List.foldl_cons]
      obtain ⟨hw0b, hw0s, hw0p⟩ := hws w0 (List.mem_cons_self w0 ws)
      have hnd' : ws.Nodup := (List.nodup_cons.mp hnd).2
      have hw0nin : w0 ∉ ws := (List.nodup_cons.mp hnd).1
      have hnotrun : ∀ e', e' < acc.execs.length → (getExec acc e').done = false →
          (getExec acc e').invoker ≠ w0 := by
        intro e' he' hd' hh
        have hph := (inv.hexecWF e' he').2.2 hd'
        rw [hh, hw0p] at hph
        exact Phase.noConfusion hph
      have hnotwait : ∀ e', e' < acc.execs.length → (getExec acc e').done = false →
          w0 ∉ (getExec acc e').waiters := by
        intro e' he' hd' hmem
        have hph := (inv.hwaitWF e' he' hd' w0 hmem).2.2
        rw [hw0p] at hph
        have he2 : eid = e' := Phase.waitExec.inj hph
        rw [← he2] at hd'
        rw [hdone] at hd'
        exact Bool.noConfusion hd'
      have hnotimer : ∀ d, (d, TAct.wake w0) ∉ acc.timers := by
        intro d hmem
        have hph := (inv.htimerW d w0 hmem).2
        rw [hw0p] at hph
        exact Phase.noConfusion hph
      cases rej with
      | true =>
          apply ih (setPhase acc w0 Phase.failed)
          · exact Inv_setPhase acc w0 Phase.failed inv hnotrun hnotwait hnotimer
          · exact hnd'
          · exact heid
          · exact hdone
          · intro w hw
            have hwne : w ≠ w0 := by
              intro hh
              rw [hh] at hw
              exact hw0nin hw
            obtain ⟨hb, hsl, hph⟩ := hws w (List.mem_cons_of_mem w0 hw)
            refine ⟨?_, ?_, ?_⟩
            · rw [tasks_setPhase_length]
              exact hb
            · rw [getTask_setPhase_other hwne]
              exact hsl
            · rw [getTask_setPhase_other hwne]
              exact hph
          · intro e'' he'' hd'' hsl'' w hw
            have he2 : e'' < acc.execs.length := he''
            have hd2 : (getExec acc e'').done = false := hd''
            have hsl2 : (getExec acc e'').slot = (getExec acc eid).slot := hsl''
            have hwne : w ≠ w0 := by
              intro hh
              rw [hh] at hw
              exact hw0nin hw
            have hcz := hlive e'' he2 hd2 hsl2 w (List.mem_cons_of_mem w0 hw)
            show ctxCanceled acc (getTask (setPhase acc w0 Phase.failed) w).ctx = true
            rw [getTask_setPhase_ctx]
            exact hcz
      | false =>
          have hnoinc : ctxCanceled acc (getTask acc w0).ctx = false →
              ∀ e', e' < acc.execs.length →
              (getExec acc e').slot = (getTask acc w0).slot →
              (getExec acc e').done = true := by
            intro hlc e' he' hsl'
            cases hd' : (getExec acc e').done with
            | true => rfl
            | false =>
                exfalso
                have hsl2 : (getExec acc e').slot = (getExec acc eid).slot :=
                  hsl'.trans hw0s
                have hcz := hlive e' he' hd' hsl2 w0 (List.mem_cons_self w0 ws)
                rw [hcz] at hlc
                exact Bool.noConfusion hlc
          apply ih (resumeTask acc w0)
          · exact Inv_resumeTask acc w0 inv hw0b hnotrun hnotwait hnotimer hnoinc
          · exact hnd'
          · exact lt_of_lt_of_le heid (execs_len_resumeTask_ge acc w0)
          · rw [getExec_resumeTask_lt acc w0 eid heid]
            exact hdone
          · intro w hw
            have hwne : w ≠ w0 := by
              intro hh
              rw [hh] at hw
              exact hw0nin hw
            obtain ⟨hb, hsl, hph⟩ := hws w (List.mem_cons_of_mem w0 hw)
            refine ⟨?_, ?_, ?_⟩
            · rw [tasks_resumeTask_length]
              exact hb
            · rw [getTask_resumeTask_other acc w0 w hwne,
                getExec_resumeTask_lt acc w0 eid heid]
              exact hsl
            · rw [getTask_resumeTask_other acc w0 w hwne]
              exact hph
          · intro e'' he'' hd'' hsl'' w hw
            have hwne : w ≠ w0 := by
              intro hh
              rw [hh] at hw
              exact hw0nin hw
            rw [getTask_resumeTask_other acc w0 w hwne]
            cases hc0 : ctxCanceled acc (getTask acc w0).ctx with
            | true =>
                rw [resumeTask_canceled hc0] at he'' hd'' hsl'' ⊢
                have he2 : e'' < acc.execs.length := he''
                have hd2 : (getExec acc e'').done = false := hd''
                have hsl2 : (getExec acc e'').slot = (getExec acc eid).slot := hsl''
                have hcz := hlive e'' he2 hd2 hsl2 w (List.mem_cons_of_mem w0 hw)
                show ctxCanceled acc (getTask acc w).ctx = true
                exact hcz
            | false =>
                rw [resumeTask_invoke hc0] at he'' hd'' hsl'' ⊢
                by_cases holdE : e'' < acc.execs.length
                · exfalso
                  have hd2 : (getExec acc e'').done = false := by
                    rw [getExec_invokeHandler_lt acc w0 e'' holdE] at hd''
                    exact hd''
                  have hsl2 : (getExec acc e'').slot = (getExec acc eid).slot := by
                    rw [getExec_invokeHandler_lt acc w0 e'' holdE,
                      getExec_invokeHandler_lt acc w0 eid heid] at hsl''
                    exact hsl''
                  have hcz := hlive e'' holdE hd2 hsl2 w0 (List.mem_cons_self w0 ws)
                  rw [hcz] at hc0
                  exact Bool.noConfusion hc0
                · cases hcw : ctxCanceled acc (getTask acc w).ctx with
                  | true => exact ctxCanceled_invokeHandler_mono acc w0 _ hcw
                  | false =>
                      exfalso
                      obtain ⟨hwb, hwsl, _⟩ := hws w (List.mem_cons_of_mem w0 hw)
                      obtain ⟨si1, hsi1, hctx1⟩ := inv.htaskCur w hwb hcw
                      obtain ⟨si2, hsi2, hctx2⟩ := inv.htaskCur w0 hw0b hc0
                      have hslw : (getTask acc w).slot = (getTask acc w0).slot := by
                        rw [hwsl, ← hw0s]
                      rw [hslw] at hsi1
                      have hsieq : si1 = si2 :=
                        Option.some.inj (hsi1.symm.trans hsi2)
                      have hctxeq : (getTask acc w).ctx = (getTask acc w0).ctx := by
                        rw [← hctx1, hsieq, hctx2]
                      exact inv.htaskInj w w0 hwb hw0b hwne hctxeq

/-- Marking an execution settled preserves the invariant, provided its
settlement timer is gone (it has just fired). -/
theorem Inv_markDone (s : State) (eid : Nat) (inv : Inv s)
    (heid : eid < s.execs.length)
    (hfree : ∀ d, (d, TAct.complete eid) ∉ s.timers) :
    Inv ({ s with
        execs := s.execs.set eid
          { getExec s eid with done := true } } : State) := by
  set M := ({ s with
      execs := s.execs.set eid
        { getExec s eid with done := true } } : State) with hM
  have hexlM : M.execs.length = s.execs.length := by
    rw [hM]
    show (s.execs.set eid _).length = s.execs.length
    exact List.length_set _ _ _
  have hgeM : ∀ e', e' ≠ eid → getExec M e' = getExec s e' := by
    intro e' he'
    rw [hM]
    show (s.execs.set eid _).getD e' default = s.execs.getD e' default
    exact getD_set_other _ _ _ _ _ he'
  have hgeMe : getExec M eid = { getExec s eid with done := true } := by
    rw [hM]
    show (s.execs.set eid _).getD eid default = _
    exact getD_set_self _ _ _ _ heid
  refine ⟨inv.hover, inv.hslotB, inv.htaskB, inv.htaskInj, inv.htaskOwn,
    inv.htaskCur, ?_, ?_, ?_, ?_, ?_, inv.htimerW, ?_, inv.htpw⟩
  · intro e' he' hd'
    rw [hexlM] at he'
    by_cases hee : e' = eid
    · subst hee
      rw [hgeMe] at hd'
      exact Bool.noConfusion hd'
    · rw [hgeM e' hee] at hd' ⊢
      exact inv.hexecRec e' he' hd'
  · intro sl' si' e' hlkp hexq
    have hlkp' : lookupSlot s sl' = some si' := hlkp
    obtain ⟨hb, hsl⟩ := inv.hrecWF sl' si' e' hlkp' hexq
    constructor
    · rw [hexlM]
      exact hb
    · by_cases hee : e' = eid
      · subst hee
        rw [hgeMe]
        exact hsl
      · rw [hgeM e' hee]
        exact hsl
  · intro e' he'
    rw [hexlM] at he'
    by_cases hee : e' = eid
    · subst hee
      rw [hgeMe]
      obtain ⟨hb, hsl, _⟩ := inv.hexecWF e' heid
      refine ⟨hb, hsl, ?_⟩
      intro hdc
      exact Bool.noConfusion (show (true : Bool) = false from hdc)
    · rw [hgeM e' hee]
      exact inv.hexecWF e' he'
  · intro e' he' hd' w hw
    rw [hexlM] at he'
    by_cases hee : e' = eid
    · subst hee
      rw [hgeMe] at hd'
      exact Bool.noConfusion (show (true : Bool) = false from hd')
    · rw [hgeM e' hee] at hd' hw ⊢
      exact inv.hwaitWF e' he' hd' w hw
  · intro e' he'
    rw [hexlM] at he'
    by_cases hee : e' = eid
    · subst hee
      rw [hgeMe]
      show (getExec s e').waiters.Nodup
      exact inv.hwaitNd e' heid
    · rw [hgeM e' hee]
      exact inv.hwaitNd e' he'
  · intro d e' hmem
    have hm : (d, TAct.complete e') ∈ s.timers := hmem
    have hene : e' ≠ eid := by
      intro hh
      subst hh
      exact hfree d hm
    obtain ⟨hb, hd'⟩ := inv.htimerC d e' hm
    constructor
    · rw [hexlM]
      exact hb
    · rw [hgeM e' hene]
      exact hd'

/-- Clearing a slot's `executing` field preserves the invariant when no
incomplete execution lives on that slot. -/
theorem Inv_clearExec (S : State) (sl0 : String) (inv : Inv S)
    (hnoinc : ∀ e', e' < S.execs.length → (getExec S e').done = false →
        (getExec S e').slot ≠ sl0) :
    Inv (updSlot S sl0 (fun si => { si with executing := none })) := by
  have hlkGen : ∀ sl' si', lookupSlot (updSlot S sl0
        (fun si => { si with executing := none })) sl' = some si' →
      ∃ si0, lookupSlot S sl' = some si0 ∧ si'.context = si0.context
        ∧ (si'.executing = si0.executing ∨ (sl' = sl0 ∧ si'.executing = none)) := by
    intro sl' si' h'
    by_cases hse : sl' = sl0
    · subst hse
      rw [lookupSlot_updSlot_self] at h'
      cases hf2 : lookupSlot S sl' with
      | none =>
          rw [hf2] at h'
          exact Option.noConfusion h'
      | some si0 =>
          rw [hf2] at h'
          have he : ({ si0 with executing := none } : SlotInfo) = si' :=
            Option.some.inj h'
          subst he
          exact ⟨si0, rfl, rfl, Or.inr ⟨rfl, rfl⟩⟩
    · rw [lookupSlot_updSlot_other S hse _] at h'
      exact ⟨si', h', rfl, Or.inl rfl⟩
  have hlkGen2 : ∀ sl' si0, lookupSlot S sl' = some si0 →
      ∃ si', lookupSlot (updSlot S sl0 (fun si => { si with executing := none })) sl'
        = some si' ∧ si'.context = si0.context := by
    intro sl' si0 h'
    by_cases hse : sl' = sl0
    · subst hse
      refine ⟨{ si0 with executing := none }, ?_, rfl⟩
      rw [lookupSlot_updSlot_self, h']
      rfl
    · refine ⟨si0, ?_, rfl⟩
      rw [lookupSlot_updSlot_other S hse _]
      exact h'
  refine ⟨inv.hover, ?_, inv.htaskB, inv.htaskInj, ?_, ?_, ?_, ?_, inv.hexecWF,
    inv.hwaitWF, inv.hwaitNd, inv.htimerW, inv.htimerC, inv.htpw⟩
  · intro sl' si' h'
    obtain ⟨si0, h0, hc0, _⟩ := hlkGen sl' si' h'
    show si'.context < S.ctxs.length
    rw [hc0]
    exact inv.hslotB sl' si0 h0
  · intro tid h sl' si' hlkp hctx
    obtain ⟨si0, h0, hc0, _⟩ := hlkGen sl' si' hlkp
    have hctx0 : si0.context = (getTask S tid).ctx := by
      rw [← hc0]
      exact hctx
    exact inv.htaskOwn tid h sl' si0 h0 hctx0
  · intro tid h hc
    obtain ⟨si0, hsi, hctx⟩ := inv.htaskCur tid h hc
    obtain ⟨si', hsi', hc'⟩ := hlkGen2 _ si0 hsi
    refine ⟨si', hsi', ?_⟩
    rw [hc']
    exact hctx
  · intro e' he' hd'
    have he2 : e' < S.execs.length := he'
    have hd2 : (getExec S e').done = false := hd'
    have hne : (getExec S e').slot ≠ sl0 := hnoinc e' he2 hd2
    show execOf (updSlot S sl0 (fun si => { si with executing := none }))
      (getExec S e').slot = some e'
    unfold execOf
    rw [lookupSlot_updSlot_other S hne _]
    have h2 := inv.hexecRec e' he2 hd2
    unfold execOf at h2
    exact h2
  · intro sl' si' e' hlkp hexq
    obtain ⟨si0, h0, _, hor⟩ := hlkGen sl' si' hlkp
    cases hor with
    | inl heq =>
        have hex0 : si0.executing = some e' := by
          rw [← heq]
          exact hexq
        exact inv.hrecWF sl' si0 e' h0 hex0
    | inr hpr =>
        rw [hpr.2] at hexq
        exact Option.noConfusion hexq

theorem completeExec_eq (s : State) (eid : Nat) :
    completeExec s eid
      = (getExec s eid).waiters.foldl
          (fun acc w => if (getExec s eid).rejects then setPhase acc w Phase.failed
            else resumeTask acc w)
          (if (getExec s eid).rejects
            then setPhase ({ s with
                execs := s.execs.set eid
                  { getExec s eid with done := true } } : State)
              (getExec s eid).invoker Phase.failed
            else setPhase (setCancel (updSlot ({ s with
                execs := s.execs.set eid
                  { getExec s eid with done := true } } : State)
                (getExec s eid).slot (fun si => { si with executing := none }))
              (getExec s eid).ctx) (getExec s eid).invoker Phase.doneOk) := rfl

/-- Settling an asynchronous execution — marking it done, resuming its
invoker (with the line-188/192 cleanup on success, or none on rejection) and
then its waiters — preserves the invariant. -/
theorem Inv_completeExec (s : State) (eid : Nat) (inv : Inv s)
    (heid : eid < s.execs.length)
    (hd : (getExec s eid).done = false)
    (hfree : ∀ d, (d, TAct.complete eid) ∉ s.timers) :
    Inv (completeExec s eid) := by
  rw [completeExec_eq]
  set M := ({ s with
      execs := s.execs.set eid
        { getExec s eid with done := true } } : State) with hM
  have invM : Inv M := Inv_markDone s eid inv heid hfree
  have hexlM : M.execs.length = s.execs.length := by
    rw [hM]
    show (s.execs.set eid _).length = s.execs.length
    exact List.length_set _ _ _
  have hgeM : ∀ e', e' ≠ eid → getExec M e' = getExec s e' := by
    intro e' he'
    rw [hM]
    show (s.execs.set eid _).getD e' default = s.execs.getD e' default
    exact getD_set_other _ _ _ _ _ he'
  have hgeMe : getExec M eid = { getExec s eid with done := true } := by
    rw [hM]
    show (s.execs.set eid _).getD eid default = _
    exact getD_set_self _ _ _ _ heid
  obtain ⟨hivb, hivs, hivp⟩ := inv.hexecWF eid heid
  have hIV : (getTask s (getExec s eid).invoker).phase = Phase.running eid := hivp hd
  have hnotrunM : ∀ e', e' < M.execs.length → (getExec M e').done = false →
      (getExec M e').invoker ≠ (getExec s eid).invoker := by
    intro e' he' hd' hh
    by_cases hee : e' = eid
    · subst hee
      rw [hgeMe] at hd'
      exact Bool.noConfusion (show (true : Bool) = false from hd')
    · rw [hgeM e' hee] at hd' hh
      rw [hexlM] at he'
      have hph := (inv.hexecWF e' he').2.2 hd'
      rw [hh, hIV] at hph
      have : eid = e' := Phase.running.inj hph
      exact hee this.symm
  have hnotwaitM : ∀ e', e' < M.execs.length → (getExec M e').done = false →
      (getExec s eid).invoker ∉ (getExec M e').waiters := by
    intro e' he' hd' hmem
    by_cases hee : e' = eid
    · subst hee
      rw [hgeMe] at hd'
      exact Bool.noConfusion (show (true : Bool) = false from hd')
    · rw [hgeM e' hee] at hd' hmem
      rw [hexlM] at he'
      have hph := (inv.hwaitWF e' he' hd' _ hmem).2.2
      rw [hIV] at hph
      exact Phase.noConfusion hph
  have hnotimerM : ∀ d, (d, TAct.wake (getExec s eid).invoker) ∉ M.timers := by
    intro d hmem
    have hm : (d, TAct.wake (getExec s eid).invoker) ∈ s.timers := hmem
    have hph := (inv.htimerW d _ hm).2
    rw [hIV] at hph
    exact Phase.noConfusion hph
  have hnoincM : ∀ e', e' < M.execs.length → (getExec M e').done = false →
      (getExec M e').slot ≠ (getExec s eid).slot := by
    intro e' he' hd' heq
    by_cases hee : e' = eid
    · subst hee
      rw [hgeMe] at hd'
      exact Bool.noConfusion (show (true : Bool) = false from hd')
    · rw [hgeM e' hee] at hd' heq
      rw [hexlM] at he'
      have h1 := inv.hexecRec e' he' hd'
      have h2 := inv.hexecRec eid heid hd
      rw [heq] at h1
      rw [h1] at h2
      exact hee (Option.some.inj h2)
  have hwfacts : ∀ w ∈ (getExec s eid).waiters,
      w < s.tasks.length ∧ (getTask s w).slot = (getExec s eid).slot
        ∧ (getTask s w).phase = Phase.waitExec eid
        ∧ w ≠ (getExec s eid).invoker := by
    intro w hw
    obtain ⟨hb, hsl, hph⟩ := inv.hwaitWF eid heid hd w hw
    refine ⟨hb, hsl, hph, ?_⟩
    intro hh
    rw [hh, hIV] at hph
    exact Phase.noConfusion hph
  cases hrej : (getExec s eid).rejects with
  | true =>
      apply Inv_waitFold eid true (getExec s eid).waiters
        (setPhase M (getExec s eid).invoker Phase.failed)
      · exact Inv_setPhase M (getExec s eid).invoker Phase.failed invM
          hnotrunM hnotwaitM hnotimerM
      · exact inv.hwaitNd eid heid
      · show eid < M.execs.length
        rw [hexlM]
        exact heid
      · show (getExec M eid).done = true
        rw [hgeMe]
      · intro w hw
        obtain ⟨hb, hsl, hph, hwiv⟩ := hwfacts w hw
        refine ⟨?_, ?_, ?_⟩
        · rw [tasks_setPhase_length]
          exact hb
        · have hge2e : getExec (setPhase M (getExec s eid).invoker Phase.failed) eid
              = { getExec s eid with done := true } := hgeMe
          rw [getTask_setPhase_other hwiv, hge2e]
          exact hsl
        · rw [getTask_setPhase_other hwiv]
          exact hph
      · intro e'' he'' hd'' hsl'' w hw
        exfalso
        have he2 : e'' < M.execs.length := he''
        have hd2 : (getExec M e'').done = false := hd''
        have hge2e : getExec (setPhase M (getExec s eid).invoker Phase.failed) eid
            = { getExec s eid with done := true } := hgeMe
        rw [hge2e] at hsl''
        exact hnoincM e'' he2 hd2 hsl''
  | false =>
      apply Inv_waitFold eid false (getExec s eid).waiters
        (setPhase (setCancel (updSlot M (getExec s eid).slot
            (fun si => { si with executing := none }))
          (getExec s eid).ctx) (getExec s eid).invoker Phase.doneOk)
      · refine Inv_setPhase _ (getExec s eid).invoker Phase.doneOk
          (Inv_setCancel _ (getExec s eid).ctx
            (Inv_clearExec M (getExec s eid).slot invM hnoincM)) ?_ ?_ ?_
        · exact fun e' he' hd' => hnotrunM e' he' hd'
        · exact fun e' he' hd' => hnotwaitM e' he' hd'
        · exact fun d hm => hnotimerM d hm
      · exact inv.hwaitNd eid heid
      · show eid < M.execs.length
        rw [hexlM]
        exact heid
      · show (getExec M eid).done = true
        rw [hgeMe]
      · intro w hw
        obtain ⟨hb, hsl, hph, hwiv⟩ := hwfacts w hw
        refine ⟨?_, ?_, ?_⟩
        · rw [tasks_setPhase_length]
          exact hb
        · have hge2e : getExec (setPhase (setCancel (updSlot M (getExec s eid).slot
                (fun si => { si with executing := none }))
              (getExec s eid).ctx) (getExec s eid).invoker Phase.doneOk) eid
              = { getExec s eid with done := true } := hgeMe
          rw [getTask_setPhase_other hwiv, hge2e]
          exact hsl
        · rw [getTask_setPhase_other hwiv]
          exact hph
      · intro e'' he'' hd'' hsl'' w hw
        exfalso
        have he2 : e'' < M.execs.length := he''
        have hd2 : (getExec M e'').done = false := hd''
        have hge2e : getExec (setPhase (setCancel (updSlot M (getExec s eid).slot
              (fun si => { si with executing := none }))
            (getExec s eid).ctx) (getExec s eid).invoker Phase.doneOk) eid
            = { getExec s eid with done := true } := hgeMe
        rw [hge2e] at hsl''
        exact hnoincM e'' he2 hd2 hsl''

/-- Dropping timers (keeping a pairwise-distinct sublist) preserves the
invariant. -/
theorem Inv_timersSub (s : State) (rest : List (Nat × TAct)) (inv : Inv s)
    (hsub : ∀ e ∈ rest, e ∈ s.timers)
    (hpw : rest.Pairwise (fun a b => a.2 ≠ b.2)) :
    Inv ({ s with timers := rest } : State) := by
  refine ⟨inv.hover, inv.hslotB, inv.htaskB, inv.htaskInj, inv.htaskOwn,
    inv.htaskCur, inv.hexecRec, inv.hrecWF, inv.hexecWF, inv.hwaitWF,
    inv.hwaitNd, ?_, ?_, hpw⟩
  · intro d tid hm
    exact inv.htimerW d tid (hsub _ hm)
  · intro d eid hm
    exact inv.htimerC d eid (hsub _ hm)

/-- The due-timer drain preserves the invariant: each fired timer is removed
and wakes a parked task or settles an execution. -/
theorem Inv_fireDue (fuel : Nat) : ∀ s, Inv s → Inv (fireDue fuel s) := by
  induction fuel with
  | zero => exact fun s inv => inv
  | succ fuel ih =>
      intro s inv
      rw [fireDue_succ]
      cases hp : pickDue s.now s.timers with
      | none => exact inv
      | some pr =>
          obtain ⟨e, rest⟩ := pr
          obtain ⟨hle, l1, l2, hl, hrest, _⟩ :=
            pickDue_some_spec s.now s.timers e rest hp
          have hsub : ∀ x ∈ rest, x ∈ s.timers := by
            intro x hx
            rw [hl]
            rw [hrest] at hx
            exact mem_of_removed hx
          have hpw0 : (l1 ++ e :: l2).Pairwise (fun a b => a.2 ≠ b.2) := by
            rw [← hl]
            exact inv.htpw
          have hpwR : rest.Pairwise (fun a b => a.2 ≠ b.2) := by
            rw [hrest]
            exact List.Pairwise.sublist
              ((List.sublist_cons_self e l2).append_left l1) hpw0
          have hnein : ∀ x ∈ rest, x.2 ≠ e.2 := by
            intro x hx
            rw [hrest] at hx
            exact pairwise_ne_removed hpw0 x hx
          have invR : Inv ({ s with timers := rest } : State) :=
            Inv_timersSub s rest inv hsub hpwR
          have hemem : e ∈ s.timers := by
            rw [hl]
            exact List.mem_append_right _ (List.mem_cons_self e l2)
          apply ih
          cases hae : e.2 with
          | wake tid =>
              have hmemW : (e.1, TAct.wake tid) ∈ s.timers := by
                rw [← hae]
                exact hemem
              obtain ⟨hb, hph⟩ := inv.htimerW e.1 tid hmemW
              show Inv (afterWait ({ s with timers := rest } : State) tid)
              apply Inv_afterWait _ tid invR
              · exact hb
              · intro e'' he'' hd'' hh
                have he2 : e'' < s.execs.length := he''
                have hd2 : (getExec s e'').done = false := hd''
                have hph2 := (inv.hexecWF e'' he2).2.2 hd2
                have hh2 : (getExec s e'').invoker = tid := hh
                rw [hh2, hph] at hph2
                exact Phase.noConfusion hph2
              · intro e'' he'' hd'' hmem2
                have he2 : e'' < s.execs.length := he''
                have hd2 : (getExec s e'').done = false := hd''
                have hmem3 : tid ∈ (getExec s e'').waiters := hmem2
                have hph2 := (inv.hwaitWF e'' he2 hd2 tid hmem3).2.2
                rw [hph] at hph2
                exact Phase.noConfusion hph2
              · intro d hm
                have hm2 : (d, TAct.wake tid) ∈ rest := hm
                have hx := hnein (d, TAct.wake tid) hm2
                rw [hae] at hx
                exact hx rfl
          | complete eidX =>
              have hmemC : (e.1, TAct.complete eidX) ∈ s.timers := by
                rw [← hae]
                exact hemem
              obtain ⟨hb, hdF⟩ := inv.htimerC e.1 eidX hmemC
              show Inv (completeExec ({ s with timers := rest } : State) eidX)
              apply Inv_completeExec _ eidX invR
              · exact hb
              · exact hdF
              · intro d hm
                have hm2 : (d, TAct.complete eidX) ∈ rest := hm
                have hx := hnein (d, TAct.complete eidX) hm2
                rw [hae] at hx
                exact hx rfl

/-- A clock tick preserves the invariant. -/
theorem Inv_tick (s : State) (inv : Inv s) : Inv (Slots.tick s) := by
  rw [tick_eq]
  apply Inv_fireDue
  exact ⟨inv.hover, inv.hslotB, inv.htaskB, inv.htaskInj, inv.htaskOwn,
    inv.htaskCur, inv.hexecRec, inv.hrecWF, inv.hexecWF, inv.hwaitWF,
    inv.hwaitNd, inv.htimerW, inv.htimerC, inv.htpw⟩

/-- The common admission step (line 155 plus the parked-call record): a fresh
live context is installed as the slot's current context and a new task is
appended.  Requires the slot's previous current context to be canceled — push
cancels it at line 149 and ignore checks it at line 151. -/
theorem Inv_admitCore (u : State) (sl : String) (hd0 : HandlerSpec) (D : Nat)
    (inv : Inv u) (si : SlotInfo) (hsi : lookupSlot u sl = some si)
    (hccur : ctxCanceled u si.context = true) :
    Inv { updSlot { u with ctxs := u.ctxs ++ [false] } sl
          (fun si => { si with context := u.ctxs.length }) with
        tasks := u.tasks ++ [⟨sl, u.ctxs.length, hd0, Phase.waitTimer D⟩] } := by
  set A := { updSlot { u with ctxs := u.ctxs ++ [false] } sl
      (fun si => { si with context := u.ctxs.length }) with
    tasks := u.tasks
      ++ [({ slot := sl, ctx := u.ctxs.length, handler := hd0,
             phase := Phase.waitTimer D } : STask)] } with hA
  have hlkA : ∀ sl', lookupSlot A sl'
      = if sl' = sl
        then (lookupSlot u sl').map (fun si => { si with context := u.ctxs.length })
        else lookupSlot u sl' := by
    intro sl'
    by_cases hse : sl' = sl
    · subst hse
      rw [if_pos rfl, hA]
      show lookupSlot (updSlot ({ u with ctxs := u.ctxs ++ [false] } : State) sl'
        (fun si => { si with context := u.ctxs.length })) sl' = _
      rw [lookupSlot_updSlot_self]
      rfl
    · rw [if_neg hse, hA]
      show lookupSlot (updSlot ({ u with ctxs := u.ctxs ++ [false] } : State) sl
        (fun si => { si with context := u.ctxs.length })) sl' = _
      rw [lookupSlot_updSlot_other _ hse]
      rfl
  have hlenC : A.ctxs.length = u.ctxs.length + 1 := by
    rw [hA]
    show (u.ctxs ++ [false]).length = u.ctxs.length + 1
    rw [List.length_append]
    rfl
  have hlenT : A.tasks.length = u.tasks.length + 1 := by
    rw [hA]
    show (u.tasks ++ [_]).length = u.tasks.length + 1
    rw [List.length_append]
    rfl
  have hgtA : ∀ x, x < u.tasks.length → getTask A x = getTask u x := by
    intro x hx
    rw [hA]
    show (u.tasks ++ [_]).getD x default = u.tasks.getD x default
    exact getD_append_lt _ _ _ _ hx
  have hgtAn : getTask A u.tasks.length
      = ⟨sl, u.ctxs.length, hd0, Phase.waitTimer D⟩ := by
    rw [hA]
    show (u.tasks ++ [_]).getD u.tasks.length default = _
    exact getD_concat_length _ _ _
  have hccA : ∀ c', c' < u.ctxs.length → ctxCanceled A c' = ctxCanceled u c' := by
    intro c' hc'
    rw [hA]
    show (u.ctxs ++ [false]).getD c' true = u.ctxs.getD c' true
    exact getD_append_lt _ _ _ _ hc'
  have hgeA : ∀ e, getExec A e = getExec u e := by
    intro e
    rw [hA]
    rfl
  have hexecOfA : ∀ sl', execOf A sl' = execOf u sl' := by
    intro sl'
    unfold execOf
    rw [hlkA sl']
    by_cases hse : sl' = sl
    · rw [if_pos hse]
      cases hf : lookupSlot u sl' with
      | none => rfl
      | some si0 => rfl
    · rw [if_neg hse]
  refine ⟨?_, ?_, ?_, ?_, ?_, ?_, ?_, ?_, ?_, ?_, ?_, ?_, ?_, ?_⟩
  · show u.overlaps = 0
    exact inv.hover
  · intro sl' si' h'
    rw [hlkA sl'] at h'
    rw [hlenC]
    by_cases hse : sl' = sl
    · rw [if_pos hse] at h'
      cases hf : lookupSlot u sl' with
      | none =>
          rw [hf] at h'
          exact Option.noConfusion h'
      | some si0 =>
          rw [hf] at h'
          have he : ({ si0 with context := u.ctxs.length } : SlotInfo) = si' :=
            Option.some.inj h'
          rw [← he]
          show u.ctxs.length < u.ctxs.length + 1
          omega
    · rw [if_neg hse] at h'
      have := inv.hslotB sl' si' h'
      omega
  · intro x hx
    rw [hlenT] at hx
    rw [hlenC]
    by_cases hxo : x < u.tasks.length
    · rw [hgtA x hxo]
      have := inv.htaskB x hxo
      omega
    · have hxe : x = u.tasks.length := by omega
      subst hxe
      rw [hgtAn]
      show u.ctxs.length < u.ctxs.length + 1
      omega
  · intro x x' h1 h2 hne
    rw [hlenT] at h1 h2
    by_cases hxo : x < u.tasks.length
    · by_cases hxo' : x' < u.tasks.length
      · rw [hgtA x hxo, hgtA x' hxo']
        exact inv.htaskInj x x' hxo hxo' hne
      · have hxe : x' = u.tasks.length := by omega
        subst hxe
        rw [hgtA x hxo, hgtAn]
        have := inv.htaskB x hxo
        show (getTask u x).ctx ≠ u.ctxs.length
        omega
    · have hxe : x = u.tasks.length := by omega
      subst hxe
      have hxo' : x' < u.tasks.length := by omega
      rw [hgtA x' hxo', hgtAn]
      have := inv.htaskB x' hxo'
      show u.ctxs.length ≠ (getTask u x').ctx
      omega
  · intro x hx sl' si' hlkp hctx
    rw [hlenT] at hx
    rw [hlkA sl'] at hlkp
    by_cases hse : sl' = sl
    · rw [if_pos hse] at hlkp
      cases hf : lookupSlot u sl' with
      | none =>
          rw [hf] at hlkp
          exact Option.noConfusion hlkp
      | some si0 =>
          rw [hf] at hlkp
          have he : ({ si0 with context := u.ctxs.length } : SlotInfo) = si' :=
            Option.some.inj hlkp
          by_cases hxo : x < u.tasks.length
          · exfalso
            rw [hgtA x hxo] at hctx
            rw [← he] at hctx
            have hb := inv.htaskB x hxo
            have : u.ctxs.length = (getTask u x).ctx := hctx
            omega
          · have hxe : x = u.tasks.length := by omega
            subst hxe
            rw [hgtAn]
            exact hse
    · rw [if_neg hse] at hlkp
      by_cases hxo : x < u.tasks.length
      · rw [hgtA x hxo] at hctx ⊢
        exact inv.htaskOwn x hxo sl' si' hlkp hctx
      · exfalso
        have hxe : x = u.tasks.length := by omega
        subst hxe
        rw [hgtAn] at hctx
        have hb := inv.hslotB sl' si' hlkp
        have : si'.context = u.ctxs.length := hctx
        omega
  · intro x hx hcx
    rw [hlenT] at hx
    by_cases hxo : x < u.tasks.length
    · rw [hgtA x hxo] at hcx ⊢
      have hb := inv.htaskB x hxo
      rw [hccA _ hb] at hcx
      obtain ⟨si1, hsi1, hctx1⟩ := inv.htaskCur x hxo hcx
      have hslne : (getTask u x).slot ≠ sl := by
        intro hh
        rw [hh, hsi] at hsi1
        have : si = si1 := Option.some.inj hsi1
        rw [← this] at hctx1
        rw [hctx1] at hccur
        rw [hccur] at hcx
        exact Bool.noConfusion hcx
      refine ⟨si1, ?_, hctx1⟩
      rw [hlkA _, if_neg hslne]
      exact hsi1
    · have hxe : x = u.tasks.length := by omega
      subst hxe
      rw [hgtAn]
      refine ⟨{ si with context := u.ctxs.length }, ?_, rfl⟩
      show lookupSlot A sl = some _
      rw [hlkA sl, if_pos rfl, hsi]
      rfl
  · intro e he hde
    have he' : e < u.execs.length := by
      rw [hA] at he
      exact he
    rw [hgeA] at hde ⊢
    rw [hexecOfA]
    exact inv.hexecRec e he' hde
  · intro sl' si' e hlkp hexq
    rw [hlkA sl'] at hlkp
    by_cases hse : sl' = sl
    · rw [if_pos hse] at hlkp
      cases hf : lookupSlot u sl' with
      | none =>
          rw [hf] at hlkp
          exact Option.noConfusion hlkp
      | some si0 =>
          rw [hf] at hlkp
          have he : ({ si0 with context := u.ctxs.length } : SlotInfo) = si' :=
            Option.some.inj hlkp
          have hex0 : si0.executing = some e := by
            rw [← he] at hexq
            exact hexq
          obtain ⟨hb, hsl2⟩ := inv.hrecWF sl' si0 e hf hex0
          refine ⟨?_, ?_⟩
          · show e < u.execs.length
            exact hb
          · rw [hgeA]
            exact hsl2
    · rw [if_neg hse] at hlkp
      obtain ⟨hb, hsl2⟩ := inv.hrecWF sl' si' e hlkp hexq
      refine ⟨?_, ?_⟩
      · show e < u.execs.length
        exact hb
      · rw [hgeA]
        exact hsl2
  · intro e he
    have he' : e < u.execs.length := he
    obtain ⟨hb, hsl2, hph⟩ := inv.hexecWF e he'
    rw [hgeA]
    refine ⟨?_, ?_, ?_⟩
    · rw [hlenT]
      omega
    · rw [hgtA _ hb]
      exact hsl2
    · intro hde
      rw [hgtA _ hb]
      exact hph hde
  · intro e he hde w hw
    have he' : e < u.execs.length := he
    rw [hgeA] at hde hw ⊢
    obtain ⟨hb, hsl2, hph⟩ := inv.hwaitWF e he' hde w hw
    refine ⟨?_, ?_, ?_⟩
    · rw [hlenT]
      omega
    · rw [hgtA _ hb]
      exact hsl2
    · rw [hgtA _ hb]
      exact hph
  · intro e he
    have he' : e < u.execs.length := he
    rw [hgeA]
    exact inv.hwaitNd e he'
  · intro d tid hm
    have hm' : (d, TAct.wake tid) ∈ u.timers := hm
    obtain ⟨hb, hph⟩ := inv.htimerW d tid hm'
    refine ⟨?_, ?_⟩
    · rw [hlenT]
      omega
    · rw [hgtA _ hb]
      exact hph
  · intro d e hm
    have hm' : (d, TAct.complete e) ∈ u.timers := hm
    obtain ⟨hb, hde⟩ := inv.htimerC d e hm'
    refine ⟨?_, ?_⟩
    · show e < u.execs.length
      exact hb
    · rw [hgeA]
      exact hde
  · show u.timers.Pairwise (fun a b => a.2 ≠ b.2)
    exact inv.htpw

/-- Registering a period-wait timer for the freshly parked task preserves the
invariant. -/
theorem Inv_addWake (X : State) (invX : Inv X) (tidN d0 : Nat)
    (htid : tidN < X.tasks.length)
    (hph : (getTask X tidN).phase = Phase.waitTimer d0)
    (hfresh : ∀ d, (d, TAct.wake tidN) ∉ X.timers) :
    Inv ({ X with timers := X.timers ++ [(d0, TAct.wake tidN)] } : State) := by
  refine ⟨invX.hover, invX.hslotB, invX.htaskB, invX.htaskInj, invX.htaskOwn,
    invX.htaskCur, invX.hexecRec, invX.hrecWF, invX.hexecWF, invX.hwaitWF,
    invX.hwaitNd, ?_, ?_, ?_⟩
  · intro d tid hm
    have hm2 : (d, TAct.wake tid) ∈ X.timers ++ [(d0, TAct.wake tidN)] := hm
    rcases List.mem_append.mp hm2 with h | h
    · exact invX.htimerW d tid h
    · have heq := List.mem_singleton.mp h
      have h1 : d = d0 := congrArg Prod.fst heq
      have h2 : tid = tidN := TAct.wake.inj (congrArg Prod.snd heq)
      subst h1
      subst h2
      exact ⟨htid, hph⟩
  · intro d eid hm
    have hm2 : (d, TAct.complete eid) ∈ X.timers ++ [(d0, TAct.wake tidN)] := hm
    rcases List.mem_append.mp hm2 with h | h
    · exact invX.htimerC d eid h
    · exact TAct.noConfusion (congrArg Prod.snd (List.mem_singleton.mp h))
  · show (X.timers ++ [(d0, TAct.wake tidN)]).Pairwise (fun a b => a.2 ≠ b.2)
    rw [List.pairwise_append]
    refine ⟨invX.htpw, List.pairwise_singleton _ _, ?_⟩
    intro a ha b hb
    rw [List.mem_singleton.mp hb]
    intro hc
    apply hfresh a.1
    have hc2 : a.2 = TAct.wake tidN := hc
    rw [← hc2]
    exact ha

/-- Full admission (lines 147–163) preserves the invariant: either the call
parks with a wake timer, or — at period zero — it continues straight into
the line-165 continuation. -/
theorem Inv_startAdmit (u : State) (sl : String) (p : Nat) (hd : HandlerSpec)
    (inv : Inv u) (si : SlotInfo) (hsi : lookupSlot u sl = some si)
    (hccur : ctxCanceled u si.context = true) :
    Inv (startAdmit u sl p hd) := by
  by_cases hp : p = 0
  · subst hp
    rw [startAdmit_zero_eq]
    have invC := Inv_admitCore u sl hd u.now inv si hsi hccur
    refine Inv_afterWait _ u.tasks.length invC ?_ ?_ ?_ ?_
    · show u.tasks.length < (u.tasks
        ++ [({ slot := sl, ctx := u.ctxs.length, handler := hd,
               phase := Phase.waitTimer u.now } : STask)]).length
      simp
    · intro eid he hde hh
      have he' : eid < u.execs.length := he
      have hd2 : (getExec u eid).done = false := hde
      have hb := (inv.hexecWF eid he').1
      have hh2 : (getExec u eid).invoker = u.tasks.length := hh
      omega
    · intro eid he hde hmem
      have he' : eid < u.execs.length := he
      have hd2 : (getExec u eid).done = false := hde
      have hmem' : u.tasks.length ∈ (getExec u eid).waiters := hmem
      have hb := (inv.hwaitWF eid he' hd2 _ hmem').1
      omega
    · intro d hm
      have hm' : (d, TAct.wake u.tasks.length) ∈ u.timers := hm
      have hb := (inv.htimerW d _ hm').1
      omega
  · rw [startAdmit_pos_eq u sl p hd hp]
    have invC := Inv_admitCore u sl hd (u.now + p) inv si hsi hccur
    set X := { updSlot { u with ctxs := u.ctxs ++ [false] } sl
        (fun si => { si with context := u.ctxs.length }) with
      tasks := u.tasks
        ++ [({ slot := sl, ctx := u.ctxs.length, handler := hd,
               phase := Phase.waitTimer (u.now + p) } : STask)] } with hX
    have htidN : u.tasks.length < X.tasks.length := by
      rw [hX]
      show u.tasks.length < (u.tasks
        ++ [({ slot := sl, ctx := u.ctxs.length, handler := hd,
               phase := Phase.waitTimer (u.now + p) } : STask)]).length
      simp
    have hphN : (getTask X u.tasks.length).phase = Phase.waitTimer (u.now + p) := by
      rw [hX]
      show ((u.tasks
        ++ [({ slot := sl, ctx := u.ctxs.length, handler := hd,
               phase := Phase.waitTimer (u.now + p) } : STask)]).getD
          u.tasks.length default).phase = _
      rw [getD_concat_length]
    have hfreshN : ∀ d, (d, TAct.wake u.tasks.length) ∉ X.timers := by
      intro d hm
      have hm2 : (d, TAct.wake u.tasks.length) ∈ u.timers := hm
      have hb := (inv.htimerW d _ hm2).1
      omega
    exact Inv_addWake X invC u.tasks.length (u.now + p) htidN hphN hfreshN

/-- An ignore-mode `start` preserves the invariant. -/
theorem Inv_start_ignore (s : State) (sl : String) (p : Nat) (hd : HandlerSpec)
    (inv : Inv s) : Inv (Slots.start s sl Mode.ignore p hd) := by
  rw [start_ignore_eq]
  have inv1 := Inv_getOrCreate s sl inv
  have hsl1 : lookupSlot (getOrCreateSlotInfo s sl) sl
      = some ((lookupSlot s sl).getD ⟨s.ctxs.length, none, none⟩) :=
    lookupSlot_getOrCreate_self s sl
  cases hcc : ctxCanceled (getOrCreateSlotInfo s sl)
      ((lookupSlot (getOrCreateSlotInfo s sl) sl).getD default).context with
  | true =>
      show Inv (startAdmit (getOrCreateSlotInfo s sl) sl p hd)
      apply Inv_startAdmit _ sl p hd inv1
        ((lookupSlot s sl).getD ⟨s.ctxs.length, none, none⟩) hsl1
      have hcc2 : ctxCanceled (getOrCreateSlotInfo s sl)
          ((some ((lookupSlot s sl).getD ⟨s.ctxs.length, none, none⟩)).getD
            default).context = true := by
        rw [← hsl1]
        exact hcc
      exact hcc2
  | false =>
      show Inv (getOrCreateSlotInfo s sl)
      exact inv1

/-- Every `start` call preserves the invariant, whatever the mode. -/
theorem Inv_start (s : State) (sl : String) (m : Mode) (p : Nat) (hd : HandlerSpec)
    (inv : Inv s) : Inv (Slots.start s sl m p hd) := by
  cases m with
  | ignore => exact Inv_start_ignore s sl p hd inv
  | cooldown =>
      rw [cooldown_refines_ignore]
      exact Inv_start_ignore s sl _ hd inv
  | push =>
      rw [start_push_eq]
      have inv1 := Inv_getOrCreate s sl inv
      have hsl1 : lookupSlot (getOrCreateSlotInfo s sl) sl
          = some ((lookupSlot s sl).getD ⟨s.ctxs.length, none, none⟩) :=
        lookupSlot_getOrCreate_self s sl
      rw [hsl1]
      have hbound := inv1.hslotB sl _ hsl1
      apply Inv_startAdmit _ sl p hd
        (Inv_setCancel _ _ inv1)
        ((lookupSlot s sl).getD ⟨s.ctxs.length, none, none⟩)
      · exact hsl1
      · exact ctxCanceled_setCancel_self hbound

/-- `cancel` preserves the invariant. -/
theorem Inv_cancel (s : State) (sl : String) (inv : Inv s) :
    Inv (Slots.cancel s sl) := by
  show Inv (setCancel (getOrCreateSlotInfo s sl)
    ((lookupSlot (getOrCreateSlotInfo s sl) sl).getD default).context)
  exact Inv_setCancel _ _ (Inv_getOrCreate s sl inv)

/-- Every external event preserves the invariant. -/
theorem Inv_step (s : State) (ev : Event) (inv : Inv s) : Inv (step s ev) := by
  cases ev with
  | start sl m p hd => exact Inv_start s sl m p hd inv
  | cancel sl => exact Inv_cancel s sl inv
  | onCD sl p => exact Inv_getOrCreate s sl inv
  | tick => exact Inv_tick s inv

/-- Every reachable state satisfies the invariant. -/
theorem Inv_run (evs : List Event) : Inv (run evs) := by
  suffices h : ∀ s, Inv s → Inv (List.foldl step s evs) from h init Inv_init
  induction evs with
  | nil => exact fun s i => i
  | cons e es ih =>
      intro s i
      rw [List.foldl_cons]
      exact ih (step s e) (Inv_step s e i)

/-- C1: mutual exclusion.  In every reachable state, the ghost `overlaps`
counter — bumped whenever a handler is invoked while another execution on
the same slot is still in flight — is zero, every in-flight asynchronous
execution is the one recorded in its slot's `executing` field, and hence at
most one in-flight execution exists per slot at any time. -/
theorem mutual_exclusion (evs : List Event) :
    (run evs).overlaps = 0
    ∧ (∀ eid, eid < (run evs).execs.length →
        (getExec (run evs) eid).done = false →
        execOf (run evs) (getExec (run evs) eid).slot = some eid)
    ∧ (∀ eid eid', eid < (run evs).execs.length →
        eid' < (run evs).execs.length →
        (getExec (run evs) eid).done = false →
        (getExec (run evs) eid').done = false →
        (getExec (run evs) eid).slot = (getExec (run evs) eid').slot →
        eid = eid') := by
  have inv := Inv_run evs
  refine ⟨inv.hover, inv.hexecRec, ?_⟩
  intro eid eid' h1 h2 hd1 hd2 hsl
  have r1 := inv.hexecRec eid h1 hd1
  have r2 := inv.hexecRec eid' h2 hd2
  rw [hsl] at r1
  rw [r1] at r2
  exact Option.some.inj r2

theorem mutual_exclusion_witness :
    ((run [Event.start "a" Mode.push 0 (HandlerSpec.async 5)]).overlaps = 0
      ∧ 0 < (run [Event.start "a" Mode.push 0 (HandlerSpec.async 5)]).execs.length
      ∧ (getExec (run [Event.start "a" Mode.push 0 (HandlerSpec.async 5)]) 0).done
          = false)
    ∧ execOf (run [Event.start "a" Mode.push 0 (HandlerSpec.async 5)])
        (getExec (run [Event.start "a" Mode.push 0 (HandlerSpec.async 5)]) 0).slot
      = some 0 :=
  ⟨⟨(mutual_exclusion [Event.start "a" Mode.push 0 (HandlerSpec.async 5)]).1,
    by decide, by decide⟩,
    (mutual_exclusion [Event.start "a" Mode.push 0 (HandlerSpec.async 5)]).2.1 0
      (by decide) (by decide)⟩

end Slots
